import Mathlib

/-!
# Schedule builder: course units, conflict detection and the schedule search

A shallow embedding of `src/schedule-script.js` (the generation engine of the
schedule builder) and theorems about it.

Conventions of the embedding

* A catalog record (`coursesData.courses[i]`) is a `Section`.  Its `schedule.sessions`
  array is the field `sessions` (`decodeCoursesData` maps over it, so it is always there).
* A time-of-day text `"HH:MM"` is kept as the two numbers that
  `timeStr.split(':').map(Number)` yields (`TimeStr`).
* `creditHours` holds the outcome of `parseInt(course.creditHours)`; `none` is `NaN`.
* The global sets `selectedCourses`, `mandatoryCourses`, `registeredSections` and the
  values read from the page (`DOM.*`, `getSelectedDays()`) are fields of `Settings`.
  A JavaScript `Set` is the list of its members in insertion order.
* The object `courseUnits` is an association list in key insertion order.
* The array `allSchedules` that the search appends to is threaded through the
  search functions as an accumulator.
-/

namespace ScheduleBuilder

/-! ## Data model -/

/-- Time text "HH:MM", held as the numbers produced by splitting at the colon. -/
structure TimeStr where
  hours : Nat
  minutes : Nat
deriving DecidableEq, Repr

/-- One weekly session of a section (an element of `schedule.sessions`). -/
structure Session where
  day : Nat
  startTime : TimeStr
  endTime : TimeStr
  room : String
deriving DecidableEq, Repr

/-- One record of `coursesData.courses`: a section of a course. -/
structure Section where
  code : String
  name : String
  sectionId : String
  type : String
  creditHours : Option Int
  status : String
  instructor : String
  sessions : List Session
deriving DecidableEq, Repr

/-- The section type text of a theoretical section. -/
def THEORETICAL : String := "نظري"

/-- The section type text of a practical section. -/
def PRACTICAL : String := "عملي"

/-- The status text of an open section. -/
def OPEN : String := "مفتوحة"

/-- The status text of a closed section. -/
def CLOSED : String := "مغلقة"

/-- The `type` tag of a course unit. -/
inductive UnitType where
  | combined
  | theoretical
  | practical
deriving DecidableEq, Repr

/-- A course unit as built by `setupCourseUnits`: an object with a `type` tag, an optional
`theoretical` section, an optional `practical` section and `totalCredits`. -/
structure CourseUnit where
  type : UnitType
  theoretical : Option Section
  practical : Option Section
  totalCredits : Int
deriving DecidableEq, Repr

/-- The object `courseUnits`: course code to the list of its units, keys in insertion order. -/
abbrev CourseUnits := List (String × List CourseUnit)

/-! ## Course units setup (`setupCourseUnits`) -/

/-- Value of `parseInt(course.creditHours) || 0`. -/
def parsedCredits (course : Section) : Int := course.creditHours.getD 0

/-- Body of the `for` loop of `setupCourseUnits` at one index: given `courses[i - 1]`,
`courses[i]` and `courses[i + 1]`, the unit pushed (if any) and whether `i++` ran
(the next index is skipped). -/
def loopBody (prevCourse : Option Section) (course : Section) (nextCourse : Option Section) :
    Option CourseUnit × Bool :=
  if course.type = THEORETICAL then
    match nextCourse with
    | some practicalCourse =>
      if practicalCourse.code = course.code ∧ practicalCourse.type = PRACTICAL then
        (some ⟨UnitType.combined, some course, some practicalCourse, parsedCredits course⟩, true)
      else
        (some ⟨UnitType.theoretical, some course, none, parsedCredits course⟩, false)
    | none => (some ⟨UnitType.theoretical, some course, none, parsedCredits course⟩, false)
  else if course.type = PRACTICAL then
    match prevCourse with
    | none => (some ⟨UnitType.practical, none, some course, 0⟩, false)
    | some prev =>
      if prev.code ≠ course.code ∨ prev.type ≠ THEORETICAL then
        (some ⟨UnitType.practical, none, some course, 0⟩, false)
      else (none, false)
  else (none, false)

/-- One iteration of the loop: its index `i`, the course code of `courses[i]` (whose key is
created when missing, unless the code is an inherited name) and the unit it pushes under that
code. -/
structure Iteration where
  index : Nat
  courseCode : String
  pushed : Option CourseUnit
deriving DecidableEq, Repr

/-- The iterations of the loop of `setupCourseUnits` from index `i` on, as they follow each
other while none throws, where the list is `courses.slice(i)` and `prevCourse` is
`courses[i - 1]`. -/
def scanCourses : Nat → Option Section → List Section → List Iteration
  | _, _, [] => []
  | i, prevCourse, [course] => [⟨i, course.code, (loopBody prevCourse course none).1⟩]
  | i, prevCourse, course :: nextCourse :: rest =>
    ⟨i, course.code, (loopBody prevCourse course (some nextCourse)).1⟩ ::
      (if (loopBody prevCourse course (some nextCourse)).2 then
        scanCourses (i + 2) (some nextCourse) rest
      else
        scanCourses (i + 1) (some course) (nextCourse :: rest))

/-- Lookup `courseUnits[courseCode]`; `none` is `undefined`. -/
def unitsOf (courseUnits : CourseUnits) (courseCode : String) : Option (List CourseUnit) :=
  (courseUnits.find? (fun e => decide (e.1 = courseCode))).map Prod.snd

/-- Effect of `if (!courseUnits[courseCode]) courseUnits[courseCode] = []`. -/
def initCode (courseUnits : CourseUnits) (courseCode : String) : CourseUnits :=
  if (unitsOf courseUnits courseCode).isSome then courseUnits
  else courseUnits ++ [(courseCode, [])]

/-- Effect of `courseUnits[courseCode].push(unit)`. -/
def pushUnit (courseUnits : CourseUnits) (courseCode : String) (unit : CourseUnit) :
    CourseUnits :=
  courseUnits.map (fun e => if e.1 = courseCode then (e.1, e.2 ++ [unit]) else e)

/-- Effect on `courseUnits` of one loop iteration whose course code is not an inherited name. -/
def applyIteration (courseUnits : CourseUnits) (it : Iteration) : CourseUnits :=
  match it.pushed with
  | none => initCode courseUnits it.courseCode
  | some unit => pushUnit (initCode courseUnits it.courseCode) it.courseCode unit

/-- The property names that the object literal `{}` inherits from `Object.prototype`: for
these `courseUnits[courseCode]` is a function (or, for `__proto__`, the prototype object)
although `courseUnits` has no such key of its own. -/
def inheritedNames : List String :=
  ["constructor", "__defineGetter__", "__defineSetter__", "hasOwnProperty",
   "__lookupGetter__", "__lookupSetter__", "isPrototypeOf", "propertyIsEnumerable",
   "toString", "valueOf", "__proto__", "toLocaleString"]

/-- One loop iteration run on `courseUnits`; `none` when it throws. For an inherited name the
test `!courseUnits[courseCode]` is false, so no key is created, and
`courseUnits[courseCode].push(...)` throws a `TypeError` because the inherited value has no
`push`; an iteration that pushes nothing then leaves `courseUnits` as it is. -/
def runIteration (courseUnits : CourseUnits) (it : Iteration) : Option CourseUnits :=
  if it.courseCode ∈ inheritedNames then
    match it.pushed with
    | none => some courseUnits
    | some _ => none
  else some (applyIteration courseUnits it)

/-- The loop run over its iterations: the value of the global `courseUnits` when the loop
ends, and whether it ended by a `TypeError` (the iterations after the throwing one do not
run). -/
def runIterations : CourseUnits → List Iteration → CourseUnits × Bool
  | courseUnits, [] => (courseUnits, false)
  | courseUnits, it :: rest =>
    match runIteration courseUnits it with
    | none => (courseUnits, true)
    | some next => runIterations next rest

/-- The function `setupCourseUnits`: the value of the global `courseUnits` when the call
ends, whether it returns or throws. -/
def setupCourseUnits (courses : List Section) : CourseUnits :=
  (runIterations [] (scanCourses 0 none courses)).1

/-- Whether the call of `setupCourseUnits` ends by throwing a `TypeError`. -/
def setupCourseUnitsThrows (courses : List Section) : Bool :=
  (runIterations [] (scanCourses 0 none courses)).2

/-- The iterations that changed `courseUnits`: those before the first throwing one whose
course code is not an inherited name. -/
def effectiveIterations (its : List Iteration) : List Iteration :=
  (its.takeWhile
      (fun it => !(decide (it.courseCode ∈ inheritedNames) && it.pushed.isSome))).filter
    (fun it => !decide (it.courseCode ∈ inheritedNames))

/-! ## Time utilities and conflict detection -/

/-- The function `timeToMinutes`: `hours * 60 + minutes`. -/
def timeToMinutes (timeStr : TimeStr) : Nat := timeStr.hours * 60 + timeStr.minutes

/-- The test in the inner loop of `hasTimeConflict` for one pair of sessions. -/
def sessionsOverlap (session1 session2 : Session) : Bool :=
  decide (session1.day = session2.day) &&
    (decide (timeToMinutes session1.startTime < timeToMinutes session2.endTime) &&
     decide (timeToMinutes session2.startTime < timeToMinutes session1.endTime))

/-- The function `hasTimeConflict`: the nested loops return `true` at the first overlapping pair. -/
def hasTimeConflict (sessions1 sessions2 : List Session) : Bool :=
  sessions1.any (fun session1 => sessions2.any (fun session2 => sessionsOverlap session1 session2))

/-- Sessions of a unit, theoretical first, as collected into `sessions1`, `sessions2`
and `allSessions`. -/
def unitSessions (unit : CourseUnit) : List Session :=
  (match unit.theoretical with
   | some t => t.sessions
   | none => []) ++
  (match unit.practical with
   | some p => p.sessions
   | none => [])

/-- The array `allSessions` of `isValidSchedule`. -/
def allSessions (units : List CourseUnit) : List Session :=
  units.flatMap unitSessions

/-- The double loop of `isValidSchedule` over `i < j`: `true` when no pair conflicts. -/
def noPairConflict : List Session → Bool
  | [] => true
  | s :: rest => rest.all (fun t => !hasTimeConflict [s] [t]) && noPairConflict rest

/-- The function `isValidSchedule`, with `getSelectedDays()` passed in. -/
def isValidSchedule (selectedDays : List Nat) (units : List CourseUnit) : Bool :=
  noPairConflict (allSessions units) &&
    (allSessions units).all (fun session => selectedDays.contains session.day)

/-! ## Gap analysis and scoring -/

/-- An entry pushed to `dailySchedules[session.day]`. -/
structure DaySlot where
  start : Nat
  finish : Nat
  startTime : TimeStr
  endTime : TimeStr
deriving DecidableEq, Repr

/-- A record of `dailyGaps[day]` (the display text `gapText` is left out). -/
structure GapRecord where
  gapMinutes : Int
  afterTime : TimeStr
  beforeTime : TimeStr
deriving DecidableEq, Repr

/-- The entry built from a session. -/
def slotOf (session : Session) : DaySlot :=
  ⟨timeToMinutes session.startTime, timeToMinutes session.endTime,
    session.startTime, session.endTime⟩

/-- Effect of `dailySchedules[day].push(slot)` (creating the key when missing) on an object
with integer keys, whose entries enumerate in ascending key order. -/
def addSlot : List (Nat × List DaySlot) → Nat → DaySlot → List (Nat × List DaySlot)
  | [], day, slot => [(day, [slot])]
  | (d, slots) :: rest, day, slot =>
    if day = d then (d, slots ++ [slot]) :: rest
    else if day < d then (day, [slot]) :: (d, slots) :: rest
    else (d, slots) :: addSlot rest day slot

/-- The object `dailySchedules` after the first loop of `calculateDailyGaps`. -/
def dailySchedules (units : List CourseUnit) : List (Nat × List DaySlot) :=
  (allSessions units).foldl (fun acc session => addSlot acc session.day (slotOf session)) []

/-- The stable sort `sessions.sort((a, b) => a.start - b.start)`. -/
def sortByStart (sessions : List DaySlot) : List DaySlot :=
  sessions.insertionSort (fun a b => a.start ≤ b.start)

/-- The loop over `i = 1 .. sessions.length - 1` on the sorted sessions of one day. -/
def gapsBetween : List DaySlot → List GapRecord
  | [] => []
  | [_] => []
  | prev :: next :: rest =>
    (if ((next.start : Int) - (prev.finish : Int)) > 10 then
      [⟨(next.start : Int) - (prev.finish : Int), prev.endTime, next.startTime⟩]
    else []) ++ gapsBetween (next :: rest)

/-- The function `calculateDailyGaps`: day to the gap records of that day. -/
def calculateDailyGaps (units : List CourseUnit) : List (Nat × List GapRecord) :=
  (dailySchedules units).map (fun e => (e.1, gapsBetween (sortByStart e.2)))

/-- The sum `totalGapMinutes` computed in `calculateScheduleScore`. -/
def totalGapMinutes (units : List CourseUnit) : Int :=
  (calculateDailyGaps units).foldl
    (fun total dayGaps => total + dayGaps.2.foldl (fun dayTotal gap => dayTotal + gap.gapMinutes) 0) 0

/-- Score change for the theoretical section of a unit. -/
def theoreticalScore (registeredSections : List String) (unit : CourseUnit) : Int :=
  match unit.theoretical with
  | none => 0
  | some t =>
    if registeredSections.contains t.sectionId then 100
    else if t.status = OPEN then 20
    else -5

/-- Score change for the practical section of a unit. -/
def practicalScore (registeredSections : List String) (unit : CourseUnit) : Int :=
  match unit.practical with
  | none => 0
  | some p =>
    if registeredSections.contains p.sectionId then 50
    else if p.status = OPEN then 10
    else -3

/-- The function `calculateScheduleScore`. -/
def calculateScheduleScore (registeredSections : List String) (units : List CourseUnit) : Int :=
  units.foldl
      (fun score unit =>
        score + theoreticalScore registeredSections unit + practicalScore registeredSections unit)
      100
    - Int.fdiv (totalGapMinutes units) 10

/-! ## Schedule search (`generateAllSchedulesComprehensive`) -/

/-- The values the search reads from the page and from the global sets. -/
structure Settings where
  minCredits : Int
  maxCredits : Int
  maxResults : Int
  includeClosedSections : Bool
  allowPartialSchedules : Bool
  selectedDays : List Nat
  selectedCourses : List String
  mandatoryCourses : List String
  registeredSections : List String
deriving DecidableEq, Repr

/-- An element of `courseOptions`. -/
structure CourseOption where
  code : String
  units : List CourseUnit
  isMandatory : Bool
deriving DecidableEq, Repr

/-- An element of `allSchedules`. -/
structure Schedule where
  units : List CourseUnit
  totalCredits : Int
  score : Int
deriving DecidableEq, Repr

/-- An element of `validCombinations` (a mandatory base). -/
structure MandatorySchedule where
  units : List CourseUnit
  totalCredits : Int
deriving DecidableEq, Repr

/-- The `theoreticalOpen` and `practicalOpen` test of the closed-section filter. -/
def sectionOpen (registeredSections : List String) (s : Option Section) : Bool :=
  match s with
  | none => true
  | some c => decide (c.status = OPEN) || registeredSections.contains c.sectionId

/-- The predicate of `units.filter(...)` when closed sections are not included. -/
def unitAvailable (registeredSections : List String) (unit : CourseUnit) : Bool :=
  sectionOpen registeredSections unit.theoretical && sectionOpen registeredSections unit.practical

/-- The callback of `selectedCoursesArray.map(...)` given the value of `courseUnits[courseCode]`. -/
def courseOptionOf (cfg : Settings) (courseCode : String) (units : List CourseUnit) :
    CourseOption :=
  ⟨courseCode,
    if cfg.includeClosedSections then units
    else units.filter (unitAvailable cfg.registeredSections),
    cfg.mandatoryCourses.contains courseCode⟩

/-- The `map` step of `courseOptions`; `none` when `courseUnits[courseCode]` is `undefined`
for a selected code (the callback then throws a `TypeError`). -/
def mapCourseOptions (courseUnits : CourseUnits) (cfg : Settings) :
    List String → Option (List CourseOption)
  | [] => some []
  | courseCode :: rest =>
    match unitsOf courseUnits courseCode with
    | none => none
    | some units =>
      match mapCourseOptions courseUnits cfg rest with
      | none => none
      | some options => some (courseOptionOf cfg courseCode units :: options)

/-- The array `courseOptions`: mapped, then filtered by `option.units.length > 0`. -/
def courseOptions (courseUnits : CourseUnits) (cfg : Settings) : Option (List CourseOption) :=
  (mapCourseOptions courseUnits cfg cfg.selectedCourses).map
    (fun options => options.filter (fun option => decide (option.units.length > 0)))

/-- The inner loop of the search over `existingUnit of currentSchedule`: the final value
of `hasConflict`. -/
def hasConflictWith (currentSchedule : List CourseUnit) (unit : CourseUnit) : Bool :=
  currentSchedule.any (fun existingUnit =>
    hasTimeConflict (unitSessions unit) (unitSessions existingUnit))

/-- The test `maxResults > 0 && allSchedules.length >= maxResults`. -/
def capReached (cfg : Settings) (allSchedules : List Schedule) : Bool :=
  decide (cfg.maxResults > 0) && decide ((allSchedules.length : Int) ≥ cfg.maxResults)

/-- The emission step of `generateCombinations`: `allSchedules` after the block
`if (totalCredits >= minCredits) ...`. -/
def emit (cfg : Settings) (currentSchedule : List CourseUnit) (totalCredits : Int)
    (allSchedules : List Schedule) : List Schedule :=
  if totalCredits ≥ cfg.minCredits then
    if isValidSchedule cfg.selectedDays currentSchedule then
      allSchedules ++ [⟨currentSchedule, totalCredits,
        calculateScheduleScore cfg.registeredSections currentSchedule⟩]
    else allSchedules
  else allSchedules

/-- The inner function `generateCombinations(currentSchedule, courseIndex, totalCredits)`.
The first argument is `optionalOptions.slice(courseIndex)`; the last argument and the result
are `allSchedules` before and after the call. `totalCredits` is held as an exact integer,
which is the number the source holds as long as the credit sums stay below 2^53;
`generateCombinationsNum` is the same function with the sums rounded as doubles are. -/
def generateCombinations (cfg : Settings) :
    List CourseOption → List CourseUnit → Int → List Schedule → List Schedule
  | [], currentSchedule, totalCredits, allSchedules =>
    if capReached cfg allSchedules then allSchedules
    else emit cfg currentSchedule totalCredits allSchedules
  | currentCourse :: rest, currentSchedule, totalCredits, allSchedules =>
    if capReached cfg allSchedules then allSchedules
    else if totalCredits ≥ cfg.maxCredits then
      emit cfg currentSchedule totalCredits allSchedules
    else
      let afterUnits :=
        currentCourse.units.foldl
          (fun acc unit =>
            if totalCredits + unit.totalCredits ≤ cfg.maxCredits then
              if hasConflictWith currentSchedule unit then acc
              else
                generateCombinations cfg rest (currentSchedule ++ [unit])
                  (totalCredits + unit.totalCredits) acc
            else acc)
          (emit cfg currentSchedule totalCredits allSchedules)
      if cfg.allowPartialSchedules then
        generateCombinations cfg rest currentSchedule totalCredits afterUnits
      else afterUnits

/-- The inner function `generate(currentSchedule, courseIndex, totalCredits)` of
`generateMandatoryCombinations`. The first argument is `mandatoryOptions.slice(courseIndex)`;
the last argument and the result are `validCombinations` before and after the call.
`totalCredits` is held as an exact integer, which is the number the source holds as long as
the credit sums stay below 2^53; `generateNum` is the same function with the sums rounded as
doubles are. -/
def generate (selectedDays : List Nat) :
    List CourseOption → List CourseUnit → Int → List MandatorySchedule → List MandatorySchedule
  | [], currentSchedule, totalCredits, validCombinations =>
    if isValidSchedule selectedDays currentSchedule then
      validCombinations ++ [⟨currentSchedule, totalCredits⟩]
    else validCombinations
  | currentCourse :: rest, currentSchedule, totalCredits, validCombinations =>
    currentCourse.units.foldl
      (fun acc unit =>
        if hasConflictWith currentSchedule unit then acc
        else
          generate selectedDays rest (currentSchedule ++ [unit])
            (totalCredits + unit.totalCredits) acc)
      validCombinations

/-- The function `generateMandatoryCombinations`. -/
def generateMandatoryCombinations (selectedDays : List Nat)
    (mandatoryOptions : List CourseOption) : List MandatorySchedule :=
  if mandatoryOptions.length = 0 then [⟨[], 0⟩]
  else generate selectedDays mandatoryOptions [] 0 []

/-- The loop `for (const mandatorySchedule of mandatorySchedules)` with its `break`. -/
def runMandatorySchedules (cfg : Settings) (optionalOptions : List CourseOption) :
    List MandatorySchedule → List Schedule → List Schedule
  | [], allSchedules => allSchedules
  | mandatorySchedule :: rest, allSchedules =>
    if capReached cfg
        (generateCombinations cfg optionalOptions mandatorySchedule.units
          mandatorySchedule.totalCredits allSchedules) then
      generateCombinations cfg optionalOptions mandatorySchedule.units
        mandatorySchedule.totalCredits allSchedules
    else
      runMandatorySchedules cfg optionalOptions rest
        (generateCombinations cfg optionalOptions mandatorySchedule.units
          mandatorySchedule.totalCredits allSchedules)

/-- The stable sort `allSchedules.sort((a, b) => b.score - a.score)`. -/
def sortByScore (allSchedules : List Schedule) : List Schedule :=
  allSchedules.insertionSort (fun a b => a.score ≥ b.score)

/-- The array `allSchedules` just before it is sorted, given `courseOptions`. -/
def searchSchedules (cfg : Settings) (options : List CourseOption) : List Schedule :=
  if (generateMandatoryCombinations cfg.selectedDays
        (options.filter (fun opt => opt.isMandatory))).length = 0 ∧
      (options.filter (fun opt => opt.isMandatory)).length > 0 then []
  else if (generateMandatoryCombinations cfg.selectedDays
        (options.filter (fun opt => opt.isMandatory))).length > 0 then
    runMandatorySchedules cfg (options.filter (fun opt => !opt.isMandatory))
      (generateMandatoryCombinations cfg.selectedDays
        (options.filter (fun opt => opt.isMandatory))) []
  else generateCombinations cfg (options.filter (fun opt => !opt.isMandatory)) [] 0 []

/-- The function `generateAllSchedulesComprehensive`; `none` when it throws. -/
def generateAllSchedulesComprehensive (courseUnits : CourseUnits) (cfg : Settings) :
    Option (List Schedule) :=
  (courseOptions courseUnits cfg).map (fun options => sortByScore (searchSchedules cfg options))

/-! ## Calls of the recursive procedures -/

/-- The inner function `generateCombinations` with its calls recorded: the state pairs
`allSchedules` with the values of `currentSchedule` at the entry of every call so far. -/
def generateCombinationsCalls (cfg : Settings) :
    List CourseOption → List CourseUnit → Int → List Schedule × List (List CourseUnit) →
      List Schedule × List (List CourseUnit)
  | [], currentSchedule, totalCredits, st =>
    if capReached cfg st.1 then (st.1, st.2 ++ [currentSchedule])
    else (emit cfg currentSchedule totalCredits st.1, st.2 ++ [currentSchedule])
  | currentCourse :: rest, currentSchedule, totalCredits, st =>
    if capReached cfg st.1 then (st.1, st.2 ++ [currentSchedule])
    else if totalCredits ≥ cfg.maxCredits then
      (emit cfg currentSchedule totalCredits st.1, st.2 ++ [currentSchedule])
    else
      let afterUnits :=
        currentCourse.units.foldl
          (fun acc unit =>
            if totalCredits + unit.totalCredits ≤ cfg.maxCredits then
              if hasConflictWith currentSchedule unit then acc
              else
                generateCombinationsCalls cfg rest (currentSchedule ++ [unit])
                  (totalCredits + unit.totalCredits) acc
            else acc)
          (emit cfg currentSchedule totalCredits st.1, st.2 ++ [currentSchedule])
      if cfg.allowPartialSchedules then
        generateCombinationsCalls cfg rest currentSchedule totalCredits afterUnits
      else afterUnits

/-- The inner function `generate` with its calls recorded: the state pairs
`validCombinations` with the values of `currentSchedule` at the entry of every call so far. -/
def generateCalls (selectedDays : List Nat) :
    List CourseOption → List CourseUnit → Int →
      List MandatorySchedule × List (List CourseUnit) →
      List MandatorySchedule × List (List CourseUnit)
  | [], currentSchedule, totalCredits, st =>
    (if isValidSchedule selectedDays currentSchedule then
        st.1 ++ [⟨currentSchedule, totalCredits⟩]
      else st.1,
     st.2 ++ [currentSchedule])
  | currentCourse :: rest, currentSchedule, totalCredits, st =>
    currentCourse.units.foldl
      (fun acc unit =>
        if hasConflictWith currentSchedule unit then acc
        else
          generateCalls selectedDays rest (currentSchedule ++ [unit])
            (totalCredits + unit.totalCredits) acc)
      (st.1, st.2 ++ [currentSchedule])

/-- The function `generateMandatoryCombinations` with the calls of `generate` recorded. -/
def generateMandatoryCombinationsCalls (selectedDays : List Nat)
    (mandatoryOptions : List CourseOption) :
    List MandatorySchedule × List (List CourseUnit) :=
  if mandatoryOptions.length = 0 then ([⟨[], 0⟩], [])
  else generateCalls selectedDays mandatoryOptions [] 0 ([], [])

/-- The loop over `mandatorySchedules` with the calls of `generateCombinations` recorded. -/
def runMandatorySchedulesCalls (cfg : Settings) (optionalOptions : List CourseOption) :
    List MandatorySchedule → List Schedule × List (List CourseUnit) →
      List Schedule × List (List CourseUnit)
  | [], st => st
  | mandatorySchedule :: rest, st =>
    if capReached cfg
        (generateCombinationsCalls cfg optionalOptions mandatorySchedule.units
          mandatorySchedule.totalCredits st).1 then
      generateCombinationsCalls cfg optionalOptions mandatorySchedule.units
        mandatorySchedule.totalCredits st
    else
      runMandatorySchedulesCalls cfg optionalOptions rest
        (generateCombinationsCalls cfg optionalOptions mandatorySchedule.units
          mandatorySchedule.totalCredits st)

/-- The values of `currentSchedule` at every call of `generate` and then of
`generateCombinations` during one run of the search, in call order. -/
def searchCalls (cfg : Settings) (options : List CourseOption) : List (List CourseUnit) :=
  (generateMandatoryCombinationsCalls cfg.selectedDays
      (options.filter (fun opt => opt.isMandatory))).2 ++
    (if (generateMandatoryCombinationsCalls cfg.selectedDays
          (options.filter (fun opt => opt.isMandatory))).1.length = 0 ∧
        (options.filter (fun opt => opt.isMandatory)).length > 0 then []
    else if (generateMandatoryCombinationsCalls cfg.selectedDays
          (options.filter (fun opt => opt.isMandatory))).1.length > 0 then
      (runMandatorySchedulesCalls cfg (options.filter (fun opt => !opt.isMandatory))
        (generateMandatoryCombinationsCalls cfg.selectedDays
          (options.filter (fun opt => opt.isMandatory))).1 ([], [])).2
    else
      (generateCombinationsCalls cfg (options.filter (fun opt => !opt.isMandatory)) [] 0
        ([], [])).2)

/-! ## Credit totals as JavaScript numbers -/

/-- A credit total as the JavaScript number the search holds: a finite double with an integer
value, or an infinity. Sums of finite integers never give `NaN`. -/
inductive JsNum where
  | finite (value : Int)
  | posInf
  | negInf
deriving DecidableEq, Repr

/-- Number of low bits a natural number has beyond the 53 significant bits of a double: the
least `e` with `m / 2 ^ e < 2 ^ 53`. The first argument bounds the number of halvings. -/
def excessBits : Nat → Nat → Nat
  | 0, _ => 0
  | fuel + 1, m => if m < 2 ^ 53 then 0 else excessBits fuel (m / 2) + 1

/-- The natural number nearest to `m` with at most 53 significant bits, ties going to the even
significand (IEEE 754 round-to-nearest-even); a value of `2 ^ 1024` or more stands for an
overflow. -/
def roundNat (m : Nat) : Nat :=
  if m < 2 ^ 53 then m
  else if m % 2 ^ excessBits m m > 2 ^ (excessBits m m - 1) ∨
      (m % 2 ^ excessBits m m = 2 ^ (excessBits m m - 1) ∧
        m / 2 ^ excessBits m m % 2 = 1) then
    (m / 2 ^ excessBits m m + 1) * 2 ^ excessBits m m
  else m / 2 ^ excessBits m m * 2 ^ excessBits m m

/-- The double nearest to an integer: the value a JavaScript addition returns for the exact
sum `n` of two integer-valued doubles. -/
def roundDouble (n : Int) : JsNum :=
  if 2 ^ 256 * 2 ^ 256 * 2 ^ 256 * 2 ^ 256 ≤ roundNat n.natAbs then
    if 0 ≤ n then JsNum.posInf else JsNum.negInf
  else if 0 ≤ n then JsNum.finite (roundNat n.natAbs)
  else JsNum.finite (-(roundNat n.natAbs : Int))

/-- The JavaScript sum `totalCredits + unit.totalCredits`, where `unit.totalCredits` is a
value of `parseInt(...) || 0`. -/
def jsAdd : JsNum → Int → JsNum
  | JsNum.finite total, credits => roundDouble (total + credits)
  | JsNum.posInf, _ => JsNum.posInf
  | JsNum.negInf, _ => JsNum.negInf

/-- The JavaScript comparison `totalCredits >= bound`. -/
def jsGe : JsNum → Int → Bool
  | JsNum.finite total, bound => decide (total ≥ bound)
  | JsNum.posInf, _ => true
  | JsNum.negInf, _ => false

/-- The JavaScript comparison `newCredits <= bound`. -/
def jsLe : JsNum → Int → Bool
  | JsNum.finite total, bound => decide (total ≤ bound)
  | JsNum.posInf, _ => false
  | JsNum.negInf, _ => true

/-- An element of `allSchedules`, `totalCredits` being a JavaScript number. -/
structure NumSchedule where
  units : List CourseUnit
  totalCredits : JsNum
  score : Int
deriving DecidableEq, Repr

/-- An element of `validCombinations`, `totalCredits` being a JavaScript number. -/
structure NumMandatorySchedule where
  units : List CourseUnit
  totalCredits : JsNum
deriving DecidableEq, Repr

/-- The test `maxResults > 0 && allSchedules.length >= maxResults`. -/
def capReachedNum (cfg : Settings) (allSchedules : List NumSchedule) : Bool :=
  decide (cfg.maxResults > 0) && decide ((allSchedules.length : Int) ≥ cfg.maxResults)

/-- The emission step of `generateCombinations`, `totalCredits` being a JavaScript number. -/
def emitNum (cfg : Settings) (currentSchedule : List CourseUnit) (totalCredits : JsNum)
    (allSchedules : List NumSchedule) : List NumSchedule :=
  if jsGe totalCredits cfg.minCredits then
    if isValidSchedule cfg.selectedDays currentSchedule then
      allSchedules ++ [⟨currentSchedule, totalCredits,
        calculateScheduleScore cfg.registeredSections currentSchedule⟩]
    else allSchedules
  else allSchedules

/-- The inner function `generateCombinations(currentSchedule, courseIndex, totalCredits)` with
`totalCredits` held as a JavaScript number: the sums are rounded as doubles are. -/
def generateCombinationsNum (cfg : Settings) :
    List CourseOption → List CourseUnit → JsNum → List NumSchedule → List NumSchedule
  | [], currentSchedule, totalCredits, allSchedules =>
    if capReachedNum cfg allSchedules then allSchedules
    else emitNum cfg currentSchedule totalCredits allSchedules
  | currentCourse :: rest, currentSchedule, totalCredits, allSchedules =>
    if capReachedNum cfg allSchedules then allSchedules
    else if jsGe totalCredits cfg.maxCredits then
      emitNum cfg currentSchedule totalCredits allSchedules
    else
      let afterUnits :=
        currentCourse.units.foldl
          (fun acc unit =>
            if jsLe (jsAdd totalCredits unit.totalCredits) cfg.maxCredits then
              if hasConflictWith currentSchedule unit then acc
              else
                generateCombinationsNum cfg rest (currentSchedule ++ [unit])
                  (jsAdd totalCredits unit.totalCredits) acc
            else acc)
          (emitNum cfg currentSchedule totalCredits allSchedules)
      if cfg.allowPartialSchedules then
        generateCombinationsNum cfg rest currentSchedule totalCredits afterUnits
      else afterUnits

/-- The inner function `generate(currentSchedule, courseIndex, totalCredits)` with
`totalCredits` held as a JavaScript number. -/
def generateNum (selectedDays : List Nat) :
    List CourseOption → List CourseUnit → JsNum → List NumMandatorySchedule →
      List NumMandatorySchedule
  | [], currentSchedule, totalCredits, validCombinations =>
    if isValidSchedule selectedDays currentSchedule then
      validCombinations ++ [⟨currentSchedule, totalCredits⟩]
    else validCombinations
  | currentCourse :: rest, currentSchedule, totalCredits, validCombinations =>
    currentCourse.units.foldl
      (fun acc unit =>
        if hasConflictWith currentSchedule unit then acc
        else
          generateNum selectedDays rest (currentSchedule ++ [unit])
            (jsAdd totalCredits unit.totalCredits) acc)
      validCombinations

/-- The function `generateMandatoryCombinations`, totals being JavaScript numbers. -/
def generateMandatoryCombinationsNum (selectedDays : List Nat)
    (mandatoryOptions : List CourseOption) : List NumMandatorySchedule :=
  if mandatoryOptions.length = 0 then [⟨[], JsNum.finite 0⟩]
  else generateNum selectedDays mandatoryOptions [] (JsNum.finite 0) []

/-- The loop `for (const mandatorySchedule of mandatorySchedules)` with its `break`, totals
being JavaScript numbers. -/
def runMandatorySchedulesNum (cfg : Settings) (optionalOptions : List CourseOption) :
    List NumMandatorySchedule → List NumSchedule → List NumSchedule
  | [], allSchedules => allSchedules
  | mandatorySchedule :: rest, allSchedules =>
    if capReachedNum cfg
        (generateCombinationsNum cfg optionalOptions mandatorySchedule.units
          mandatorySchedule.totalCredits allSchedules) then
      generateCombinationsNum cfg optionalOptions mandatorySchedule.units
        mandatorySchedule.totalCredits allSchedules
    else
      runMandatorySchedulesNum cfg optionalOptions rest
        (generateCombinationsNum cfg optionalOptions mandatorySchedule.units
          mandatorySchedule.totalCredits allSchedules)

/-- The stable sort `allSchedules.sort((a, b) => b.score - a.score)`. -/
def sortByScoreNum (allSchedules : List NumSchedule) : List NumSchedule :=
  allSchedules.insertionSort (fun a b => a.score ≥ b.score)

/-- The array `allSchedules` just before it is sorted, totals being JavaScript numbers. -/
def searchSchedulesNum (cfg : Settings) (options : List CourseOption) : List NumSchedule :=
  if (generateMandatoryCombinationsNum cfg.selectedDays
        (options.filter (fun opt => opt.isMandatory))).length = 0 ∧
      (options.filter (fun opt => opt.isMandatory)).length > 0 then []
  else if (generateMandatoryCombinationsNum cfg.selectedDays
        (options.filter (fun opt => opt.isMandatory))).length > 0 then
    runMandatorySchedulesNum cfg (options.filter (fun opt => !opt.isMandatory))
      (generateMandatoryCombinationsNum cfg.selectedDays
        (options.filter (fun opt => opt.isMandatory))) []
  else
    generateCombinationsNum cfg (options.filter (fun opt => !opt.isMandatory)) []
      (JsNum.finite 0) []

/-- The function `generateAllSchedulesComprehensive` with every `totalCredits` held as a
JavaScript number; `none` when it throws. -/
def generateAllSchedulesComprehensiveNum (courseUnits : CourseUnits) (cfg : Settings) :
    Option (List NumSchedule) :=
  (courseOptions courseUnits cfg).map
    (fun options => sortByScoreNum (searchSchedulesNum cfg options))

/-- The sum of the `totalCredits` of the units as JavaScript computes it, unit by unit from
0. -/
def jsSum (units : List CourseUnit) : JsNum :=
  units.foldl (fun total unit => jsAdd total unit.totalCredits) (JsNum.finite 0)

/-- The candidate of the integer model seen with a JavaScript number as `totalCredits`. -/
def toNumSchedule (s : Schedule) : NumSchedule := ⟨s.units, JsNum.finite s.totalCredits, s.score⟩

/-- The mandatory base of the integer model seen with a JavaScript number as
`totalCredits`. -/
def toNumMandatorySchedule (b : MandatorySchedule) : NumMandatorySchedule :=
  ⟨b.units, JsNum.finite b.totalCredits⟩

/-- The sum of the absolute values of the `totalCredits` of all units of the options. -/
def creditMass (options : List CourseOption) : Nat :=
  (options.map (fun o => (o.units.map (fun u => u.totalCredits.natAbs)).sum)).sum

/-! ## Validation before the search (`generateSchedules`) -/

/-- What `generateSchedules` does: it shows one of three validation errors and returns, or it
runs the search (`none` when the search throws and the error is caught and reported). -/
inductive GenerateOutcome where
  | noCourseSelected
  | noDaySelected
  | missingMandatory (missing : List String)
  | search (schedules : Option (List Schedule))
deriving DecidableEq, Repr

/-- The array `missingMandatory`: the mandatory course codes that are not selected. -/
def missingMandatory (cfg : Settings) : List String :=
  cfg.mandatoryCourses.filter (fun courseCode => !cfg.selectedCourses.contains courseCode)

/-- The function `generateSchedules`, up to the call of the search. -/
def generateSchedules (courseUnits : CourseUnits) (cfg : Settings) : GenerateOutcome :=
  if cfg.selectedCourses.length = 0 then GenerateOutcome.noCourseSelected
  else if cfg.selectedDays.length = 0 then GenerateOutcome.noDaySelected
  else if cfg.mandatoryCourses.length > 0 ∧ (missingMandatory cfg).length > 0 then
    GenerateOutcome.missingMandatory (missingMandatory cfg)
  else GenerateOutcome.search (generateAllSchedulesComprehensive courseUnits cfg)

/-! ## Course selection handlers -/

/-- The two global sets changed by the selection handlers. -/
structure Selection where
  selectedCourses : List String
  mandatoryCourses : List String
deriving DecidableEq, Repr

/-- Effect of `Set.prototype.add`. -/
def setAdd (s : List String) (x : String) : List String :=
  if s.contains x then s else s ++ [x]

/-- Effect of `Set.prototype.delete`. -/
def setDelete (s : List String) (x : String) : List String :=
  s.filter (fun y => !decide (y = x))

/-- The handler `toggleCourse`. -/
def toggleCourse (st : Selection) (courseCode : String) : Selection :=
  if st.selectedCourses.contains courseCode then
    ⟨setDelete st.selectedCourses courseCode, setDelete st.mandatoryCourses courseCode⟩
  else ⟨setAdd st.selectedCourses courseCode, st.mandatoryCourses⟩

/-- The handler `toggleMandatory`. -/
def toggleMandatory (st : Selection) (courseCode : String) : Selection :=
  if st.mandatoryCourses.contains courseCode then
    ⟨st.selectedCourses, setDelete st.mandatoryCourses courseCode⟩
  else
    ⟨if st.selectedCourses.contains courseCode then st.selectedCourses
      else setAdd st.selectedCourses courseCode,
     setAdd st.mandatoryCourses courseCode⟩

/-- The `forEach` of `selectAllCourses` over the keys of `courseUnits`: each code is added to
`selectedCourses`, then its checkbox is ticked; a course without units has no checkbox, so
the handler throws there, after the code was added. -/
def selectAllKeys : CourseUnits → List String → List String
  | [], selected => selected
  | (courseCode, units) :: rest, selected =>
    if units.length > 0 then selectAllKeys rest (setAdd selected courseCode)
    else setAdd selected courseCode

/-- The handler `selectAllCourses`. -/
def selectAllCourses (courseUnits : CourseUnits) (st : Selection) : Selection :=
  ⟨selectAllKeys courseUnits st.selectedCourses, st.mandatoryCourses⟩

/-- The handler `deselectAllCourses`: both sets are cleared first. -/
def deselectAllCourses (_st : Selection) : Selection := ⟨[], []⟩

/-- A user action on the selection page. -/
inductive SelectionAction where
  | toggleCourse (courseCode : String)
  | toggleMandatory (courseCode : String)
  | selectAll
  | deselectAll
deriving DecidableEq, Repr

/-- One handler run. -/
def applyAction (courseUnits : CourseUnits) (st : Selection) : SelectionAction → Selection
  | SelectionAction.toggleCourse courseCode => toggleCourse st courseCode
  | SelectionAction.toggleMandatory courseCode => toggleMandatory st courseCode
  | SelectionAction.selectAll => selectAllCourses courseUnits st
  | SelectionAction.deselectAll => deselectAllCourses st

/-- The state when the page is loaded: both sets empty. -/
def initialSelection : Selection := ⟨[], []⟩

/-- The state after a sequence of user actions. -/
def runActions (courseUnits : CourseUnits) (actions : List SelectionAction) : Selection :=
  actions.foldl (applyAction courseUnits) initialSelection

/-! ## Description of the unit table -/

/-- The units pushed under a course code by a sequence of loop iterations, in order. -/
def pushedUnder (courseCode : String) (its : List Iteration) : List CourseUnit :=
  (its.filter (fun it => decide (it.courseCode = courseCode))).filterMap (fun it => it.pushed)

/-- The combined unit of a theoretical section and the practical section that follows it. -/
def combinedUnit (t p : Section) : CourseUnit :=
  ⟨UnitType.combined, some t, some p, parsedCredits t⟩

/-- The theory-only unit of a section. -/
def theoryUnit (s : Section) : CourseUnit := ⟨UnitType.theoretical, some s, none, parsedCredits s⟩

/-- The credit total of a sequence of units (the running `totalCredits` of the search). -/
def sumCredits (units : List CourseUnit) : Int :=
  (units.map (fun unit => unit.totalCredits)).sum

/-- The standalone practical unit of a section. -/
def practicalUnit (s : Section) : CourseUnit := ⟨UnitType.practical, none, some s, 0⟩

/-- The sections a unit holds, theoretical first. -/
def unitSections (unit : CourseUnit) : List Section :=
  unit.theoretical.toList ++ unit.practical.toList

/-- The catalog positions of the sections held by the unit an iteration pushed: a combined
unit pushed at index `i` holds the sections at `i` and `i + 1`, any other unit the section
at `i`. -/
def iterationPositions (it : Iteration) : List Nat :=
  match it.pushed with
  | none => []
  | some unit =>
    match unit.type with
    | UnitType.combined => [it.index, it.index + 1]
    | _ => [it.index]

/-- Points of a theoretical section as the specification words them: +100 when registered,
else +20 when open, else -5. -/
def theoreticalPoints (registeredSections : List String) (sec : Section) : Int :=
  if sec.sectionId ∈ registeredSections then 100 else if sec.status = OPEN then 20 else -5

/-- Points of a practical section as the specification words them: +50 when registered,
else +10 when open, else -3. -/
def practicalPoints (registeredSections : List String) (sec : Section) : Int :=
  if sec.sectionId ∈ registeredSections then 50 else if sec.status = OPEN then 10 else -3

/-- All gap records of `calculateDailyGaps`, over all days. -/
def allGapRecords (units : List CourseUnit) : List GapRecord :=
  (calculateDailyGaps units).flatMap (fun dayGaps => dayGaps.2)

/-- The score as the specification words it: 100, plus the points of every theoretical and
practical section, minus the floor of a tenth of the sum of all gap minutes. -/
def scoreBySpec (registeredSections : List String) (units : List CourseUnit) : Int :=
  100
    + (units.map (fun unit =>
        (unit.theoretical.toList.map (theoreticalPoints registeredSections)).sum
          + (unit.practical.toList.map (practicalPoints registeredSections)).sum)).sum
    - Int.floor (((((allGapRecords units).map (fun gap => gap.gapMinutes)).sum : Int) : ℚ) / 10)

/-- The credit value of the highest-credit unit of a list of units (0 when there is none). -/
def highestCredit : List CourseUnit → Int
  | [] => 0
  | [u] => u.totalCredits
  | u :: v :: rest => max u.totalCredits (highestCredit (v :: rest))

/-- The total obtained by taking the highest-credit unit of each selected course. -/
def bestTotal (courseUnits : CourseUnits) (selectedCourses : List String) : Int :=
  (selectedCourses.map
    (fun courseCode => highestCredit ((unitsOf courseUnits courseCode).getD []))).sum

/-- The sum of the credits of all units of all selected courses. -/
def allCreditsTotal (courseUnits : CourseUnits) (selectedCourses : List String) : Int :=
  (selectedCourses.map
    (fun courseCode => sumCredits ((unitsOf courseUnits courseCode).getD []))).sum

/-- The settings with `maxResults` replaced, everything else equal. -/
def withMaxResults (cfg : Settings) (maxResults : Int) : Settings :=
  ⟨cfg.minCredits, cfg.maxCredits, maxResults, cfg.includeClosedSections,
    cfg.allowPartialSchedules, cfg.selectedDays, cfg.selectedCourses, cfg.mandatoryCourses,
    cfg.registeredSections⟩

/-! ## Example data -/

/-- Course A, first section: theoretical, open, day 1 from 9:00 to 10:00. -/
def scenarioA1 : Section :=
  ⟨"A", "Course A", "101", THEORETICAL, some 3, OPEN, "", [⟨1, ⟨9, 0⟩, ⟨10, 0⟩, "R1"⟩]⟩

/-- Course A, second section: theoretical, closed, day 1 from 11:00 to 12:00. -/
def scenarioA2 : Section :=
  ⟨"A", "Course A", "102", THEORETICAL, some 3, CLOSED, "", [⟨1, ⟨11, 0⟩, ⟨12, 0⟩, "R1"⟩]⟩

/-- Course B, only section: theoretical, open, day 1 from 9:30 to 10:30 (overlaps A1). -/
def scenarioB : Section :=
  ⟨"B", "Course B", "201", THEORETICAL, some 3, OPEN, "", [⟨1, ⟨9, 30⟩, ⟨10, 30⟩, "R2"⟩]⟩

/-- The catalog of the end-to-end scenario. -/
def scenarioCatalog : List Section := [scenarioA1, scenarioA2, scenarioB]

/-- The settings of the end-to-end scenario: both courses selected, no mandatory course,
credits between 0 and 99, closed sections included, all five days, no result cap. -/
def scenarioSettings (allowPartialSchedules : Bool) : Settings :=
  ⟨0, 99, 0, true, allowPartialSchedules, [1, 2, 3, 4, 5], ["A", "B"], [], []⟩

/-- The scenario settings with a result cap. -/
def cappedSettings (maxResults : Int) : Settings :=
  ⟨0, 99, maxResults, true, false, [1, 2, 3, 4, 5], ["A", "B"], [], []⟩

/-- The schedules the search returns in the scenario when partial schedules are off. -/
def scenarioResult : List Schedule :=
  [⟨[theoryUnit scenarioA1], 3, 120⟩,
   ⟨[theoryUnit scenarioA2, theoryUnit scenarioB], 6, 112⟩,
   ⟨[], 0, 100⟩,
   ⟨[theoryUnit scenarioA2], 3, 95⟩]

/-- The course code shown for a unit (`unit.theoretical ? unit.theoretical.code :
unit.practical.code` in `createScheduleCard`); `none` when the unit has neither section. -/
def unitCourseCode (unit : CourseUnit) : Option String :=
  match unit.theoretical with
  | some t => some t.code
  | none => unit.practical.map (fun p => p.code)

/-- Mandatory course M1: one theoretical section, 3 credit hours, day 1 from 9:00 to 10:00. -/
def creditsM1 : Section :=
  ⟨"M1", "Course M1", "301", THEORETICAL, some 3, OPEN, "", [⟨1, ⟨9, 0⟩, ⟨10, 0⟩, "R1"⟩]⟩

/-- Mandatory course M2: one theoretical section, 3 credit hours, day 2 from 9:00 to 10:00. -/
def creditsM2 : Section :=
  ⟨"M2", "Course M2", "302", THEORETICAL, some 3, OPEN, "", [⟨2, ⟨9, 0⟩, ⟨10, 0⟩, "R1"⟩]⟩

/-- Two mandatory courses of 3 credit hours each under `maxCredits = 5`. -/
def creditsSettings : Settings :=
  ⟨0, 5, 0, true, false, [1, 2, 3, 4, 5], ["M1", "M2"], ["M1", "M2"], []⟩

/-- Course M: one theoretical section, closed, day 1 from 9:00 to 10:00. -/
def closedM : Section :=
  ⟨"M", "Course M", "401", THEORETICAL, some 3, CLOSED, "", [⟨1, ⟨9, 0⟩, ⟨10, 0⟩, "R1"⟩]⟩

/-- Course N: one theoretical section, open, day 1 from 9:30 to 10:30 (overlaps `closedM`). -/
def openN : Section :=
  ⟨"N", "Course N", "402", THEORETICAL, some 3, OPEN, "", [⟨1, ⟨9, 30⟩, ⟨10, 30⟩, "R2"⟩]⟩

/-- Both courses selected, only M mandatory, closed sections not included, nothing registered. -/
def closedMandatorySettings : Settings :=
  ⟨0, 99, 0, false, false, [1, 2, 3, 4, 5], ["M", "N"], ["M"], []⟩

/-- Both courses selected and mandatory, closed sections not included, nothing registered. -/
def bothMandatorySettings : Settings :=
  ⟨0, 99, 0, false, false, [1, 2, 3, 4, 5], ["M", "N"], ["M", "N"], []⟩

/-- Course M with an open section: theoretical, day 1 from 9:00 to 10:00. -/
def openM : Section :=
  ⟨"M", "Course M", "401", THEORETICAL, some 3, OPEN, "", [⟨1, ⟨9, 0⟩, ⟨10, 0⟩, "R1"⟩]⟩

/-- Theoretical section of CS101. -/
def cs101Theory : Section :=
  ⟨"CS101", "Programming", "11", THEORETICAL, some 3, OPEN, "", [⟨1, ⟨9, 0⟩, ⟨10, 0⟩, "R1"⟩]⟩

/-- Practical section of CS101, right after the theoretical one in the catalog. -/
def cs101Practical : Section :=
  ⟨"CS101", "Programming", "12", PRACTICAL, none, OPEN, "", [⟨2, ⟨9, 0⟩, ⟨11, 0⟩, "Lab"⟩]⟩

/-- Theoretical section of CS102. -/
def cs102Theory : Section :=
  ⟨"CS102", "Data structures", "21", THEORETICAL, some 3, OPEN, "", [⟨3, ⟨9, 0⟩, ⟨10, 0⟩, "R2"⟩]⟩

/-- The catalog `[Theory(CS101), Practical(CS101), Theory(CS102)]`. -/
def pairingCatalog : List Section := [cs101Theory, cs101Practical, cs102Theory]

/-- Course A of the credit-limit example: one theoretical section of 3 credit hours. -/
def limitA : Section :=
  ⟨"A", "Course A", "501", THEORETICAL, some 3, OPEN, "", [⟨1, ⟨9, 0⟩, ⟨10, 0⟩, "R1"⟩]⟩

/-- Course L of the credit-limit example: one practical section with no theoretical partner. -/
def limitL : Section :=
  ⟨"L", "Lab L", "502", PRACTICAL, none, OPEN, "", [⟨2, ⟨9, 0⟩, ⟨11, 0⟩, "Lab"⟩]⟩

/-- Both courses selected, none mandatory, `maxCredits = 3`, no result cap, partial schedules
allowed. -/
def limitSettings : Settings :=
  ⟨0, 3, 0, true, true, [1, 2, 3, 4, 5], ["A", "L"], [], []⟩

/-- Theoretical section of course V: day 1 from 9:00 to 10:00. -/
def overlapTheory : Section :=
  ⟨"V", "Course V", "601", THEORETICAL, some 3, OPEN, "", [⟨1, ⟨9, 0⟩, ⟨10, 0⟩, "R1"⟩]⟩

/-- Practical section of course V, right after the theoretical one in the catalog: day 1
from 9:30 to 10:30, overlapping the theoretical session. -/
def overlapPractical : Section :=
  ⟨"V", "Course V", "602", PRACTICAL, none, OPEN, "", [⟨1, ⟨9, 30⟩, ⟨10, 30⟩, "Lab"⟩]⟩

/-- Course V selected, with the given set of mandatory courses; credits between 0 and 99,
closed sections included, partial schedules off, all five days, no result cap. -/
def overlapSettings (mandatoryCourses : List String) : Settings :=
  ⟨0, 99, 0, true, false, [1, 2, 3, 4, 5], ["V"], mandatoryCourses, []⟩

/-- Mandatory course P: one theoretical section of 2^53 credit hours, day 1. -/
def hugeP : Section :=
  ⟨"P", "Course P", "701", THEORETICAL, some 9007199254740992, OPEN, "",
    [⟨1, ⟨9, 0⟩, ⟨10, 0⟩, "R1"⟩]⟩

/-- Mandatory course Q: one theoretical section of 1 credit hour, day 2. -/
def smallQ : Section :=
  ⟨"Q", "Course Q", "702", THEORETICAL, some 1, OPEN, "", [⟨2, ⟨9, 0⟩, ⟨10, 0⟩, "R1"⟩]⟩

/-- Courses P and Q selected and mandatory, credits between 0 and 99, closed sections
included, all five days, no result cap. -/
def hugeSettings : Settings :=
  ⟨0, 99, 0, true, false, [1, 2, 3, 4, 5], ["P", "Q"], ["P", "Q"], []⟩

/-- Theoretical section with the course code `constructor`. -/
def inheritedTheory : Section :=
  ⟨"constructor", "Course", "801", THEORETICAL, some 3, OPEN, "",
    [⟨1, ⟨9, 0⟩, ⟨10, 0⟩, "R1"⟩]⟩

/-- Practical section with the course code `constructor`. -/
def inheritedPractical : Section :=
  ⟨"constructor", "Course", "802", PRACTICAL, none, OPEN, "",
    [⟨2, ⟨9, 0⟩, ⟨11, 0⟩, "Lab"⟩]⟩

/-- The course options of the end-to-end scenario. -/
def scenarioOptions : List CourseOption :=
  [⟨"A", [theoryUnit scenarioA1, theoryUnit scenarioA2], false⟩,
   ⟨"B", [theoryUnit scenarioB], false⟩]

/-- Lookup `object[day]` in an object with integer keys; `none` is `undefined`. -/
def entryOf {α : Type} (object : List (Nat × α)) (day : Nat) : Option α :=
  (object.find? (fun e => decide (e.1 = day))).map Prod.snd

/-- The entries pushed for the sessions of one day, in the order the sessions are collected. -/
def daySlots (units : List CourseUnit) (day : Nat) : List DaySlot :=
  ((allSessions units).filter (fun session => decide (session.day = day))).map slotOf

/-- The gap records as the specification words them: one record per pair of neighbouring
sessions of the sorted list whose difference `next.start - prev.end` exceeds 10. -/
def gapsBySpec (sorted : List DaySlot) : List GapRecord :=
  ((sorted.zip sorted.tail).filter
      (fun pair => decide ((pair.2.start : Int) - (pair.1.finish : Int) > 10))).map
    (fun pair => ⟨(pair.2.start : Int) - (pair.1.finish : Int), pair.1.endTime, pair.2.startTime⟩)

/-- A section of course G on day 1 from 9:00 to 10:00. -/
def gapFirst : Section :=
  ⟨"G", "Course G", "601", THEORETICAL, some 3, OPEN, "", [⟨1, ⟨9, 0⟩, ⟨10, 0⟩, "R1"⟩]⟩

/-- A section of course H on day 1 from 10:10 to 11:00, ten minutes after `gapFirst` ends. -/
def gapTen : Section :=
  ⟨"H", "Course H", "602", THEORETICAL, some 3, OPEN, "", [⟨1, ⟨10, 10⟩, ⟨11, 0⟩, "R1"⟩]⟩

/-- A section of course K on day 1 from 10:11 to 11:00, eleven minutes after `gapFirst` ends. -/
def gapEleven : Section :=
  ⟨"K", "Course K", "603", THEORETICAL, some 3, OPEN, "", [⟨1, ⟨10, 11⟩, ⟨11, 0⟩, "R1"⟩]⟩

/-- The settings with the registered-section set replaced, everything else equal. -/
def withRegistered (cfg : Settings) (registeredSections : List String) : Settings :=
  ⟨cfg.minCredits, cfg.maxCredits, cfg.maxResults, cfg.includeClosedSections,
    cfg.allowPartialSchedules, cfg.selectedDays, cfg.selectedCourses, cfg.mandatoryCourses,
    registeredSections⟩

/-- The unit sequence and credit total of a schedule, without its score. -/
def unitsAndCredits (s : Schedule) : List CourseUnit × Int := (s.units, s.totalCredits)

/-- Courses M and N selected, none mandatory, closed sections not included, with a given
registered-section set. -/
def closedFilterSettings (registeredSections : List String) : Settings :=
  ⟨0, 99, 0, false, false, [1, 2, 3, 4, 5], ["M", "N"], [], registeredSections⟩

/-- The schedules returned in the scenario when section 102 (A2) is registered. -/
def scenarioResultRegistered : List Schedule :=
  [⟨[theoryUnit scenarioA2, theoryUnit scenarioB], 6, 217⟩,
   ⟨[theoryUnit scenarioA2], 3, 200⟩,
   ⟨[theoryUnit scenarioA1], 3, 120⟩,
   ⟨[], 0, 100⟩]

/-! ## Conflict detection: basic facts -/

theorem sessionsOverlap_iff (a b : Session) :
    sessionsOverlap a b = true ↔
      a.day = b.day ∧ timeToMinutes a.startTime < timeToMinutes b.endTime ∧
        timeToMinutes b.startTime < timeToMinutes a.endTime := by
  simp [sessionsOverlap]

theorem sessionsOverlap_symm (a b : Session) : sessionsOverlap a b = sessionsOverlap b a := by
  rw [Bool.eq_iff_iff, sessionsOverlap_iff, sessionsOverlap_iff]
  constructor
  · rintro ⟨h1, h2, h3⟩
    exact ⟨h1.symm, h3, h2⟩
  · rintro ⟨h1, h2, h3⟩
    exact ⟨h1.symm, h3, h2⟩

theorem hasTimeConflict_eq_true_iff (A B : List Session) :
    hasTimeConflict A B = true ↔ ∃ a ∈ A, ∃ b ∈ B, sessionsOverlap a b = true := by
  simp [hasTimeConflict, List.any_eq_true]

theorem hasTimeConflict_symm (A B : List Session) : hasTimeConflict A B = hasTimeConflict B A := by
  rw [Bool.eq_iff_iff, hasTimeConflict_eq_true_iff, hasTimeConflict_eq_true_iff]
  constructor
  · rintro ⟨a, ha, b, hb, h⟩
    exact ⟨b, hb, a, ha, by rw [sessionsOverlap_symm]; exact h⟩
  · rintro ⟨a, ha, b, hb, h⟩
    exact ⟨b, hb, a, ha, by rw [sessionsOverlap_symm]; exact h⟩

theorem hasTimeConflict_single (s t : Session) : hasTimeConflict [s] [t] = sessionsOverlap s t := by
  simp [hasTimeConflict]

theorem noPairConflict_iff (l : List Session) :
    noPairConflict l = true ↔ l.Pairwise (fun a b => sessionsOverlap a b = false) := by
  induction l with
  | nil => simp [noPairConflict]
  | cons s rest ih =>
    simp only [noPairConflict, Bool.and_eq_true, List.all_eq_true, ih, List.pairwise_cons,
      hasTimeConflict_single, Bool.not_eq_true']

theorem isValidSchedule_iff (selectedDays : List Nat) (units : List CourseUnit) :
    isValidSchedule selectedDays units = true ↔
      (allSessions units).Pairwise (fun a b => sessionsOverlap a b = false) ∧
        ∀ s ∈ allSessions units, s.day ∈ selectedDays := by
  simp [isValidSchedule, noPairConflict_iff, List.all_eq_true]

/-! ## The search: what every emitted schedule satisfies -/

theorem mem_emit (cfg : Settings) (cur : List CourseUnit) (total : Int) (all : List Schedule)
    (s : Schedule) (hs : s ∈ emit cfg cur total all) :
    s ∈ all ∨
      (s = ⟨cur, total, calculateScheduleScore cfg.registeredSections cur⟩ ∧
        cfg.minCredits ≤ total ∧ isValidSchedule cfg.selectedDays cur = true) := by
  unfold emit at hs
  split_ifs at hs with h1 h2
  · rcases List.mem_append.1 hs with h | h
    · exact Or.inl h
    · exact Or.inr ⟨by simpa using h, h1, h2⟩
  · exact Or.inl hs
  · exact Or.inl hs

theorem foldl_forall {α β : Type} (P : β → Prop) (f : β → α → β) (l : List α)
    (hf : ∀ acc x, x ∈ l → P acc → P (f acc x)) (init : β) (h0 : P init) :
    P (l.foldl f init) := by
  induction l generalizing init with
  | nil => simpa using h0
  | cons x xs ih =>
    simp only [List.foldl_cons]
    exact ih (fun acc y hy => hf acc y (List.mem_cons_of_mem _ hy)) _
      (hf init x (List.mem_cons_self _ _) h0)

theorem generateCombinations_forall (cfg : Settings) (P : Schedule → Prop)
    (hP : ∀ cur total, cfg.minCredits ≤ total → isValidSchedule cfg.selectedDays cur = true →
      P ⟨cur, total, calculateScheduleScore cfg.registeredSections cur⟩) :
    ∀ (opts : List CourseOption) (cur : List CourseUnit) (total : Int) (all : List Schedule),
      (∀ s ∈ all, P s) → ∀ s ∈ generateCombinations cfg opts cur total all, P s := by
  have hemit : ∀ (cur : List CourseUnit) (total : Int) (all : List Schedule),
      (∀ s ∈ all, P s) → ∀ s ∈ emit cfg cur total all, P s := by
    intro cur total all hall s hs
    rcases mem_emit cfg cur total all s hs with h | ⟨h, h1, h2⟩
    · exact hall s h
    · rw [h]; exact hP cur total h1 h2
  intro opts
  induction opts with
  | nil =>
    intro cur total all hall
    unfold generateCombinations
    split_ifs
    · exact hall
    · exact hemit cur total all hall
  | cons o rest ih =>
    intro cur total all hall
    unfold generateCombinations
    split_ifs
    · exact hall
    · exact hemit cur total all hall
    · apply ih
      apply foldl_forall (fun acc => ∀ s ∈ acc, P s)
      · intro acc u _ hacc
        dsimp only
        split_ifs
        · exact hacc
        · exact ih _ _ _ hacc
        · exact hacc
      · exact hemit cur total all hall
    · apply foldl_forall (fun acc => ∀ s ∈ acc, P s)
      · intro acc u _ hacc
        dsimp only
        split_ifs
        · exact hacc
        · exact ih _ _ _ hacc
        · exact hacc
      · exact hemit cur total all hall

theorem runMandatorySchedules_forall (cfg : Settings) (P : Schedule → Prop)
    (hP : ∀ cur total, cfg.minCredits ≤ total → isValidSchedule cfg.selectedDays cur = true →
      P ⟨cur, total, calculateScheduleScore cfg.registeredSections cur⟩)
    (opts : List CourseOption) :
    ∀ (bases : List MandatorySchedule) (all : List Schedule),
      (∀ s ∈ all, P s) → ∀ s ∈ runMandatorySchedules cfg opts bases all, P s := by
  intro bases
  induction bases with
  | nil => intro all hall; simpa [runMandatorySchedules] using hall
  | cons b rest ih =>
    intro all hall
    unfold runMandatorySchedules
    split_ifs
    · exact generateCombinations_forall cfg P hP _ _ _ _ hall
    · exact ih _ (generateCombinations_forall cfg P hP _ _ _ _ hall)

theorem searchSchedules_forall (cfg : Settings) (P : Schedule → Prop)
    (hP : ∀ cur total, cfg.minCredits ≤ total → isValidSchedule cfg.selectedDays cur = true →
      P ⟨cur, total, calculateScheduleScore cfg.registeredSections cur⟩)
    (options : List CourseOption) : ∀ s ∈ searchSchedules cfg options, P s := by
  unfold searchSchedules
  split_ifs
  · intro s hs; simp at hs
  · exact runMandatorySchedules_forall cfg P hP _ _ _ (by simp)
  · exact generateCombinations_forall cfg P hP _ _ _ _ (by simp)

theorem mem_sortByScore (all : List Schedule) (s : Schedule) :
    s ∈ sortByScore all ↔ s ∈ all :=
  (List.perm_insertionSort _ all).mem_iff

theorem generateAll_forall (courseUnits : CourseUnits) (cfg : Settings) (P : Schedule → Prop)
    (hP : ∀ cur total, cfg.minCredits ≤ total → isValidSchedule cfg.selectedDays cur = true →
      P ⟨cur, total, calculateScheduleScore cfg.registeredSections cur⟩)
    (result : List Schedule)
    (hres : generateAllSchedulesComprehensive courseUnits cfg = some result) :
    ∀ s ∈ result, P s := by
  unfold generateAllSchedulesComprehensive at hres
  rcases Option.map_eq_some'.1 hres with ⟨options, _, rfl⟩
  intro s hs
  exact searchSchedules_forall cfg P hP options s ((mem_sortByScore _ s).1 hs)

theorem emit_length_le (cfg : Settings) (cur : List CourseUnit) (total : Int)
    (all : List Schedule) (hcap : capReached cfg all = false) (hN : 0 < cfg.maxResults) :
    ((emit cfg cur total all).length : Int) ≤ cfg.maxResults := by
  have hlt : (all.length : Int) < cfg.maxResults := by
    simp only [capReached, Bool.and_eq_false_iff, decide_eq_false_iff_not] at hcap
    omega
  unfold emit
  split_ifs
  · simp only [List.length_append, List.length_singleton]; push_cast; omega
  · omega
  · omega

theorem generateCombinations_length_le (cfg : Settings) (hN : 0 < cfg.maxResults) :
    ∀ (opts : List CourseOption) (cur : List CourseUnit) (total : Int) (all : List Schedule),
      (all.length : Int) ≤ cfg.maxResults →
        ((generateCombinations cfg opts cur total all).length : Int) ≤ cfg.maxResults := by
  intro opts
  induction opts with
  | nil =>
    intro cur total all hall
    unfold generateCombinations
    split_ifs with hcap
    · exact hall
    · exact emit_length_le cfg cur total all (by simpa using hcap) hN
  | cons o rest ih =>
    intro cur total all hall
    unfold generateCombinations
    split_ifs with hcap
    · exact hall
    · exact emit_length_le cfg cur total all (by simpa using hcap) hN
    · apply ih
      apply foldl_forall (fun acc : List Schedule => (acc.length : Int) ≤ cfg.maxResults)
      · intro acc u _ hacc
        dsimp only
        split_ifs
        · exact hacc
        · exact ih _ _ _ hacc
        · exact hacc
      · exact emit_length_le cfg cur total all (by simpa using hcap) hN
    · apply foldl_forall (fun acc : List Schedule => (acc.length : Int) ≤ cfg.maxResults)
      · intro acc u _ hacc
        dsimp only
        split_ifs
        · exact hacc
        · exact ih _ _ _ hacc
        · exact hacc
      · exact emit_length_le cfg cur total all (by simpa using hcap) hN

theorem runMandatorySchedules_length_le (cfg : Settings) (hN : 0 < cfg.maxResults)
    (opts : List CourseOption) :
    ∀ (bases : List MandatorySchedule) (all : List Schedule),
      (all.length : Int) ≤ cfg.maxResults →
        ((runMandatorySchedules cfg opts bases all).length : Int) ≤ cfg.maxResults := by
  intro bases
  induction bases with
  | nil => intro all hall; simpa [runMandatorySchedules] using hall
  | cons b rest ih =>
    intro all hall
    unfold runMandatorySchedules
    split_ifs
    · exact generateCombinations_length_le cfg hN _ _ _ _ hall
    · exact ih _ (generateCombinations_length_le cfg hN _ _ _ _ hall)

theorem searchSchedules_length_le (cfg : Settings) (hN : 0 < cfg.maxResults)
    (options : List CourseOption) :
    ((searchSchedules cfg options).length : Int) ≤ cfg.maxResults := by
  unfold searchSchedules
  split_ifs
  · simp only [List.length_nil]; push_cast; omega
  · exact runMandatorySchedules_length_le cfg hN _ _ _ (by simp only [List.length_nil]; push_cast; omega)
  · exact generateCombinations_length_le cfg hN _ _ _ _ (by simp only [List.length_nil]; push_cast; omega)

theorem mem_unitSessions (u : CourseUnit) (sec : Section) (s : Session)
    (hsec : u.theoretical = some sec ∨ u.practical = some sec) (hs : s ∈ sec.sessions) :
    s ∈ unitSessions u := by
  unfold unitSessions
  rcases hsec with h | h
  · rw [h]; exact List.mem_append_left _ hs
  · rw [h]; exact List.mem_append_right _ hs

/-! ## Course options -/

theorem mapCourseOptions_isSome (courseUnits : CourseUnits) (cfg : Settings) :
    ∀ codes : List String, (∀ code ∈ codes, (unitsOf courseUnits code).isSome = true) →
      ∃ options, mapCourseOptions courseUnits cfg codes = some options := by
  intro codes
  induction codes with
  | nil => intro _; exact ⟨[], rfl⟩
  | cons code rest ih =>
    intro h
    obtain ⟨options, hopt⟩ := ih (fun c hc => h c (List.mem_cons_of_mem _ hc))
    obtain ⟨units, hunits⟩ := Option.isSome_iff_exists.1 (h code (List.mem_cons_self _ _))
    exact ⟨courseOptionOf cfg code units :: options, by simp [mapCourseOptions, hunits, hopt]⟩

theorem mapCourseOptions_mem (courseUnits : CourseUnits) (cfg : Settings) :
    ∀ (codes : List String) (options : List CourseOption),
      mapCourseOptions courseUnits cfg codes = some options →
      ∀ code ∈ codes, ∀ units, unitsOf courseUnits code = some units →
        courseOptionOf cfg code units ∈ options := by
  intro codes
  induction codes with
  | nil => intro _ _ code hc; simp at hc
  | cons c rest ih =>
    intro options hopt code hc units hunits
    unfold mapCourseOptions at hopt
    cases hcu : unitsOf courseUnits c with
    | none => simp [hcu] at hopt
    | some us =>
      cases hrest : mapCourseOptions courseUnits cfg rest with
      | none => simp [hcu, hrest] at hopt
      | some os =>
        simp only [hcu, hrest, Option.some.injEq] at hopt
        subst hopt
        rcases List.mem_cons.1 hc with h | h
        · subst h
          rw [hcu] at hunits
          cases hunits
          exact List.mem_cons_self _ _
        · exact List.mem_cons_of_mem _ (ih os hrest code h units hunits)

/-! ## The mandatory phase: two courses whose units all conflict -/

theorem hasConflictWith_of_mem (cur : List CourseUnit) (u e : CourseUnit) (he : e ∈ cur)
    (h : hasTimeConflict (unitSessions u) (unitSessions e) = true) :
    hasConflictWith cur u = true := by
  unfold hasConflictWith
  exact List.any_eq_true.2 ⟨e, he, h⟩

theorem generate_blocked (selectedDays : List Nat) (o : CourseOption) (e : CourseUnit)
    (hce : ∀ u ∈ o.units, hasTimeConflict (unitSessions u) (unitSessions e) = true) :
    ∀ (opts : List CourseOption) (cur : List CourseUnit) (total : Int)
      (acc : List MandatorySchedule), o ∈ opts → e ∈ cur →
      generate selectedDays opts cur total acc = acc := by
  intro opts
  induction opts with
  | nil => intro _ _ _ ho; simp at ho
  | cons o2 rest ih =>
    intro cur total acc ho he
    unfold generate
    apply foldl_forall (fun a => a = acc)
    · intro a u hu ha
      dsimp only
      split_ifs with hc
      · exact ha
      · rcases List.mem_cons.1 ho with h | h
        · subst h
          exact absurd (hasConflictWith_of_mem cur u e he (hce u hu)) hc
        · rw [ih _ _ a h (List.mem_append_left _ he)]
          exact ha
    · rfl

theorem generate_blocked_pair (selectedDays : List Nat) (oA oB : CourseOption)
    (hconf : ∀ uA ∈ oA.units, ∀ uB ∈ oB.units,
      hasTimeConflict (unitSessions uB) (unitSessions uA) = true) :
    ∀ (l1 l2 : List CourseOption) (cur : List CourseUnit) (total : Int)
      (acc : List MandatorySchedule), oB ∈ l2 →
      generate selectedDays (l1 ++ oA :: l2) cur total acc = acc := by
  intro l1
  induction l1 with
  | nil =>
    intro l2 cur total acc hB
    simp only [List.nil_append]
    unfold generate
    apply foldl_forall (fun a => a = acc)
    · intro a u hu ha
      dsimp only
      split_ifs with hc
      · exact ha
      · rw [generate_blocked selectedDays oB u (fun uB huB => hconf u hu uB huB) l2 _ _ a hB
          (List.mem_append_right _ (List.mem_singleton_self u))]
        exact ha
    · rfl
  | cons o rest ih =>
    intro l2 cur total acc hB
    simp only [List.cons_append]
    unfold generate
    apply foldl_forall (fun a => a = acc)
    · intro a u _ ha
      dsimp only
      split_ifs with hc
      · exact ha
      · rw [ih l2 _ _ a hB]
        exact ha
    · rfl

theorem generate_two_conflicting (selectedDays : List Nat) (opts : List CourseOption)
    (o1 o2 : CourseOption) (h1 : o1 ∈ opts) (h2 : o2 ∈ opts) (hne : o1 ≠ o2)
    (hconf : ∀ u1 ∈ o1.units, ∀ u2 ∈ o2.units,
      hasTimeConflict (unitSessions u1) (unitSessions u2) = true) :
    generate selectedDays opts [] 0 [] = [] := by
  obtain ⟨s, t, rfl⟩ := List.append_of_mem h1
  rcases List.mem_append.1 h2 with hs | ht
  · obtain ⟨s1, s2, rfl⟩ := List.append_of_mem hs
    have hrew : s1 ++ o2 :: s2 ++ o1 :: t = s1 ++ o2 :: (s2 ++ o1 :: t) := by simp
    rw [hrew]
    exact generate_blocked_pair selectedDays o2 o1
      (fun uA hA uB hB => hconf uB hB uA hA) s1 _ [] 0 [] (by simp)
  · rcases List.mem_cons.1 ht with h | h
    · exact absurd h.symm hne
    · exact generate_blocked_pair selectedDays o1 o2
        (fun uA hA uB hB => by rw [hasTimeConflict_symm]; exact hconf uA hA uB hB)
        s t [] 0 [] h

theorem searchSchedules_two_conflicting (cfg : Settings) (options : List CourseOption)
    (o1 o2 : CourseOption) (h1 : o1 ∈ options) (h2 : o2 ∈ options)
    (hm1 : o1.isMandatory = true) (hm2 : o2.isMandatory = true) (hne : o1 ≠ o2)
    (hconf : ∀ u1 ∈ o1.units, ∀ u2 ∈ o2.units,
      hasTimeConflict (unitSessions u1) (unitSessions u2) = true) :
    searchSchedules cfg options = [] := by
  have hmem1 : o1 ∈ options.filter (fun opt => opt.isMandatory) := List.mem_filter.2 ⟨h1, hm1⟩
  have hmem2 : o2 ∈ options.filter (fun opt => opt.isMandatory) := List.mem_filter.2 ⟨h2, hm2⟩
  have hpos : (options.filter (fun opt => opt.isMandatory)).length > 0 :=
    List.length_pos_of_mem hmem1
  have hgen : generateMandatoryCombinations cfg.selectedDays
      (options.filter (fun opt => opt.isMandatory)) = [] := by
    unfold generateMandatoryCombinations
    rw [if_neg (by omega)]
    exact generate_two_conflicting _ _ o1 o2 hmem1 hmem2 hne hconf
  unfold searchSchedules
  rw [if_pos ⟨by rw [hgen]; rfl, hpos⟩]

/-! ## Course units setup: the loop iterations and the unit table -/

theorem type_theoretical_ne_practical : THEORETICAL ≠ PRACTICAL := by decide

theorem loopBody_pair (prev : Option Section) (t p : Section) (hT : t.type = THEORETICAL)
    (hc : p.code = t.code) (hP : p.type = PRACTICAL) :
    loopBody prev t (some p) =
      (some ⟨UnitType.combined, some t, some p, parsedCredits t⟩, true) := by
  simp [loopBody, hT, hc, hP]

theorem loopBody_alone (prev : Option Section) (t : Section) (next : Option Section)
    (hT : t.type = THEORETICAL)
    (hnext : ∀ p, next = some p → ¬ (p.code = t.code ∧ p.type = PRACTICAL)) :
    loopBody prev t next = (some ⟨UnitType.theoretical, some t, none, parsedCredits t⟩, false) := by
  unfold loopBody
  rw [if_pos hT]
  cases next with
  | none => rfl
  | some p =>
    have := hnext p rfl
    simp only [if_neg this]

theorem loopBody_theoretical_prev (prev : Option Section) (c : Section) (next : Option Section)
    (hT : c.type = THEORETICAL) : loopBody prev c next = loopBody none c next := by
  unfold loopBody
  simp only [if_pos hT]

theorem loopBody_skip (prev : Option Section) (c : Section) (next : Option Section)
    (h : (loopBody prev c next).2 = true) :
    c.type = THEORETICAL ∧ ∃ p, next = some p ∧ p.code = c.code ∧ p.type = PRACTICAL := by
  unfold loopBody at h
  split_ifs at h with h1 h2
  · cases next with
    | none => simp at h
    | some p =>
      simp only at h
      split_ifs at h with h3
      · exact ⟨h1, p, rfl, h3.1, h3.2⟩
  · cases prev with
    | none => simp at h
    | some q =>
      simp only at h
      split_ifs at h
  
theorem loopBody_practical_unit (prev : Option Section) (c : Section) (next : Option Section)
    (u : CourseUnit) (h : (loopBody prev c next).1 = some u) (hu : u.type = UnitType.practical) :
    u.practical = some c := by
  unfold loopBody at h
  split_ifs at h with h1 h2
  · cases next with
    | none => simp only [Option.some.injEq] at h; subst h; simp at hu
    | some p =>
      simp only at h
      split_ifs at h
      · simp only [Option.some.injEq] at h; subst h; simp at hu
      · simp only [Option.some.injEq] at h; subst h; simp at hu
  · cases prev with
    | none => simp only [Option.some.injEq] at h; subst h; rfl
    | some q =>
      simp only at h
      split_ifs at h
      · simp only [Option.some.injEq] at h; subst h; rfl
  
theorem scanCourses_index_ge (k : Nat) (prev : Option Section) (l : List Section) :
    ∀ it ∈ scanCourses k prev l, k ≤ it.index := by
  induction k, prev, l using scanCourses.induct with
  | case1 k prev => intro it h; simp [scanCourses] at h
  | case2 k prev c => intro it h; simp [scanCourses] at h; subst h; exact Nat.le_refl _
  | case3 k prev c n rest ih1 ih2 =>
    intro it h
    unfold scanCourses at h
    rcases List.mem_cons.1 h with h | h
    · subst h; exact Nat.le_refl _
    · split_ifs at h
      · have := ih1 it h; omega
      · have := ih2 it h; omega

theorem scanCourses_index_lt (k : Nat) (prev : Option Section) (l : List Section) :
    (scanCourses k prev l).Pairwise (fun a b => a.index < b.index) := by
  induction k, prev, l using scanCourses.induct with
  | case1 k prev => simp [scanCourses]
  | case2 k prev c => simp [scanCourses]
  | case3 k prev c n rest ih1 ih2 =>
    unfold scanCourses
    rw [List.pairwise_cons]
    split_ifs
    · refine ⟨fun it hit => ?_, ih1⟩
      have := scanCourses_index_ge _ _ _ it hit
      show k < it.index
      omega
    · refine ⟨fun it hit => ?_, ih2⟩
      have := scanCourses_index_ge _ _ _ it hit
      show k < it.index
      omega

theorem scanCourses_index_inj (k : Nat) (prev : Option Section) (l : List Section)
    (a b : Iteration) (ha : a ∈ scanCourses k prev l) (hb : b ∈ scanCourses k prev l)
    (h : a.index = b.index) : a = b := by
  have hnd : ((scanCourses k prev l).map Iteration.index).Nodup := by
    unfold List.Nodup
    rw [List.pairwise_map]
    exact (scanCourses_index_lt k prev l).imp (fun hlt => Nat.ne_of_lt hlt)
  exact List.inj_on_of_nodup_map hnd ha hb h

theorem scanCourses_theoretical (k : Nat) (prev : Option Section) (l : List Section) :
    ∀ (i : Nat) (c : Section), l[i]? = some c → c.type = THEORETICAL →
      (⟨k + i, c.code, (loopBody none c l[i + 1]?).1⟩ : Iteration) ∈ scanCourses k prev l := by
  induction k, prev, l using scanCourses.induct with
  | case1 k prev => intro i c h; simp at h
  | case2 k prev c0 =>
    intro i c h hT
    cases i with
    | zero =>
      simp only [List.getElem?_cons_zero, Option.some.injEq] at h
      subst h
      simp [scanCourses, loopBody_theoretical_prev prev c0 none hT]
    | succ j => simp at h
  | case3 k prev c0 c1 rest ih1 ih2 =>
    intro i c h hT
    unfold scanCourses
    cases i with
    | zero =>
      simp only [List.getElem?_cons_zero, Option.some.injEq] at h
      subst h
      simp [loopBody_theoretical_prev prev c0 (some c1) hT]
    | succ j =>
      apply List.mem_cons_of_mem
      rw [List.getElem?_cons_succ] at h
      split_ifs with hskip
      · obtain ⟨_, p, hp, _, hpP⟩ := loopBody_skip _ _ _ hskip
        cases hp
        cases j with
        | zero =>
          simp only [List.getElem?_cons_zero, Option.some.injEq] at h
          subst h
          exact absurd (hT.symm.trans hpP) type_theoretical_ne_practical
        | succ m =>
          rw [List.getElem?_cons_succ] at h
          have := ih1 m c h hT
          simp only [List.getElem?_cons_succ]
          rw [show k + (m + 1 + 1) = k + 2 + m by omega]
          exact this
      · have := ih2 j c h hT
        rw [List.getElem?_cons_succ, show k + (j + 1) = k + 1 + j by omega]
        exact this

theorem scanCourses_skips (k : Nat) (prev : Option Section) (l : List Section) :
    ∀ (i : Nat) (t p : Section), l[i]? = some t → l[i + 1]? = some p →
      t.type = THEORETICAL → p.code = t.code → p.type = PRACTICAL →
      ∀ it ∈ scanCourses k prev l, it.index ≠ k + i + 1 := by
  induction k, prev, l using scanCourses.induct with
  | case1 k prev => intro i t p h; simp at h
  | case2 k prev c0 => intro i t p _ h; simp at h
  | case3 k prev c0 c1 rest ih1 ih2 =>
    intro i t p ht hp hT hc hP it hit
    unfold scanCourses at hit
    rcases List.mem_cons.1 hit with h | h
    · subst h
      show k ≠ k + i + 1
      omega
    · cases i with
      | zero =>
        simp only [List.getElem?_cons_zero, Option.some.injEq] at ht
        simp only [List.getElem?_cons_succ, List.getElem?_cons_zero, Option.some.injEq] at hp
        subst ht
        subst hp
        rw [loopBody_pair prev c0 c1 hT hc hP] at h
        simp only [if_true] at h
        have := scanCourses_index_ge _ _ _ it h
        omega
      | succ j =>
        rw [List.getElem?_cons_succ] at ht hp
        split_ifs at h with hskip
        · obtain ⟨_, q, hq, _, hqP⟩ := loopBody_skip _ _ _ hskip
          cases hq
          cases j with
          | zero =>
            simp only [List.getElem?_cons_zero, Option.some.injEq] at ht
            subst ht
            exact absurd (hT.symm.trans hqP) type_theoretical_ne_practical
          | succ m =>
            rw [List.getElem?_cons_succ] at ht hp
            have := ih1 m t p ht hp hT hc hP it h
            omega
        · have := ih2 j t p ht hp hT hc hP it h
          omega

theorem scanCourses_pushed (k : Nat) (prev : Option Section) (l : List Section) :
    ∀ it ∈ scanCourses k prev l, k ≤ it.index ∧
      ∃ (c : Section) (prev2 next2 : Option Section), l[it.index - k]? = some c ∧
        it.courseCode = c.code ∧ it.pushed = (loopBody prev2 c next2).1 := by
  induction k, prev, l using scanCourses.induct with
  | case1 k prev => intro it h; simp [scanCourses] at h
  | case2 k prev c0 =>
    intro it h
    simp only [scanCourses, List.mem_singleton] at h
    subst h
    exact ⟨Nat.le_refl _, c0, prev, none, by simp, rfl, rfl⟩
  | case3 k prev c0 c1 rest ih1 ih2 =>
    intro it h
    unfold scanCourses at h
    rcases List.mem_cons.1 h with h | h
    · subst h
      exact ⟨Nat.le_refl _, c0, prev, some c1, by simp, rfl, rfl⟩
    · split_ifs at h
      · obtain ⟨hge, c, p2, n2, hc, hcode, hpush⟩ := ih1 it h
        refine ⟨by omega, c, p2, n2, ?_, hcode, hpush⟩
        rw [show it.index - k = (it.index - (k + 2)) + 1 + 1 by omega]
        simpa using hc
      · obtain ⟨hge, c, p2, n2, hc, hcode, hpush⟩ := ih2 it h
        refine ⟨by omega, c, p2, n2, ?_, hcode, hpush⟩
        rw [show it.index - k = (it.index - (k + 1)) + 1 by omega]
        simpa using hc

theorem unitsOf_initCode (cu : CourseUnits) (c code : String) :
    unitsOf (initCode cu c) code =
      if c = code then some ((unitsOf cu code).getD []) else unitsOf cu code := by
  unfold initCode
  by_cases hc : c = code
  · subst hc
    rw [if_pos rfl]
    cases h : unitsOf cu c with
    | some us => simp [h]
    | none =>
      simp only [h, Option.isSome_none, Bool.false_eq_true, if_false, Option.getD_none]
      unfold unitsOf at h ⊢
      rw [List.find?_append]
      cases hf : List.find? (fun e => decide (e.1 = c)) cu with
      | some e => simp [hf] at h
      | none => simp
  · rw [if_neg hc]
    split_ifs
    · rfl
    · unfold unitsOf
      rw [List.find?_append]
      cases hf : List.find? (fun e => decide (e.1 = code)) cu with
      | some e => simp
      | none => simp [hc]

theorem unitsOf_pushUnit (cu : CourseUnits) (c code : String) (u : CourseUnit) :
    unitsOf (pushUnit cu c u) code =
      if c = code then (unitsOf cu code).map (fun us => us ++ [u]) else unitsOf cu code := by
  induction cu with
  | nil => simp [pushUnit, unitsOf]
  | cons e rest ih =>
    have hk : (if e.1 = c then (e.1, e.2 ++ [u]) else e).1 = e.1 := by split_ifs <;> rfl
    unfold pushUnit unitsOf at ih ⊢
    simp only [List.map_cons, List.find?_cons, hk]
    by_cases hec : e.1 = code
    · simp only [hec, decide_True, Option.map_some']
      by_cases hc : c = code
      · simp [hc]
      · have : ¬ code = c := fun h => hc h.symm
        simp [hc, this]
    · simp only [hec, decide_False]
      exact ih

theorem unitsOf_applyIteration (cu : CourseUnits) (it : Iteration) (code : String) :
    unitsOf (applyIteration cu it) code =
      if it.courseCode = code then some ((unitsOf cu code).getD [] ++ it.pushed.toList)
      else unitsOf cu code := by
  unfold applyIteration
  cases hp : it.pushed with
  | none => simp [unitsOf_initCode]
  | some u =>
    simp only [unitsOf_pushUnit, unitsOf_initCode]
    split_ifs <;> simp

theorem pushedUnder_cons (code : String) (it : Iteration) (rest : List Iteration) :
    pushedUnder code (it :: rest) =
      if it.courseCode = code then it.pushed.toList ++ pushedUnder code rest
      else pushedUnder code rest := by
  unfold pushedUnder
  by_cases hc : it.courseCode = code
  · simp only [List.filter_cons, hc, decide_True, if_true, List.filterMap_cons]
    cases it.pushed <;> rfl
  · simp only [List.filter_cons, hc, decide_False, if_false, Bool.false_eq_true]

theorem pushedUnder_eq_nil (code : String) (its : List Iteration)
    (h : its.any (fun it => decide (it.courseCode = code)) = false) :
    pushedUnder code its = [] := by
  induction its with
  | nil => rfl
  | cons it rest ih =>
    simp only [List.any_cons, Bool.or_eq_false_iff, decide_eq_false_iff_not] at h
    rw [pushedUnder_cons, if_neg h.1]
    exact ih h.2

theorem unitsOf_foldl_applyIteration (its : List Iteration) :
    ∀ (cu : CourseUnits) (code : String),
      unitsOf (its.foldl applyIteration cu) code =
        if its.any (fun it => decide (it.courseCode = code)) then
          some ((unitsOf cu code).getD [] ++ pushedUnder code its)
        else unitsOf cu code := by
  induction its with
  | nil => intro cu code; simp
  | cons it rest ih =>
    intro cu code
    simp only [List.foldl_cons]
    rw [ih, unitsOf_applyIteration, pushedUnder_cons]
    by_cases hc : it.courseCode = code
    · simp only [hc, if_true, List.any_cons, decide_True, Bool.true_or, Option.getD_some,
        List.append_assoc]
      cases hany : rest.any (fun it => decide (it.courseCode = code)) with
      | true => simp
      | false => simp [pushedUnder_eq_nil code rest hany]
    · simp only [hc, if_false, List.any_cons, decide_False, Bool.false_or]

theorem runIterations_fst (its : List Iteration) :
    ∀ cu : CourseUnits,
      (runIterations cu its).1 = (effectiveIterations its).foldl applyIteration cu := by
  induction its with
  | nil => intro cu; rfl
  | cons it rest ih =>
    intro cu
    unfold runIterations runIteration
    by_cases hin : it.courseCode ∈ inheritedNames
    · cases hp : it.pushed with
      | none =>
        simp only [hin, if_true]
        rw [ih]
        simp [effectiveIterations, List.takeWhile_cons, hin, hp]
      | some u =>
        simp [effectiveIterations, List.takeWhile_cons, hin, hp]
    · simp only [hin, if_false]
      rw [ih]
      simp [effectiveIterations, List.takeWhile_cons, hin]

theorem runIterations_snd (its : List Iteration) :
    ∀ cu : CourseUnits,
      (runIterations cu its).2
        = its.any (fun it => decide (it.courseCode ∈ inheritedNames) && it.pushed.isSome) := by
  induction its with
  | nil => intro cu; rfl
  | cons it rest ih =>
    intro cu
    unfold runIterations runIteration
    by_cases hin : it.courseCode ∈ inheritedNames
    · cases hp : it.pushed with
      | none =>
        simp only [hin, if_true]
        rw [ih]
        simp [hp]
      | some u => simp [hin, hp]
    · simp only [hin, if_false]
      rw [ih]
      simp [hin]

theorem effectiveIterations_sublist (its : List Iteration) :
    (effectiveIterations its).Sublist its :=
  (List.filter_sublist _).trans (List.takeWhile_sublist _)

theorem effectiveIterations_eq_self (its : List Iteration)
    (h : ∀ it ∈ its, it.courseCode ∉ inheritedNames) : effectiveIterations its = its := by
  unfold effectiveIterations
  have h1 : its.takeWhile
      (fun it => !(decide (it.courseCode ∈ inheritedNames) && it.pushed.isSome)) = its := by
    rw [List.takeWhile_eq_self_iff]
    intro it hit
    simp [h it hit]
  rw [h1, List.filter_eq_self]
  intro it hit
  simp [h it hit]

theorem unitsOf_setupCourseUnits (catalog : List Section) (code : String) :
    unitsOf (setupCourseUnits catalog) code =
      if (effectiveIterations (scanCourses 0 none catalog)).any
          (fun it => decide (it.courseCode = code)) then
        some (pushedUnder code (effectiveIterations (scanCourses 0 none catalog)))
      else none := by
  unfold setupCourseUnits
  rw [runIterations_fst, unitsOf_foldl_applyIteration]
  simp [unitsOf]

theorem mem_unitsOf_of_iteration (catalog : List Section) (code : String) (i : Nat)
    (u : CourseUnit)
    (h : (⟨i, code, some u⟩ : Iteration) ∈ effectiveIterations (scanCourses 0 none catalog)) :
    ∃ us, unitsOf (setupCourseUnits catalog) code = some us ∧ u ∈ us := by
  refine ⟨pushedUnder code (effectiveIterations (scanCourses 0 none catalog)), ?_, ?_⟩
  · rw [unitsOf_setupCourseUnits, if_pos]
    exact List.any_eq_true.2 ⟨_, h, by simp⟩
  · unfold pushedUnder
    exact List.mem_filterMap.2 ⟨_, List.mem_filter.2 ⟨h, by simp⟩, rfl⟩


/-! ## The search: which schedules are reached -/

theorem capReached_eq_false (cfg : Settings) (hcap : cfg.maxResults ≤ 0) (all : List Schedule) :
    capReached cfg all = false := by
  unfold capReached
  have : ¬ cfg.maxResults > 0 := by omega
  simp [this]

theorem subset_emit (cfg : Settings) (cur : List CourseUnit) (total : Int)
    (all : List Schedule) (s : Schedule) (hs : s ∈ all) : s ∈ emit cfg cur total all := by
  unfold emit
  split_ifs
  · exact List.mem_append_left _ hs
  · exact hs
  · exact hs

theorem mem_emit_self (cfg : Settings) (cur : List CourseUnit) (total : Int)
    (all : List Schedule) (hmin : cfg.minCredits ≤ total)
    (hvalid : isValidSchedule cfg.selectedDays cur = true) :
    (⟨cur, total, calculateScheduleScore cfg.registeredSections cur⟩ : Schedule) ∈
      emit cfg cur total all := by
  unfold emit
  rw [if_pos hmin, if_pos hvalid]
  exact List.mem_append_right _ (List.mem_singleton_self _)

theorem subset_generateCombinations (cfg : Settings) (s : Schedule) :
    ∀ (opts : List CourseOption) (cur : List CourseUnit) (total : Int) (all : List Schedule),
      s ∈ all → s ∈ generateCombinations cfg opts cur total all := by
  intro opts
  induction opts with
  | nil =>
    intro cur total all hs
    unfold generateCombinations
    split_ifs
    · exact hs
    · exact subset_emit cfg cur total all s hs
  | cons o rest ih =>
    intro cur total all hs
    have hfold : s ∈ o.units.foldl
        (fun acc unit =>
          if total + unit.totalCredits ≤ cfg.maxCredits then
            if hasConflictWith cur unit then acc
            else
              generateCombinations cfg rest (cur ++ [unit]) (total + unit.totalCredits) acc
          else acc)
        (emit cfg cur total all) := by
      apply foldl_forall (fun acc => s ∈ acc)
      · intro acc u _ hacc
        dsimp only
        split_ifs
        · exact hacc
        · exact ih _ _ _ hacc
        · exact hacc
      · exact subset_emit cfg cur total all s hs
    unfold generateCombinations
    split_ifs
    · exact hs
    · exact subset_emit cfg cur total all s hs
    · exact ih _ _ _ hfold
    · exact hfold

theorem subset_runMandatorySchedules (cfg : Settings) (opts : List CourseOption) (s : Schedule) :
    ∀ (bases : List MandatorySchedule) (all : List Schedule),
      s ∈ all → s ∈ runMandatorySchedules cfg opts bases all := by
  intro bases
  induction bases with
  | nil => intro all hs; simpa [runMandatorySchedules] using hs
  | cons b rest ih =>
    intro all hs
    unfold runMandatorySchedules
    split_ifs
    · exact subset_generateCombinations cfg s _ _ _ _ hs
    · exact ih _ (subset_generateCombinations cfg s _ _ _ _ hs)

theorem subset_generate (selectedDays : List Nat) (b : MandatorySchedule) :
    ∀ (opts : List CourseOption) (cur : List CourseUnit) (total : Int)
      (acc : List MandatorySchedule), b ∈ acc → b ∈ generate selectedDays opts cur total acc := by
  intro opts
  induction opts with
  | nil =>
    intro cur total acc hb
    unfold generate
    split_ifs
    · exact List.mem_append_left _ hb
    · exact hb
  | cons o rest ih =>
    intro cur total acc hb
    unfold generate
    apply foldl_forall (fun a => b ∈ a)
    · intro a u _ ha
      dsimp only
      split_ifs
      · exact ha
      · exact ih _ _ _ ha
    · exact hb

theorem foldl_mem_of_step {α β : Type} (f : List β → α → List β) (t : β) (x : α)
    (hmono : ∀ acc y, t ∈ acc → t ∈ f acc y) (hstep : ∀ acc, t ∈ f acc x) :
    ∀ (l : List α), x ∈ l → ∀ init, t ∈ l.foldl f init := by
  intro l
  induction l with
  | nil => intro hx; simp at hx
  | cons y ys ih =>
    intro hx init
    simp only [List.foldl_cons]
    rcases List.mem_cons.1 hx with h | h
    · subst h
      exact foldl_forall (fun acc => t ∈ acc) f ys (fun acc z _ hacc => hmono acc z hacc) _
        (hstep init)
    · exact ih h _

theorem allSessions_append (a b : List CourseUnit) :
    allSessions (a ++ b) = allSessions a ++ allSessions b := by
  simp [allSessions]

theorem isValidSchedule_append_left (selectedDays : List Nat) (a b : List CourseUnit)
    (h : isValidSchedule selectedDays (a ++ b) = true) : isValidSchedule selectedDays a = true := by
  rw [isValidSchedule_iff] at h ⊢
  rw [allSessions_append] at h
  exact ⟨(List.pairwise_append.1 h.1).1, fun s hs => h.2 s (List.mem_append_left _ hs)⟩

theorem hasConflictWith_eq_false (selectedDays : List Nat) (cur : List CourseUnit)
    (u : CourseUnit) (ext : List CourseUnit)
    (h : isValidSchedule selectedDays (cur ++ u :: ext) = true) :
    hasConflictWith cur u = false := by
  rw [isValidSchedule_iff, allSessions_append] at h
  have hcross := (List.pairwise_append.1 h.1).2.2
  rw [← Bool.not_eq_true]
  intro hc
  unfold hasConflictWith at hc
  obtain ⟨e, he, hconf⟩ := List.any_eq_true.1 hc
  obtain ⟨a, ha, b, hb, hov⟩ := (hasTimeConflict_eq_true_iff _ _).1 hconf
  have hb2 : b ∈ allSessions cur := List.mem_flatMap.2 ⟨e, he, hb⟩
  have ha2 : a ∈ allSessions (u :: ext) :=
    List.mem_flatMap.2 ⟨u, List.mem_cons_self _ _, ha⟩
  have := hcross b hb2 a ha2
  rw [sessionsOverlap_symm, hov] at this
  exact Bool.noConfusion this

theorem sumCredits_nil : sumCredits [] = 0 := rfl

theorem sumCredits_cons (u : CourseUnit) (us : List CourseUnit) :
    sumCredits (u :: us) = u.totalCredits + sumCredits us := by
  simp [sumCredits]

theorem sumCredits_append (a b : List CourseUnit) :
    sumCredits (a ++ b) = sumCredits a + sumCredits b := by
  simp [sumCredits]

theorem generateCombinations_complete (cfg : Settings) (hcap : cfg.maxResults ≤ 0)
    (hpart : cfg.allowPartialSchedules = true) :
    ∀ (chosen opts : List CourseOption), chosen.Sublist opts →
      ∀ (ext : List CourseUnit),
        List.Forall₂ (fun (o : CourseOption) (u : CourseUnit) => u ∈ o.units) chosen ext →
      ∀ (cur : List CourseUnit) (total : Int) (all : List Schedule),
        isValidSchedule cfg.selectedDays (cur ++ ext) = true →
        cfg.minCredits ≤ total + sumCredits ext →
        (∀ n, n < ext.length → total + sumCredits (ext.take n) < cfg.maxCredits) →
        total + sumCredits ext ≤ cfg.maxCredits →
        (⟨cur ++ ext, total + sumCredits ext,
            calculateScheduleScore cfg.registeredSections (cur ++ ext)⟩ : Schedule) ∈
          generateCombinations cfg opts cur total all := by
  intro chosen opts hsub
  induction hsub with
  | slnil =>
    intro ext hext cur total all hvalid hmin _ _
    cases hext
    simp only [List.append_nil, sumCredits_nil, add_zero] at hvalid hmin ⊢
    unfold generateCombinations
    rw [capReached_eq_false cfg hcap]
    exact mem_emit_self cfg cur total all hmin hvalid
  | @cons chosen rest o _ ih =>
    intro ext hext cur total all hvalid hmin hroom hle
    unfold generateCombinations
    rw [capReached_eq_false cfg hcap]
    simp only [Bool.false_eq_true, if_false, hpart, if_true]
    split_ifs with hfull
    · cases ext with
      | nil =>
        simp only [List.append_nil, sumCredits_nil, add_zero] at hvalid hmin ⊢
        exact mem_emit_self cfg cur total all hmin hvalid
      | cons u ext2 =>
        have := hroom 0 (by simp)
        simp only [List.take_zero, sumCredits_nil, add_zero] at this
        omega
    · exact ih ext hext cur total _ hvalid hmin hroom hle
  | @cons₂ chosen rest o _ ih =>
    intro ext hext cur total all hvalid hmin hroom hle
    cases hext with
    | cons hu hext2 =>
      rename_i u ext2
      have h0 := hroom 0 (by simp)
      simp only [List.take_zero, sumCredits_nil, add_zero] at h0
      have hfit : total + u.totalCredits ≤ cfg.maxCredits := by
        cases ext2 with
        | nil => simpa [sumCredits_cons, sumCredits_nil] using hle
        | cons v ext3 =>
          have := hroom 1 (by simp)
          simp only [List.take_succ_cons, List.take_zero, sumCredits_cons, sumCredits_nil,
            add_zero] at this
          omega
      have hnc : hasConflictWith cur u = false :=
        hasConflictWith_eq_false cfg.selectedDays cur u ext2 hvalid
      have htarget : ∀ acc : List Schedule,
          (⟨cur ++ u :: ext2, total + sumCredits (u :: ext2),
            calculateScheduleScore cfg.registeredSections (cur ++ u :: ext2)⟩ : Schedule) ∈
            generateCombinations cfg rest (cur ++ [u]) (total + u.totalCredits) acc := by
        intro acc
        have := ih ext2 hext2 (cur ++ [u]) (total + u.totalCredits) acc
          (by simpa using hvalid)
          (by rw [sumCredits_cons] at hmin; omega)
          (by
            intro n hn
            have := hroom (n + 1) (by simpa using hn)
            simp only [List.take_succ_cons, sumCredits_cons] at this
            omega)
          (by rw [sumCredits_cons] at hle; omega)
        simpa [sumCredits_cons, add_assoc] using this
      unfold generateCombinations
      rw [capReached_eq_false cfg hcap]
      simp only [Bool.false_eq_true, if_false, hpart, if_true]
      rw [if_neg (by omega)]
      apply subset_generateCombinations
      apply foldl_mem_of_step _ _ u _ _ o.units hu
      · intro acc y hacc
        dsimp only
        split_ifs
        · exact hacc
        · exact subset_generateCombinations cfg _ _ _ _ _ hacc
        · exact hacc
      · intro acc
        dsimp only
        rw [if_pos hfit, hnc]
        simp only [Bool.false_eq_true, if_false]
        exact htarget acc

theorem generate_complete (selectedDays : List Nat) :
    ∀ (opts : List CourseOption) (ext : List CourseUnit),
      List.Forall₂ (fun (o : CourseOption) (u : CourseUnit) => u ∈ o.units) opts ext →
      ∀ (cur : List CourseUnit) (total : Int) (acc : List MandatorySchedule),
        isValidSchedule selectedDays (cur ++ ext) = true →
        (⟨cur ++ ext, total + sumCredits ext⟩ : MandatorySchedule) ∈
          generate selectedDays opts cur total acc := by
  intro opts ext hext
  induction hext with
  | nil =>
    intro cur total acc hvalid
    simp only [List.append_nil, sumCredits_nil, add_zero] at hvalid ⊢
    unfold generate
    rw [if_pos hvalid]
    exact List.mem_append_right _ (List.mem_singleton_self _)
  | @cons o u rest ext2 hu _ ih =>
    intro cur total acc hvalid
    have hnc : hasConflictWith cur u = false :=
      hasConflictWith_eq_false selectedDays cur u ext2 hvalid
    unfold generate
    apply foldl_mem_of_step _ _ u _ _ o.units hu
    · intro a y ha
      dsimp only
      split_ifs
      · exact ha
      · exact subset_generate selectedDays _ _ _ _ _ ha
    · intro a
      dsimp only
      rw [hnc]
      simp only [Bool.false_eq_true, if_false]
      have := ih (cur ++ [u]) (total + u.totalCredits) a (by simpa using hvalid)
      simpa [sumCredits_cons, add_assoc] using this

theorem runMandatorySchedules_complete (cfg : Settings) (hcap : cfg.maxResults ≤ 0)
    (opts : List CourseOption) (t : Schedule) (b : MandatorySchedule)
    (hb : ∀ all, t ∈ generateCombinations cfg opts b.units b.totalCredits all) :
    ∀ (bases : List MandatorySchedule) (all : List Schedule),
      b ∈ bases → t ∈ runMandatorySchedules cfg opts bases all := by
  intro bases
  induction bases with
  | nil => intro all h; simp at h
  | cons b2 rest ih =>
    intro all h
    unfold runMandatorySchedules
    rw [capReached_eq_false cfg hcap]
    simp only [Bool.false_eq_true, if_false]
    rcases List.mem_cons.1 h with h | h
    · subst h
      exact subset_runMandatorySchedules cfg opts t _ _ (hb all)
    · exact ih _ h

theorem searchSchedules_complete (cfg : Settings) (hcap : cfg.maxResults ≤ 0)
    (hpart : cfg.allowPartialSchedules = true) (options : List CourseOption)
    (base ext : List CourseUnit) (chosen : List CourseOption)
    (hbase : List.Forall₂ (fun (o : CourseOption) (u : CourseUnit) => u ∈ o.units)
      (options.filter (fun opt => opt.isMandatory)) base)
    (hchosen : chosen.Sublist (options.filter (fun opt => !opt.isMandatory)))
    (hext : List.Forall₂ (fun (o : CourseOption) (u : CourseUnit) => u ∈ o.units) chosen ext)
    (hvalid : isValidSchedule cfg.selectedDays (base ++ ext) = true)
    (hmin : cfg.minCredits ≤ sumCredits (base ++ ext))
    (hmaxc : sumCredits (base ++ ext) ≤ cfg.maxCredits)
    (hroom : ∀ n, n < ext.length → sumCredits (base ++ ext.take n) < cfg.maxCredits) :
    (⟨base ++ ext, sumCredits (base ++ ext),
        calculateScheduleScore cfg.registeredSections (base ++ ext)⟩ : Schedule) ∈
      searchSchedules cfg options := by
  have hbvalid := isValidSchedule_append_left cfg.selectedDays base ext hvalid
  have hbmem : (⟨base, sumCredits base⟩ : MandatorySchedule) ∈
      generateMandatoryCombinations cfg.selectedDays
        (options.filter (fun opt => opt.isMandatory)) := by
    unfold generateMandatoryCombinations
    split_ifs with hlen
    · rw [List.length_eq_zero] at hlen
      rw [hlen] at hbase
      cases hbase
      simp [sumCredits_nil]
    · have := generate_complete cfg.selectedDays _ base hbase [] 0 [] (by simpa using hbvalid)
      simpa using this
  have hgc : ∀ all, (⟨base ++ ext, sumCredits (base ++ ext),
      calculateScheduleScore cfg.registeredSections (base ++ ext)⟩ : Schedule) ∈
      generateCombinations cfg (options.filter (fun opt => !opt.isMandatory)) base
        (sumCredits base) all := by
    intro all
    rw [sumCredits_append]
    exact generateCombinations_complete cfg hcap hpart chosen _ hchosen ext hext base
      (sumCredits base) all hvalid (by rw [← sumCredits_append]; exact hmin)
      (fun n hn => by rw [← sumCredits_append]; exact hroom n hn)
      (by rw [← sumCredits_append]; exact hmaxc)
  have hpos : (generateMandatoryCombinations cfg.selectedDays
      (options.filter (fun opt => opt.isMandatory))).length > 0 := List.length_pos_of_mem hbmem
  unfold searchSchedules
  rw [if_neg (by omega), if_pos hpos]
  exact runMandatorySchedules_complete cfg hcap _ _ ⟨base, sumCredits base⟩ hgc _ [] hbmem


theorem forall2_units_pos (l : List CourseOption) (us : List CourseUnit)
    (h : List.Forall₂ (fun (o : CourseOption) (u : CourseUnit) => u ∈ o.units) l us) :
    ∀ o ∈ l, o.units.length > 0 := by
  induction h with
  | nil => intro o ho; simp at ho
  | cons hu _ ih =>
    intro o ho
    rcases List.mem_cons.1 ho with h | h
    · subst h; exact List.length_pos_of_mem hu
    · exact ih o h

theorem filter_mandatory_eq (mapped : List CourseOption)
    (h : ∀ o ∈ mapped.filter (fun opt => opt.isMandatory), o.units.length > 0) :
    (mapped.filter (fun option => decide (option.units.length > 0))).filter
        (fun opt => opt.isMandatory) = mapped.filter (fun opt => opt.isMandatory) := by
  rw [List.filter_filter]
  apply List.filter_congr
  intro o ho
  cases hm : o.isMandatory with
  | false => simp
  | true =>
    have := h o (List.mem_filter.2 ⟨ho, hm⟩)
    simp [this]

theorem sublist_filter_optional (mapped chosen : List CourseOption)
    (hchosen : chosen.Sublist (mapped.filter (fun opt => !opt.isMandatory)))
    (h : ∀ o ∈ chosen, o.units.length > 0) :
    chosen.Sublist ((mapped.filter (fun option => decide (option.units.length > 0))).filter
      (fun opt => !opt.isMandatory)) := by
  have h1 := hchosen.filter (fun option => decide (option.units.length > 0))
  have h2 : chosen.filter (fun option => decide (option.units.length > 0)) = chosen :=
    List.filter_eq_self.2 (fun o ho => by simpa using h o ho)
  rw [h2, List.filter_filter] at h1
  rw [List.filter_filter]
  have h3 : (fun a : CourseOption => (!a.isMandatory && decide (a.units.length > 0))) =
      (fun a => (decide (a.units.length > 0) && !a.isMandatory)) := by
    funext a; exact Bool.and_comm _ _
  rw [h3]
  exact h1

theorem loopBody_cases (prev : Option Section) (c : Section) (next : Option Section)
    (u : CourseUnit) (h : (loopBody prev c next).1 = some u) :
    (∃ p, next = some p ∧ p.code = c.code ∧ p.type = PRACTICAL ∧ c.type = THEORETICAL ∧
        u = combinedUnit c p ∧ (loopBody prev c next).2 = true) ∨
      (c.type = THEORETICAL ∧ u = theoryUnit c ∧ (loopBody prev c next).2 = false) ∨
      (c.type = PRACTICAL ∧ u = practicalUnit c ∧ (loopBody prev c next).2 = false) := by
  unfold loopBody at h ⊢
  split_ifs at h ⊢ with h1 h2
  · cases next with
    | none =>
      simp only [Option.some.injEq] at h
      exact Or.inr (Or.inl ⟨h1, h.symm, rfl⟩)
    | some p =>
      simp only at h ⊢
      split_ifs at h ⊢ with h3
      · simp only [Option.some.injEq] at h
        exact Or.inl ⟨p, rfl, h3.1, h3.2, h1, h.symm, rfl⟩
      · simp only [Option.some.injEq] at h
        exact Or.inr (Or.inl ⟨h1, h.symm, rfl⟩)
  · cases prev with
    | none =>
      simp only [Option.some.injEq] at h
      exact Or.inr (Or.inr ⟨h2, h.symm, rfl⟩)
    | some q =>
      simp only at h ⊢
      split_ifs at h ⊢
      · simp only [Option.some.injEq] at h
        exact Or.inr (Or.inr ⟨h2, h.symm, rfl⟩)
  
theorem exists_iteration_of_mem_unitsOf (catalog : List Section) (code : String)
    (us : List CourseUnit) (hus : unitsOf (setupCourseUnits catalog) code = some us)
    (u : CourseUnit) (hu : u ∈ us) :
    ∃ it ∈ scanCourses 0 none catalog, it.courseCode = code ∧ it.pushed = some u := by
  rw [unitsOf_setupCourseUnits] at hus
  split_ifs at hus
  cases hus
  unfold pushedUnder at hu
  obtain ⟨it, hit, hpush⟩ := List.mem_filterMap.1 hu
  obtain ⟨hmem, hcode⟩ := List.mem_filter.1 hit
  exact ⟨it, (effectiveIterations_sublist _).subset hmem, by simpa using hcode, hpush⟩

theorem scanCourses_pushed_next (k : Nat) (prev : Option Section) (l : List Section) :
    ∀ it ∈ scanCourses k prev l, k ≤ it.index ∧
      ∃ (c : Section) (prev2 : Option Section), l[it.index - k]? = some c ∧
        it.courseCode = c.code ∧ it.pushed = (loopBody prev2 c l[it.index - k + 1]?).1 := by
  induction k, prev, l using scanCourses.induct with
  | case1 k prev => intro it h; simp [scanCourses] at h
  | case2 k prev c0 =>
    intro it h
    simp only [scanCourses, List.mem_singleton] at h
    subst h
    exact ⟨Nat.le_refl _, c0, prev, by simp, rfl, by simp⟩
  | case3 k prev c0 c1 rest ih1 ih2 =>
    intro it h
    unfold scanCourses at h
    rcases List.mem_cons.1 h with h | h
    · subst h
      exact ⟨Nat.le_refl _, c0, prev, by simp, rfl, by simp⟩
    · split_ifs at h
      · obtain ⟨hge, c, p2, hc, hcode, hpush⟩ := ih1 it h
        refine ⟨by omega, c, p2, ?_, hcode, ?_⟩
        · rw [show it.index - k = (it.index - (k + 2)) + 1 + 1 by omega]
          simpa using hc
        · rw [show it.index - k + 1 = (it.index - (k + 2) + 1) + 1 + 1 by omega]
          simpa using hpush
      · obtain ⟨hge, c, p2, hc, hcode, hpush⟩ := ih2 it h
        refine ⟨by omega, c, p2, ?_, hcode, ?_⟩
        · rw [show it.index - k = (it.index - (k + 1)) + 1 by omega]
          simpa using hc
        · rw [show it.index - k + 1 = (it.index - (k + 1) + 1) + 1 by omega]
          simpa using hpush

theorem unit_of_setupCourseUnits (catalog : List Section) (code : String)
    (us : List CourseUnit) (hus : unitsOf (setupCourseUnits catalog) code = some us)
    (u : CourseUnit) (hu : u ∈ us) :
    ∃ c : Section, c ∈ catalog ∧ c.code = code ∧
      ((∃ p, p ∈ catalog ∧ p.code = code ∧ u = combinedUnit c p) ∨ u = theoryUnit c ∨
        u = practicalUnit c) := by
  obtain ⟨it, hit, hcode, hpush⟩ := exists_iteration_of_mem_unitsOf catalog code us hus u hu
  obtain ⟨_, c, p2, hc, hcc, hp⟩ := scanCourses_pushed_next 0 none catalog it hit
  rw [hpush] at hp
  have hcmem : c ∈ catalog := List.mem_iff_getElem?.2 ⟨_, hc⟩
  have hccode : c.code = code := by rw [← hcc, hcode]
  refine ⟨c, hcmem, hccode, ?_⟩
  rcases loopBody_cases p2 c _ u hp.symm with ⟨p, hnext, hpc, _, _, hu2, _⟩ | ⟨_, hu2, _⟩ |
    ⟨_, hu2, _⟩
  · exact Or.inl ⟨p, List.mem_iff_getElem?.2 ⟨_, hnext⟩, by rw [hpc, hccode], hu2⟩
  · exact Or.inr (Or.inl hu2)
  · exact Or.inr (Or.inr hu2)

theorem unitCourseCode_of_setupCourseUnits (catalog : List Section) (code : String)
    (us : List CourseUnit) (hus : unitsOf (setupCourseUnits catalog) code = some us)
    (u : CourseUnit) (hu : u ∈ us) : unitCourseCode u = some code := by
  obtain ⟨c, _, hc, h | h | h⟩ := unit_of_setupCourseUnits catalog code us hus u hu
  · obtain ⟨p, _, _, rfl⟩ := h
    simp [unitCourseCode, combinedUnit, hc]
  · subst h
    simp [unitCourseCode, theoryUnit, hc]
  · subst h
    simp [unitCourseCode, practicalUnit, hc]

/-! ## Scoring -/

theorem foldl_add_eq_sum {α : Type} (f : α → Int) (l : List α) :
    ∀ init : Int, l.foldl (fun s x => s + f x) init = init + (l.map f).sum := by
  induction l with
  | nil => intro init; simp
  | cons x xs ih =>
    intro init
    simp only [List.foldl_cons, List.map_cons, List.sum_cons]
    rw [ih]
    omega

theorem totalGapMinutes_eq (units : List CourseUnit) :
    totalGapMinutes units = ((allGapRecords units).map (fun gap => gap.gapMinutes)).sum := by
  unfold totalGapMinutes allGapRecords
  have hinner : ∀ gaps : List GapRecord,
      gaps.foldl (fun dayTotal gap => dayTotal + gap.gapMinutes) 0
        = (gaps.map (fun gap => gap.gapMinutes)).sum := by
    intro gaps
    rw [foldl_add_eq_sum (fun gap : GapRecord => gap.gapMinutes) gaps 0]
    omega
  simp only [hinner]
  rw [foldl_add_eq_sum
    (fun dayGaps : Nat × List GapRecord => (dayGaps.2.map (fun gap => gap.gapMinutes)).sum)]
  simp only [zero_add]
  induction calculateDailyGaps units with
  | nil => simp
  | cons e rest ih => simp [List.flatMap_cons, ih]

theorem calculateScheduleScore_eq (registeredSections : List String) (units : List CourseUnit) :
    calculateScheduleScore registeredSections units =
      100 + (units.map (fun unit => theoreticalScore registeredSections unit
              + practicalScore registeredSections unit)).sum
        - Int.fdiv (totalGapMinutes units) 10 := by
  unfold calculateScheduleScore
  have h := foldl_add_eq_sum (fun unit => theoreticalScore registeredSections unit
    + practicalScore registeredSections unit) units 100
  have h2 : (fun (score : Int) (unit : CourseUnit) =>
      score + theoreticalScore registeredSections unit + practicalScore registeredSections unit)
      = (fun score unit => score + (theoreticalScore registeredSections unit
          + practicalScore registeredSections unit)) := by
    funext score unit
    omega
  rw [h2, h]

theorem theoreticalScore_eq (registeredSections : List String) (unit : CourseUnit) :
    theoreticalScore registeredSections unit =
      (unit.theoretical.toList.map (theoreticalPoints registeredSections)).sum := by
  unfold theoreticalScore theoreticalPoints
  cases unit.theoretical with
  | none => rfl
  | some t => simp

theorem practicalScore_eq (registeredSections : List String) (unit : CourseUnit) :
    practicalScore registeredSections unit =
      (unit.practical.toList.map (practicalPoints registeredSections)).sum := by
  unfold practicalScore practicalPoints
  cases unit.practical with
  | none => rfl
  | some p => simp

theorem fdiv_ten_eq_floor (t : Int) : Int.fdiv t 10 = Int.floor ((t : ℚ) / 10) := by
  rw [Int.fdiv_eq_ediv t (by decide)]
  have := Rat.floor_intCast_div_natCast t 10
  simpa using this.symm

theorem theoreticalPoints_mono (registeredSections : List String) (sectionId : String)
    (sec : Section) :
    theoreticalPoints registeredSections sec
      ≤ theoreticalPoints (registeredSections ++ [sectionId]) sec := by
  unfold theoreticalPoints
  by_cases h1 : sec.sectionId ∈ registeredSections
  · simp [h1]
  · by_cases h2 : sec.sectionId = sectionId
    · simp only [h1, if_false, List.mem_append, List.mem_singleton, h2, or_true, if_true]
      split_ifs <;> omega
    · simp [h1, h2]

theorem practicalPoints_mono (registeredSections : List String) (sectionId : String)
    (sec : Section) :
    practicalPoints registeredSections sec
      ≤ practicalPoints (registeredSections ++ [sectionId]) sec := by
  unfold practicalPoints
  by_cases h1 : sec.sectionId ∈ registeredSections
  · simp [h1]
  · by_cases h2 : sec.sectionId = sectionId
    · simp only [h1, if_false, List.mem_append, List.mem_singleton, h2, or_true, if_true]
      split_ifs <;> omega
    · simp [h1, h2]

theorem theoreticalScore_mono (registeredSections : List String) (sectionId : String)
    (unit : CourseUnit) :
    theoreticalScore registeredSections unit
      ≤ theoreticalScore (registeredSections ++ [sectionId]) unit := by
  rw [theoreticalScore_eq, theoreticalScore_eq]
  cases unit.theoretical with
  | none => simp
  | some t => simpa using theoreticalPoints_mono registeredSections sectionId t

theorem practicalScore_mono (registeredSections : List String) (sectionId : String)
    (unit : CourseUnit) :
    practicalScore registeredSections unit
      ≤ practicalScore (registeredSections ++ [sectionId]) unit := by
  rw [practicalScore_eq, practicalScore_eq]
  cases unit.practical with
  | none => simp
  | some p => simpa using practicalPoints_mono registeredSections sectionId p

/-! ## The final sort -/

theorem sortByScore_sorted (all : List Schedule) :
    (sortByScore all).Pairwise (fun a b => a.score ≥ b.score) := by
  haveI : IsTotal Schedule (fun a b => a.score ≥ b.score) :=
    ⟨fun a b => le_total b.score a.score⟩
  haveI : IsTrans Schedule (fun a b => a.score ≥ b.score) :=
    ⟨fun a b c hab hbc => le_trans hbc hab⟩
  exact List.sorted_insertionSort (fun a b : Schedule => a.score ≥ b.score) all

theorem filter_orderedInsert_score (v : Int) (a : Schedule) (l : List Schedule) :
    (l.orderedInsert (fun a b => a.score ≥ b.score) a).filter (fun c => decide (c.score = v))
      = (a :: l).filter (fun c => decide (c.score = v)) := by
  induction l with
  | nil => simp
  | cons b rest ih =>
    simp only [List.orderedInsert]
    split_ifs with hab
    · rfl
    · by_cases hav : a.score = v
      · have hbv : ¬ b.score = v := by omega
        simp only [List.filter_cons, hbv, decide_False, Bool.false_eq_true, if_false, ih, hav,
          decide_True, if_true]
      · simp only [List.filter_cons, hav, decide_False, Bool.false_eq_true, if_false] at ih ⊢
        rw [ih]

theorem filter_sortByScore (v : Int) (all : List Schedule) :
    (sortByScore all).filter (fun c => decide (c.score = v))
      = all.filter (fun c => decide (c.score = v)) := by
  induction all with
  | nil => rfl
  | cons a rest ih =>
    unfold sortByScore at ih ⊢
    simp only [List.insertionSort]
    rw [filter_orderedInsert_score, List.filter_cons, ih, List.filter_cons]

/-! ## Course units setup: every section in exactly one unit -/

theorem loopBody_practical (prev : Option Section) (c : Section) (next : Option Section)
    (hP : c.type = PRACTICAL)
    (hprev : ∀ q, prev = some q → q.code ≠ c.code ∨ q.type ≠ THEORETICAL) :
    loopBody prev c next = (some (practicalUnit c), false) := by
  have hT : ¬ c.type = THEORETICAL := by
    rw [hP]; exact fun h => type_theoretical_ne_practical h.symm
  unfold loopBody
  rw [if_neg hT, if_pos hP]
  cases prev with
  | none => rfl
  | some q =>
    have := hprev q rfl
    simp only [if_pos this]
    rfl

theorem iterationPositions_loopBody (k : Nat) (code : String) (prev : Option Section)
    (c : Section) (next : Option Section)
    (hkind : c.type = THEORETICAL ∨ c.type = PRACTICAL)
    (hprev : ∀ q, prev = some q → c.type = PRACTICAL → q.code ≠ c.code ∨ q.type ≠ THEORETICAL) :
    iterationPositions ⟨k, code, (loopBody prev c next).1⟩ =
      if (loopBody prev c next).2 then [k, k + 1] else [k] := by
  rcases hkind with hT | hP
  · by_cases hnext : ∃ p, next = some p ∧ p.code = c.code ∧ p.type = PRACTICAL
    · obtain ⟨p, rfl, hc, hP⟩ := hnext
      rw [loopBody_pair prev c p hT hc hP]
      rfl
    · rw [loopBody_alone prev c next hT (fun p hp hcon => hnext ⟨p, hp, hcon.1, hcon.2⟩)]
      rfl
  · rw [loopBody_practical prev c next hP (fun q hq => hprev q hq hP)]
    rfl

theorem scanCourses_positions (k : Nat) (prev : Option Section) (l : List Section) :
    (∀ s ∈ l, s.type = THEORETICAL ∨ s.type = PRACTICAL) →
    (∀ c q, l.head? = some c → prev = some q → c.type = PRACTICAL →
      q.code ≠ c.code ∨ q.type ≠ THEORETICAL) →
    (scanCourses k prev l).flatMap iterationPositions = List.range' k l.length := by
  induction k, prev, l using scanCourses.induct with
  | case1 k prev => intro _ _; simp [scanCourses]
  | case2 k prev c =>
    intro hkind hprev
    simp only [scanCourses, List.flatMap_cons, List.flatMap_nil, List.append_nil]
    rw [iterationPositions_loopBody k c.code prev c none (hkind c (List.mem_singleton_self c))
      (fun q hq hP => hprev c q rfl hq hP)]
    have hfalse : (loopBody prev c none).2 = false := by
      cases h : (loopBody prev c none).2 with
      | false => rfl
      | true =>
        obtain ⟨_, p, hp, _⟩ := loopBody_skip prev c none h
        cases hp
    simp [hfalse]
  | case3 k prev c n rest ih1 ih2 =>
    intro hkind hprev
    have hc := iterationPositions_loopBody k c.code prev c (some n)
      (hkind c (List.mem_cons_self _ _)) (fun q hq hP => hprev c q rfl hq hP)
    unfold scanCourses
    simp only [List.flatMap_cons, hc]
    cases hskip : (loopBody prev c (some n)).2 with
    | true =>
      obtain ⟨_, p, hp, _, hpP⟩ := loopBody_skip _ _ _ hskip
      cases hp
      simp only [if_true]
      rw [ih1 (fun s hs => hkind s (List.mem_cons_of_mem _ (List.mem_cons_of_mem _ hs)))
        (fun c2 q _ hq _ => by
          cases hq
          exact Or.inr (by rw [hpP]; exact fun h => type_theoretical_ne_practical h.symm))]
      simp [List.range'_succ]
    | false =>
      simp only [Bool.false_eq_true, if_false]
      rw [ih2 (fun s hs => hkind s (List.mem_cons_of_mem _ hs))
        (fun c2 q hc2 hq hP => by
          simp only [List.head?_cons, Option.some.injEq] at hc2
          simp only [Option.some.injEq] at hq
          by_contra hcon
          push_neg at hcon
          rw [← hq] at hcon
          rw [← hc2] at hcon hP
          rw [loopBody_pair prev c n hcon.2 hcon.1.symm hP] at hskip
          exact Bool.noConfusion hskip)]
      simp [List.range'_succ]

theorem iteration_sections (catalog : List Section) (it : Iteration)
    (hit : it ∈ scanCourses 0 none catalog) (u : CourseUnit) (hpush : it.pushed = some u) :
    (iterationPositions it).map (fun j => catalog[j]?) = (unitSections u).map some := by
  obtain ⟨_, c, p2, hc, _, hp⟩ := scanCourses_pushed_next 0 none catalog it hit
  rw [Nat.sub_zero] at hc hp
  rw [hpush] at hp
  unfold iterationPositions
  rw [hpush]
  rcases loopBody_cases p2 c _ u hp.symm with ⟨p, hnext, _, _, _, hu, _⟩ | ⟨_, hu, _⟩ |
    ⟨_, hu, _⟩
  · subst hu
    simp [combinedUnit, unitSections, hc, hnext]
  · subst hu
    simp [theoryUnit, unitSections, hc]
  · subst hu
    simp [practicalUnit, unitSections, hc]

theorem unitsOf_isSome_iff (cu : CourseUnits) (code : String) :
    (unitsOf cu code).isSome = true ↔ code ∈ cu.map Prod.fst := by
  unfold unitsOf
  induction cu with
  | nil => simp
  | cons e rest ih =>
    simp only [List.find?_cons, List.map_cons, List.mem_cons]
    by_cases he : e.1 = code
    · simp [he]
    · have hne : ¬ code = e.1 := fun h => he h.symm
      simp only [he, decide_False, hne, false_or]
      exact ih

theorem initCode_keys (cu : CourseUnits) (code : String)
    (hnd : (cu.map Prod.fst).Nodup) :
    ((initCode cu code).map Prod.fst).Nodup ∧ code ∈ (initCode cu code).map Prod.fst ∧
      (initCode cu code).flatMap Prod.snd = cu.flatMap Prod.snd := by
  unfold initCode
  split_ifs with h
  · exact ⟨hnd, (unitsOf_isSome_iff cu code).1 h, rfl⟩
  · have hnot : code ∉ cu.map Prod.fst := fun hm => h ((unitsOf_isSome_iff cu code).2 hm)
    refine ⟨?_, by simp, by simp⟩
    rw [List.map_append, List.nodup_append]
    refine ⟨hnd, by simp, ?_⟩
    intro a ha hb
    simp only [List.map_cons, List.map_nil, List.mem_singleton] at hb
    subst hb
    exact hnot ha

theorem pushUnit_keys (cu : CourseUnits) (code : String) (u : CourseUnit) :
    (pushUnit cu code u).map Prod.fst = cu.map Prod.fst := by
  unfold pushUnit
  rw [List.map_map]
  apply List.map_congr_left
  intro e _
  simp only [Function.comp]
  split_ifs <;> rfl

theorem pushUnit_of_not_mem (cu : CourseUnits) (code : String) (u : CourseUnit)
    (h : code ∉ cu.map Prod.fst) : pushUnit cu code u = cu := by
  unfold pushUnit
  conv_rhs => rw [← List.map_id cu]
  apply List.map_congr_left
  intro e he
  have : ¬ e.1 = code := fun heq => h (heq ▸ List.mem_map_of_mem Prod.fst he)
  simp [this]

theorem pushUnit_perm (cu : CourseUnits) (code : String) (u : CourseUnit)
    (hnd : (cu.map Prod.fst).Nodup) (hmem : code ∈ cu.map Prod.fst) :
    ((pushUnit cu code u).flatMap Prod.snd).Perm (cu.flatMap Prod.snd ++ [u]) := by
  induction cu with
  | nil => simp at hmem
  | cons e rest ih =>
    simp only [List.map_cons, List.nodup_cons] at hnd
    by_cases he : e.1 = code
    · have hrest : pushUnit rest code u = rest :=
        pushUnit_of_not_mem rest code u (he ▸ hnd.1)
      have hcons : pushUnit (e :: rest) code u = (e.1, e.2 ++ [u]) :: pushUnit rest code u := by
        simp [pushUnit, he]
      rw [hcons, hrest]
      simp only [List.flatMap_cons, List.append_assoc]
      exact List.Perm.append_left _ List.perm_append_comm
    · have hcons : pushUnit (e :: rest) code u = e :: pushUnit rest code u := by
        simp [pushUnit, he]
      have hmem2 : code ∈ rest.map Prod.fst := by
        simp only [List.map_cons, List.mem_cons] at hmem
        rcases hmem with h | h
        · exact absurd h.symm he
        · exact h
      rw [hcons]
      simp only [List.flatMap_cons, List.append_assoc]
      exact List.Perm.append_left _ (ih hnd.2 hmem2)

theorem applyIteration_perm (cu : CourseUnits) (it : Iteration)
    (hnd : (cu.map Prod.fst).Nodup) :
    ((applyIteration cu it).map Prod.fst).Nodup ∧
      ((applyIteration cu it).flatMap Prod.snd).Perm
        (cu.flatMap Prod.snd ++ it.pushed.toList) := by
  obtain ⟨h1, h2, h3⟩ := initCode_keys cu it.courseCode hnd
  unfold applyIteration
  cases hp : it.pushed with
  | none =>
    simp only [Option.toList, List.append_nil]
    exact ⟨h1, by rw [h3]⟩
  | some u =>
    simp only [Option.toList]
    refine ⟨by rw [pushUnit_keys]; exact h1, ?_⟩
    have := pushUnit_perm _ it.courseCode u h1 h2
    rw [h3] at this
    exact this

theorem foldl_applyIteration_perm (its : List Iteration) :
    ∀ cu : CourseUnits, (cu.map Prod.fst).Nodup →
      ((its.foldl applyIteration cu).flatMap Prod.snd).Perm
        (cu.flatMap Prod.snd ++ its.filterMap (fun it => it.pushed)) := by
  induction its with
  | nil => intro cu _; simp
  | cons it rest ih =>
    intro cu hnd
    obtain ⟨h1, h2⟩ := applyIteration_perm cu it hnd
    simp only [List.foldl_cons]
    refine (ih _ h1).trans ?_
    have h3 : (it :: rest).filterMap (fun it => it.pushed)
        = it.pushed.toList ++ rest.filterMap (fun it => it.pushed) := by
      rw [List.filterMap_cons]
      cases it.pushed <;> rfl
    rw [h3, ← List.append_assoc]
    exact List.Perm.append_right _ h2

/-! ## Gap analysis -/

theorem gapsBetween_eq_gapsBySpec (l : List DaySlot) : gapsBetween l = gapsBySpec l := by
  induction l with
  | nil => rfl
  | cons a rest ih =>
    cases rest with
    | nil => rfl
    | cons b rest2 =>
      unfold gapsBetween
      rw [ih]
      unfold gapsBySpec
      simp only [List.tail_cons, List.zip_cons_cons, List.filter_cons]
      split_ifs with h1 h2 h2
      · simp
      · simp at h2; omega
      · simp at h2; omega
      · simp

theorem entryOf_cons {α : Type} (e : Nat × α) (rest : List (Nat × α)) (day : Nat) :
    entryOf (e :: rest) day = if e.1 = day then some e.2 else entryOf rest day := by
  unfold entryOf
  simp only [List.find?_cons]
  by_cases h : e.1 = day
  · simp [h]
  · simp [h]

theorem entryOf_eq_none {α : Type} (object : List (Nat × α)) (day : Nat)
    (h : ∀ e ∈ object, day < e.1) : entryOf object day = none := by
  induction object with
  | nil => rfl
  | cons e rest ih =>
    rw [entryOf_cons]
    have := h e (List.mem_cons_self _ _)
    rw [if_neg (by omega)]
    exact ih (fun x hx => h x (List.mem_cons_of_mem _ hx))

theorem entryOf_map {α β : Type} (f : α → β) (object : List (Nat × α)) (day : Nat) :
    entryOf (object.map (fun e => (e.1, f e.2))) day = (entryOf object day).map f := by
  induction object with
  | nil => rfl
  | cons e rest ih =>
    rw [List.map_cons, entryOf_cons, entryOf_cons, ih]
    split_ifs <;> rfl

theorem addSlot_keys (ds : List (Nat × List DaySlot)) (day : Nat) (slot : DaySlot) :
    ∀ e ∈ addSlot ds day slot, e.1 = day ∨ e.1 ∈ ds.map Prod.fst := by
  induction ds with
  | nil => intro e he; simp [addSlot] at he; exact Or.inl (by rw [he])
  | cons d rest ih =>
    obtain ⟨d0, slots⟩ := d
    intro e he
    unfold addSlot at he
    split_ifs at he with h1 h2
    · rcases List.mem_cons.1 he with h | h
      · subst h; exact Or.inl h1.symm
      · exact Or.inr (List.mem_cons_of_mem _ (List.mem_map_of_mem Prod.fst h))
    · rcases List.mem_cons.1 he with h | h
      · subst h; exact Or.inl rfl
      · exact Or.inr (List.mem_map_of_mem Prod.fst h)
    · rcases List.mem_cons.1 he with h | h
      · subst h; exact Or.inr (List.mem_cons_self _ _)
      · rcases ih e h with h3 | h3
        · exact Or.inl h3
        · exact Or.inr (List.mem_cons_of_mem _ h3)

theorem addSlot_sorted (ds : List (Nat × List DaySlot)) (day : Nat) (slot : DaySlot)
    (hs : ds.Pairwise (fun a b => a.1 < b.1)) :
    (addSlot ds day slot).Pairwise (fun a b => a.1 < b.1) := by
  induction ds with
  | nil => simp [addSlot]
  | cons d rest ih =>
    obtain ⟨d0, slots⟩ := d
    rw [List.pairwise_cons] at hs
    unfold addSlot
    split_ifs with h1 h2
    · exact List.pairwise_cons.2 ⟨hs.1, hs.2⟩
    · refine List.pairwise_cons.2 ⟨?_, List.pairwise_cons.2 hs⟩
      intro e he
      rcases List.mem_cons.1 he with h | h
      · subst h; exact h2
      · have := hs.1 e h
        show day < e.1
        simp only at this
        omega
    · refine List.pairwise_cons.2 ⟨?_, ih hs.2⟩
      intro e he
      show d0 < e.1
      rcases addSlot_keys rest day slot e he with h | h
      · omega
      · obtain ⟨x, hx, hxe⟩ := List.mem_map.1 h
        have := hs.1 x hx
        simp only at this
        omega

theorem entryOf_addSlot (ds : List (Nat × List DaySlot)) (day : Nat) (slot : DaySlot)
    (hs : ds.Pairwise (fun a b => a.1 < b.1)) (d : Nat) :
    entryOf (addSlot ds day slot) d =
      if day = d then some ((entryOf ds d).getD [] ++ [slot]) else entryOf ds d := by
  induction ds with
  | nil =>
    simp only [addSlot, entryOf_cons]
    split_ifs <;> rfl
  | cons e rest ih =>
    obtain ⟨d0, slots⟩ := e
    rw [List.pairwise_cons] at hs
    by_cases h1 : day = d0
    · have hadd : addSlot ((d0, slots) :: rest) day slot = (d0, slots ++ [slot]) :: rest := by
        simp [addSlot, h1]
      rw [hadd, entryOf_cons, entryOf_cons]
      subst h1
      by_cases hd : day = d
      · simp [hd]
      · simp [hd]
    · by_cases h2 : day < d0
      · have hadd : addSlot ((d0, slots) :: rest) day slot
            = (day, [slot]) :: (d0, slots) :: rest := by
          simp [addSlot, h1, h2]
        rw [hadd, entryOf_cons]
        by_cases hd : day = d
        · subst hd
          have hnone : entryOf ((d0, slots) :: rest) day = none := by
            apply entryOf_eq_none
            intro x hx
            rcases List.mem_cons.1 hx with h | h
            · subst h; exact h2
            · have := hs.1 x h
              simp only at this
              omega
          rw [hnone]
          simp
        · simp [hd]
      · have hadd : addSlot ((d0, slots) :: rest) day slot
            = (d0, slots) :: addSlot rest day slot := by
          simp [addSlot, h1, h2]
        rw [hadd, entryOf_cons, entryOf_cons, ih hs.2]
        by_cases hd : day = d
        · subst hd
          have : ¬ d0 = day := fun h => h1 h.symm
          simp [this]
        · simp [hd]

theorem foldl_addSlot (sessions : List Session) :
    ∀ (ds : List (Nat × List DaySlot)), ds.Pairwise (fun a b => a.1 < b.1) →
      (sessions.foldl (fun acc session => addSlot acc session.day (slotOf session)) ds).Pairwise
          (fun a b => a.1 < b.1) ∧
      ∀ d, entryOf
          (sessions.foldl (fun acc session => addSlot acc session.day (slotOf session)) ds) d =
        if sessions.filter (fun session => decide (session.day = d)) = [] then entryOf ds d
        else some ((entryOf ds d).getD [] ++
          (sessions.filter (fun session => decide (session.day = d))).map slotOf) := by
  induction sessions with
  | nil => intro ds hs; exact ⟨hs, fun d => by simp⟩
  | cons s rest ih =>
    intro ds hs
    have hs2 := addSlot_sorted ds s.day (slotOf s) hs
    obtain ⟨h1, h2⟩ := ih _ hs2
    refine ⟨by simpa using h1, fun d => ?_⟩
    simp only [List.foldl_cons]
    rw [h2 d, entryOf_addSlot ds s.day (slotOf s) hs d]
    by_cases hd : s.day = d
    · have hf : (s :: rest).filter (fun session => decide (session.day = d))
          = s :: rest.filter (fun session => decide (session.day = d)) := by
        simp [List.filter_cons, hd]
      rw [hf, if_pos hd, if_neg (List.cons_ne_nil _ _)]
      by_cases h3 : rest.filter (fun session => decide (session.day = d)) = []
      · rw [if_pos h3, h3]
        simp
      · rw [if_neg h3]
        simp
    · have hf : (s :: rest).filter (fun session => decide (session.day = d))
          = rest.filter (fun session => decide (session.day = d)) := by
        simp [List.filter_cons, hd]
      rw [hf, if_neg hd]

theorem entryOf_dailySchedules (units : List CourseUnit) (day : Nat) :
    entryOf (dailySchedules units) day =
      if daySlots units day = [] then none else some (daySlots units day) := by
  unfold dailySchedules daySlots
  rw [(foldl_addSlot (allSessions units) [] List.Pairwise.nil).2 day]
  simp [entryOf]

theorem sortByStart_sorted (l : List DaySlot) :
    (sortByStart l).Pairwise (fun a b => a.start ≤ b.start) := by
  haveI : IsTotal DaySlot (fun a b => a.start ≤ b.start) :=
    ⟨fun a b => le_total a.start b.start⟩
  haveI : IsTrans DaySlot (fun a b => a.start ≤ b.start) :=
    ⟨fun a b c hab hbc => le_trans hab hbc⟩
  exact List.sorted_insertionSort (fun a b : DaySlot => a.start ≤ b.start) l

theorem gapsBySpec_gt (sorted : List DaySlot) : ∀ g ∈ gapsBySpec sorted, g.gapMinutes > 10 := by
  intro g hg
  unfold gapsBySpec at hg
  obtain ⟨pair, hpair, rfl⟩ := List.mem_map.1 hg
  simpa using (List.mem_filter.1 hpair).2

/-! ## The search: where every emitted schedule comes from -/

theorem generateCombinations_sound (cfg : Settings) :
    ∀ (opts : List CourseOption) (cur : List CourseUnit) (total : Int) (all : List Schedule)
      (s : Schedule), s ∈ generateCombinations cfg opts cur total all →
      s ∈ all ∨ ∃ (chosen : List CourseOption) (ext : List CourseUnit),
        chosen.Sublist opts ∧
        List.Forall₂ (fun (o : CourseOption) (u : CourseUnit) => u ∈ o.units) chosen ext ∧
        s = ⟨cur ++ ext, total + sumCredits ext,
          calculateScheduleScore cfg.registeredSections (cur ++ ext)⟩ := by
  have hemit : ∀ (opts : List CourseOption) (cur : List CourseUnit) (total : Int)
      (all : List Schedule) (s : Schedule), s ∈ emit cfg cur total all →
      s ∈ all ∨ ∃ (chosen : List CourseOption) (ext : List CourseUnit),
        chosen.Sublist opts ∧
        List.Forall₂ (fun (o : CourseOption) (u : CourseUnit) => u ∈ o.units) chosen ext ∧
        s = ⟨cur ++ ext, total + sumCredits ext,
          calculateScheduleScore cfg.registeredSections (cur ++ ext)⟩ := by
    intro opts cur total all s hs
    rcases mem_emit cfg cur total all s hs with h | ⟨h, _, _⟩
    · exact Or.inl h
    · exact Or.inr ⟨[], [], List.nil_sublist _, List.Forall₂.nil, by simpa [sumCredits_nil] using h⟩
  intro opts
  induction opts with
  | nil =>
    intro cur total all s hs
    unfold generateCombinations at hs
    split_ifs at hs
    · exact Or.inl hs
    · exact hemit [] cur total all s hs
  | cons o rest ih =>
    intro cur total all s hs
    have hfold : ∀ s ∈ o.units.foldl
        (fun acc unit =>
          if total + unit.totalCredits ≤ cfg.maxCredits then
            if hasConflictWith cur unit then acc
            else
              generateCombinations cfg rest (cur ++ [unit]) (total + unit.totalCredits) acc
          else acc)
        (emit cfg cur total all),
        s ∈ all ∨ ∃ (chosen : List CourseOption) (ext : List CourseUnit),
          chosen.Sublist (o :: rest) ∧
          List.Forall₂ (fun (o : CourseOption) (u : CourseUnit) => u ∈ o.units) chosen ext ∧
          s = ⟨cur ++ ext, total + sumCredits ext,
            calculateScheduleScore cfg.registeredSections (cur ++ ext)⟩ := by
      apply foldl_forall (fun acc : List Schedule => ∀ s ∈ acc,
        s ∈ all ∨ ∃ (chosen : List CourseOption) (ext : List CourseUnit),
          chosen.Sublist (o :: rest) ∧
          List.Forall₂ (fun (o : CourseOption) (u : CourseUnit) => u ∈ o.units) chosen ext ∧
          s = ⟨cur ++ ext, total + sumCredits ext,
            calculateScheduleScore cfg.registeredSections (cur ++ ext)⟩)
      · intro acc u hu hacc
        dsimp only
        split_ifs
        · exact hacc
        · intro s2 hs2
          rcases ih _ _ acc s2 hs2 with h | ⟨chosen, ext, hsub, hext, hs3⟩
          · exact hacc s2 h
          · refine Or.inr ⟨o :: chosen, u :: ext, hsub.cons₂ o, List.Forall₂.cons hu hext, ?_⟩
            rw [hs3]
            simp [sumCredits_cons, add_assoc]
        · exact hacc
      · exact hemit (o :: rest) cur total all
    unfold generateCombinations at hs
    split_ifs at hs
    · exact Or.inl hs
    · exact hemit (o :: rest) cur total all s hs
    · rcases ih _ _ _ s hs with h | ⟨chosen, ext, hsub, hext, hs3⟩
      · exact hfold s h
      · exact Or.inr ⟨chosen, ext, hsub.cons o, hext, hs3⟩
    · exact hfold s hs

theorem generate_sound (selectedDays : List Nat) :
    ∀ (opts : List CourseOption) (cur : List CourseUnit) (total : Int)
      (acc : List MandatorySchedule) (b : MandatorySchedule),
      b ∈ generate selectedDays opts cur total acc →
      b ∈ acc ∨ ∃ ext : List CourseUnit,
        List.Forall₂ (fun (o : CourseOption) (u : CourseUnit) => u ∈ o.units) opts ext ∧
        b = ⟨cur ++ ext, total + sumCredits ext⟩ := by
  intro opts
  induction opts with
  | nil =>
    intro cur total acc b hb
    unfold generate at hb
    split_ifs at hb
    · rcases List.mem_append.1 hb with h | h
      · exact Or.inl h
      · exact Or.inr ⟨[], List.Forall₂.nil, by simpa [sumCredits_nil] using h⟩
    · exact Or.inl hb
  | cons o rest ih =>
    intro cur total acc b hb
    unfold generate at hb
    revert b
    apply foldl_forall (fun a : List MandatorySchedule => ∀ b ∈ a,
      b ∈ acc ∨ ∃ ext : List CourseUnit,
        List.Forall₂ (fun (o : CourseOption) (u : CourseUnit) => u ∈ o.units) (o :: rest) ext ∧
        b = ⟨cur ++ ext, total + sumCredits ext⟩)
    · intro a u hu ha
      dsimp only
      split_ifs
      · exact ha
      · intro b hb
        rcases ih _ _ a b hb with h | ⟨ext, hext, hb2⟩
        · exact ha b h
        · refine Or.inr ⟨u :: ext, List.Forall₂.cons hu hext, ?_⟩
          rw [hb2]
          simp [sumCredits_cons, add_assoc]
    · intro b hb
      exact Or.inl hb

theorem runMandatorySchedules_sound (cfg : Settings) (opts : List CourseOption) :
    ∀ (bases : List MandatorySchedule) (all : List Schedule) (s : Schedule),
      s ∈ runMandatorySchedules cfg opts bases all →
      s ∈ all ∨ ∃ b ∈ bases, ∃ (chosen : List CourseOption) (ext : List CourseUnit),
        chosen.Sublist opts ∧
        List.Forall₂ (fun (o : CourseOption) (u : CourseUnit) => u ∈ o.units) chosen ext ∧
        s = ⟨b.units ++ ext, b.totalCredits + sumCredits ext,
          calculateScheduleScore cfg.registeredSections (b.units ++ ext)⟩ := by
  intro bases
  induction bases with
  | nil => intro all s hs; exact Or.inl (by simpa [runMandatorySchedules] using hs)
  | cons b rest ih =>
    intro all s hs
    have hgc : ∀ s ∈ generateCombinations cfg opts b.units b.totalCredits all,
        s ∈ all ∨ ∃ b2 ∈ b :: rest, ∃ (chosen : List CourseOption) (ext : List CourseUnit),
          chosen.Sublist opts ∧
          List.Forall₂ (fun (o : CourseOption) (u : CourseUnit) => u ∈ o.units) chosen ext ∧
          s = ⟨b2.units ++ ext, b2.totalCredits + sumCredits ext,
            calculateScheduleScore cfg.registeredSections (b2.units ++ ext)⟩ := by
      intro s2 hs2
      rcases generateCombinations_sound cfg opts _ _ all s2 hs2 with h | ⟨chosen, ext, h1, h2, h3⟩
      · exact Or.inl h
      · exact Or.inr ⟨b, List.mem_cons_self _ _, chosen, ext, h1, h2, h3⟩
    unfold runMandatorySchedules at hs
    split_ifs at hs
    · exact hgc s hs
    · rcases ih _ s hs with h | ⟨b2, hb2, chosen, ext, h1, h2, h3⟩
      · exact hgc s h
      · exact Or.inr ⟨b2, List.mem_cons_of_mem _ hb2, chosen, ext, h1, h2, h3⟩

theorem searchSchedules_sound (cfg : Settings) (options : List CourseOption) (s : Schedule)
    (hs : s ∈ searchSchedules cfg options) :
    ∃ (base ext : List CourseUnit) (chosen : List CourseOption),
      List.Forall₂ (fun (o : CourseOption) (u : CourseUnit) => u ∈ o.units)
        (options.filter (fun opt => opt.isMandatory)) base ∧
      chosen.Sublist (options.filter (fun opt => !opt.isMandatory)) ∧
      List.Forall₂ (fun (o : CourseOption) (u : CourseUnit) => u ∈ o.units) chosen ext ∧
      s = ⟨base ++ ext, sumCredits (base ++ ext),
        calculateScheduleScore cfg.registeredSections (base ++ ext)⟩ := by
  have hbases : ∀ b ∈ generateMandatoryCombinations cfg.selectedDays
      (options.filter (fun opt => opt.isMandatory)),
      List.Forall₂ (fun (o : CourseOption) (u : CourseUnit) => u ∈ o.units)
        (options.filter (fun opt => opt.isMandatory)) b.units ∧
      b.totalCredits = sumCredits b.units := by
    intro b hb
    unfold generateMandatoryCombinations at hb
    split_ifs at hb with hlen
    · rw [List.length_eq_zero] at hlen
      simp only [List.mem_singleton] at hb
      subst hb
      rw [hlen]
      exact ⟨List.Forall₂.nil, rfl⟩
    · rcases generate_sound cfg.selectedDays _ [] 0 [] b hb with h | ⟨ext, hext, hb2⟩
      · simp at h
      · subst hb2
        simp only [List.nil_append, zero_add]
        exact ⟨hext, trivial⟩
  unfold searchSchedules at hs
  split_ifs at hs with h1 h2
  · simp at hs
  · rcases runMandatorySchedules_sound cfg _ _ [] s hs with h | ⟨b, hb, chosen, ext, h3, h4, h5⟩
    · simp at h
    · obtain ⟨hb1, hb2⟩ := hbases b hb
      refine ⟨b.units, ext, chosen, hb1, h3, h4, ?_⟩
      rw [h5, hb2, sumCredits_append]
  · exfalso
    have hlen : (options.filter (fun opt => opt.isMandatory)).length = 0 := by
      by_contra hne
      exact h1 ⟨by omega, by omega⟩
    unfold generateMandatoryCombinations at h2
    rw [if_pos hlen] at h2
    simp at h2

theorem generateAll_sound (courseUnits : CourseUnits) (cfg : Settings) (result : List Schedule)
    (hres : generateAllSchedulesComprehensive courseUnits cfg = some result) :
    ∃ options, courseOptions courseUnits cfg = some options ∧
      ∀ s ∈ result, ∃ (base ext : List CourseUnit) (chosen : List CourseOption),
        List.Forall₂ (fun (o : CourseOption) (u : CourseUnit) => u ∈ o.units)
          (options.filter (fun opt => opt.isMandatory)) base ∧
        chosen.Sublist (options.filter (fun opt => !opt.isMandatory)) ∧
        List.Forall₂ (fun (o : CourseOption) (u : CourseUnit) => u ∈ o.units) chosen ext ∧
        s = ⟨base ++ ext, sumCredits (base ++ ext),
          calculateScheduleScore cfg.registeredSections (base ++ ext)⟩ := by
  unfold generateAllSchedulesComprehensive at hres
  rcases Option.map_eq_some'.1 hres with ⟨options, hopt, rfl⟩
  exact ⟨options, hopt, fun s hs =>
    searchSchedules_sound cfg options s ((mem_sortByScore _ s).1 hs)⟩


/-! ## Course options: codes and units -/

theorem mapCourseOptions_mem_inv (courseUnits : CourseUnits) (cfg : Settings) :
    ∀ (codes : List String) (options : List CourseOption),
      mapCourseOptions courseUnits cfg codes = some options →
      options.map (fun o => o.code) = codes ∧
      ∀ o ∈ options, ∃ units, unitsOf courseUnits o.code = some units ∧
        o = courseOptionOf cfg o.code units := by
  intro codes
  induction codes with
  | nil =>
    intro options h
    simp only [mapCourseOptions, Option.some.injEq] at h
    subst h
    exact ⟨rfl, fun o ho => by simp at ho⟩
  | cons c rest ih =>
    intro options hopt
    unfold mapCourseOptions at hopt
    cases hcu : unitsOf courseUnits c with
    | none => simp [hcu] at hopt
    | some us =>
      cases hrest : mapCourseOptions courseUnits cfg rest with
      | none => simp [hcu, hrest] at hopt
      | some os =>
        simp only [hcu, hrest, Option.some.injEq] at hopt
        subst hopt
        obtain ⟨h1, h2⟩ := ih os hrest
        refine ⟨by simp [h1, courseOptionOf], ?_⟩
        intro o ho
        rcases List.mem_cons.1 ho with h | h
        · subst h
          exact ⟨us, hcu, rfl⟩
        · exact h2 o h

theorem courseOptions_inv (courseUnits : CourseUnits) (cfg : Settings)
    (options : List CourseOption) (hopt : courseOptions courseUnits cfg = some options) :
    (options.map (fun o => o.code)).Sublist cfg.selectedCourses ∧
      ∀ o ∈ options, ∃ units, unitsOf courseUnits o.code = some units ∧
        o = courseOptionOf cfg o.code units := by
  unfold courseOptions at hopt
  rcases Option.map_eq_some'.1 hopt with ⟨mapped, hmapped, rfl⟩
  obtain ⟨h1, h2⟩ := mapCourseOptions_mem_inv courseUnits cfg _ mapped hmapped
  refine ⟨?_, fun o ho => h2 o (List.mem_filter.1 ho).1⟩
  rw [← h1]
  exact (List.filter_sublist _).map _

theorem forall2_exists_option (l : List CourseOption) (us : List CourseUnit)
    (h : List.Forall₂ (fun (o : CourseOption) (u : CourseUnit) => u ∈ o.units) l us) :
    ∀ u ∈ us, ∃ o ∈ l, u ∈ o.units := by
  induction h with
  | nil => intro u hu; simp at hu
  | cons hu _ ih =>
    intro u2 hu2
    rcases List.mem_cons.1 hu2 with h | h
    · subst h; exact ⟨_, List.mem_cons_self _ _, hu⟩
    · obtain ⟨o, ho, huo⟩ := ih u2 h
      exact ⟨o, List.mem_cons_of_mem _ ho, huo⟩

theorem forall2_map_code (l : List CourseOption) (us : List CourseUnit)
    (h : List.Forall₂ (fun (o : CourseOption) (u : CourseUnit) => u ∈ o.units) l us)
    (hcode : ∀ o ∈ l, ∀ u ∈ o.units, unitCourseCode u = some o.code) :
    us.map unitCourseCode = l.map (fun o => some o.code) := by
  induction h with
  | nil => rfl
  | cons hu _ ih =>
    simp only [List.map_cons]
    rw [hcode _ (List.mem_cons_self _ _) _ hu,
      ih (fun o ho => hcode o (List.mem_cons_of_mem _ ho))]

theorem unit_of_result (courseUnits : CourseUnits) (cfg : Settings) (result : List Schedule)
    (hres : generateAllSchedulesComprehensive courseUnits cfg = some result)
    (c : Schedule) (hc : c ∈ result) (u : CourseUnit) (hu : u ∈ c.units) :
    ∃ (code : String) (units : List CourseUnit), code ∈ cfg.selectedCourses ∧
      unitsOf courseUnits code = some units ∧ u ∈ (courseOptionOf cfg code units).units := by
  obtain ⟨options, hopt, hall⟩ := generateAll_sound courseUnits cfg result hres
  obtain ⟨base, ext, chosen, hbase, hsub, hext, hs⟩ := hall c hc
  obtain ⟨hcodes, hinv⟩ := courseOptions_inv courseUnits cfg options hopt
  have huo : ∃ o ∈ options, u ∈ o.units := by
    rw [hs] at hu
    rcases List.mem_append.1 hu with h | h
    · obtain ⟨o, ho, huo⟩ := forall2_exists_option _ _ hbase u h
      exact ⟨o, (List.mem_filter.1 ho).1, huo⟩
    · obtain ⟨o, ho, huo⟩ := forall2_exists_option _ _ hext u h
      exact ⟨o, (List.mem_filter.1 (hsub.subset ho)).1, huo⟩
  obtain ⟨o, ho, huo⟩ := huo
  obtain ⟨units, hunits, hoeq⟩ := hinv o ho
  refine ⟨o.code, units, hcodes.subset (List.mem_map_of_mem (fun o => o.code) ho), hunits, ?_⟩
  rw [← hoeq]
  exact huo

theorem courseOptionOf_units_subset (cfg : Settings) (code : String) (units : List CourseUnit) :
    ∀ u ∈ (courseOptionOf cfg code units).units, u ∈ units := by
  intro u hu
  unfold courseOptionOf at hu
  simp only at hu
  split_ifs at hu
  · exact hu
  · exact (List.mem_filter.1 hu).1

/-! ## The search does not read the registered set -/

theorem foldl_rel {α β γ : Type} (R : β → γ → Prop) (f : β → α → β) (g : γ → α → γ)
    (l : List α) (h : ∀ a b x, x ∈ l → R a b → R (f a x) (g b x)) :
    ∀ a b, R a b → R (l.foldl f a) (l.foldl g b) := by
  induction l with
  | nil => intro a b hab; simpa using hab
  | cons x xs ih =>
    intro a b hab
    simp only [List.foldl_cons]
    exact ih (fun a b y hy => h a b y (List.mem_cons_of_mem _ hy)) _ _
      (h a b x (List.mem_cons_self _ _) hab)

theorem capReached_indep (cfg : Settings) (r : List String) (a1 a2 : List Schedule)
    (h : a1.map unitsAndCredits = a2.map unitsAndCredits) :
    capReached (withRegistered cfg r) a2 = capReached cfg a1 := by
  have hlen : a1.length = a2.length := by
    simpa using congrArg List.length h
  unfold capReached
  rw [hlen]
  rfl

theorem emit_indep (cfg : Settings) (r : List String) (cur : List CourseUnit) (total : Int)
    (a1 a2 : List Schedule) (h : a1.map unitsAndCredits = a2.map unitsAndCredits) :
    (emit cfg cur total a1).map unitsAndCredits
      = (emit (withRegistered cfg r) cur total a2).map unitsAndCredits := by
  unfold emit
  simp only [withRegistered]
  split_ifs
  · simp [h, unitsAndCredits]
  · exact h
  · exact h

theorem generateCombinations_indep (cfg : Settings) (r : List String) :
    ∀ (opts : List CourseOption) (cur : List CourseUnit) (total : Int)
      (a1 a2 : List Schedule), a1.map unitsAndCredits = a2.map unitsAndCredits →
      (generateCombinations cfg opts cur total a1).map unitsAndCredits
        = (generateCombinations (withRegistered cfg r) opts cur total a2).map
            unitsAndCredits := by
  intro opts
  induction opts with
  | nil =>
    intro cur total a1 a2 h
    unfold generateCombinations
    rw [capReached_indep cfg r a1 a2 h]
    split_ifs
    · exact h
    · exact emit_indep cfg r cur total a1 a2 h
  | cons o rest ih =>
    intro cur total a1 a2 h
    have hfold := foldl_rel
      (fun (x y : List Schedule) => x.map unitsAndCredits = y.map unitsAndCredits)
      (fun acc unit =>
        if total + unit.totalCredits ≤ cfg.maxCredits then
          if hasConflictWith cur unit then acc
          else generateCombinations cfg rest (cur ++ [unit]) (total + unit.totalCredits) acc
        else acc)
      (fun acc unit =>
        if total + unit.totalCredits ≤ (withRegistered cfg r).maxCredits then
          if hasConflictWith cur unit then acc
          else generateCombinations (withRegistered cfg r) rest (cur ++ [unit])
            (total + unit.totalCredits) acc
        else acc)
      o.units
      (fun a b u _ hab => by
        dsimp only
        have hmax : (withRegistered cfg r).maxCredits = cfg.maxCredits := rfl
        rw [hmax]
        split_ifs
        · exact hab
        · exact ih _ _ a b hab
        · exact hab)
      _ _ (emit_indep cfg r cur total a1 a2 h)
    unfold generateCombinations
    rw [capReached_indep cfg r a1 a2 h]
    have hmax : (withRegistered cfg r).maxCredits = cfg.maxCredits := rfl
    have hpart : (withRegistered cfg r).allowPartialSchedules = cfg.allowPartialSchedules := rfl
    rw [hmax, hpart]
    split_ifs
    · exact h
    · exact emit_indep cfg r cur total a1 a2 h
    · exact ih _ _ _ _ hfold
    · exact hfold

theorem runMandatorySchedules_indep (cfg : Settings) (r : List String)
    (opts : List CourseOption) :
    ∀ (bases : List MandatorySchedule) (a1 a2 : List Schedule),
      a1.map unitsAndCredits = a2.map unitsAndCredits →
      (runMandatorySchedules cfg opts bases a1).map unitsAndCredits
        = (runMandatorySchedules (withRegistered cfg r) opts bases a2).map unitsAndCredits := by
  intro bases
  induction bases with
  | nil => intro a1 a2 h; simpa [runMandatorySchedules] using h
  | cons b rest ih =>
    intro a1 a2 h
    have hgc := generateCombinations_indep cfg r opts b.units b.totalCredits a1 a2 h
    unfold runMandatorySchedules
    rw [capReached_indep cfg r _ _ hgc]
    split_ifs
    · exact hgc
    · exact ih _ _ hgc

theorem searchSchedules_indep (cfg : Settings) (r : List String)
    (options : List CourseOption) :
    (searchSchedules cfg options).map unitsAndCredits
      = (searchSchedules (withRegistered cfg r) options).map unitsAndCredits := by
  unfold searchSchedules
  have hdays : (withRegistered cfg r).selectedDays = cfg.selectedDays := rfl
  rw [hdays]
  split_ifs
  · rfl
  · exact runMandatorySchedules_indep cfg r _ _ [] [] rfl
  · exact generateCombinations_indep cfg r _ [] 0 [] [] rfl

theorem mapCourseOptions_indep (courseUnits : CourseUnits) (cfg : Settings) (r : List String)
    (hincl : cfg.includeClosedSections = true) :
    ∀ codes : List String,
      mapCourseOptions courseUnits (withRegistered cfg r) codes
        = mapCourseOptions courseUnits cfg codes := by
  have hopt : ∀ code units, courseOptionOf (withRegistered cfg r) code units
      = courseOptionOf cfg code units := by
    intro code units
    simp [courseOptionOf, withRegistered, hincl]
  intro codes
  induction codes with
  | nil => rfl
  | cons c rest ih =>
    unfold mapCourseOptions
    rw [ih]
    simp only [hopt]

theorem courseOptions_indep (courseUnits : CourseUnits) (cfg : Settings) (r : List String)
    (hincl : cfg.includeClosedSections = true) :
    courseOptions courseUnits (withRegistered cfg r) = courseOptions courseUnits cfg := by
  unfold courseOptions
  have hsel : (withRegistered cfg r).selectedCourses = cfg.selectedCourses := rfl
  rw [hsel, mapCourseOptions_indep courseUnits cfg r hincl]

/-! ## The search without partial schedules -/

theorem generateCombinations_sound_take (cfg : Settings)
    (hpart : cfg.allowPartialSchedules = false) :
    ∀ (opts : List CourseOption) (cur : List CourseUnit) (total : Int) (all : List Schedule)
      (s : Schedule), s ∈ generateCombinations cfg opts cur total all →
      s ∈ all ∨ ∃ (k : Nat) (ext : List CourseUnit), k ≤ opts.length ∧
        List.Forall₂ (fun (o : CourseOption) (u : CourseUnit) => u ∈ o.units) (opts.take k) ext ∧
        s = ⟨cur ++ ext, total + sumCredits ext,
          calculateScheduleScore cfg.registeredSections (cur ++ ext)⟩ := by
  have hemit : ∀ (opts : List CourseOption) (cur : List CourseUnit) (total : Int)
      (all : List Schedule) (s : Schedule), s ∈ emit cfg cur total all →
      s ∈ all ∨ ∃ (k : Nat) (ext : List CourseUnit), k ≤ opts.length ∧
        List.Forall₂ (fun (o : CourseOption) (u : CourseUnit) => u ∈ o.units) (opts.take k) ext ∧
        s = ⟨cur ++ ext, total + sumCredits ext,
          calculateScheduleScore cfg.registeredSections (cur ++ ext)⟩ := by
    intro opts cur total all s hs
    rcases mem_emit cfg cur total all s hs with h | ⟨h, _, _⟩
    · exact Or.inl h
    · exact Or.inr ⟨0, [], Nat.zero_le _, by simp, by simpa [sumCredits_nil] using h⟩
  intro opts
  induction opts with
  | nil =>
    intro cur total all s hs
    unfold generateCombinations at hs
    split_ifs at hs
    · exact Or.inl hs
    · exact hemit [] cur total all s hs
  | cons o rest ih =>
    intro cur total all s hs
    have hfold : ∀ s ∈ o.units.foldl
        (fun acc unit =>
          if total + unit.totalCredits ≤ cfg.maxCredits then
            if hasConflictWith cur unit then acc
            else
              generateCombinations cfg rest (cur ++ [unit]) (total + unit.totalCredits) acc
          else acc)
        (emit cfg cur total all),
        s ∈ all ∨ ∃ (k : Nat) (ext : List CourseUnit), k ≤ (o :: rest).length ∧
          List.Forall₂ (fun (o : CourseOption) (u : CourseUnit) => u ∈ o.units)
            ((o :: rest).take k) ext ∧
          s = ⟨cur ++ ext, total + sumCredits ext,
            calculateScheduleScore cfg.registeredSections (cur ++ ext)⟩ := by
      apply foldl_forall (fun acc : List Schedule => ∀ s ∈ acc,
        s ∈ all ∨ ∃ (k : Nat) (ext : List CourseUnit), k ≤ (o :: rest).length ∧
          List.Forall₂ (fun (o : CourseOption) (u : CourseUnit) => u ∈ o.units)
            ((o :: rest).take k) ext ∧
          s = ⟨cur ++ ext, total + sumCredits ext,
            calculateScheduleScore cfg.registeredSections (cur ++ ext)⟩)
      · intro acc u hu hacc
        dsimp only
        split_ifs
        · exact hacc
        · intro s2 hs2
          rcases ih _ _ acc s2 hs2 with h | ⟨k, ext, hk, hext, hs3⟩
          · exact hacc s2 h
          · refine Or.inr ⟨k + 1, u :: ext, by simpa using hk, ?_, ?_⟩
            · rw [List.take_succ_cons]
              exact List.Forall₂.cons hu hext
            · rw [hs3]
              simp [sumCredits_cons, add_assoc]
        · exact hacc
      · exact hemit (o :: rest) cur total all
    unfold generateCombinations at hs
    rw [hpart] at hs
    simp only [Bool.false_eq_true, if_false] at hs
    split_ifs at hs
    · exact Or.inl hs
    · exact hemit (o :: rest) cur total all s hs
    · exact hfold s hs

theorem searchSchedules_sound_take (cfg : Settings) (hpart : cfg.allowPartialSchedules = false)
    (options : List CourseOption) (s : Schedule) (hs : s ∈ searchSchedules cfg options) :
    ∃ (b : MandatorySchedule) (k : Nat) (ext : List CourseUnit),
      b ∈ generateMandatoryCombinations cfg.selectedDays
        (options.filter (fun opt => opt.isMandatory)) ∧
      k ≤ (options.filter (fun opt => !opt.isMandatory)).length ∧
      List.Forall₂ (fun (o : CourseOption) (u : CourseUnit) => u ∈ o.units)
        ((options.filter (fun opt => !opt.isMandatory)).take k) ext ∧
      s.units = b.units ++ ext := by
  have hrun : ∀ (bases : List MandatorySchedule) (all : List Schedule) (s : Schedule),
      s ∈ runMandatorySchedules cfg (options.filter (fun opt => !opt.isMandatory)) bases all →
      s ∈ all ∨ ∃ b ∈ bases, ∃ (k : Nat) (ext : List CourseUnit),
        k ≤ (options.filter (fun opt => !opt.isMandatory)).length ∧
        List.Forall₂ (fun (o : CourseOption) (u : CourseUnit) => u ∈ o.units)
          ((options.filter (fun opt => !opt.isMandatory)).take k) ext ∧
        s.units = b.units ++ ext := by
    intro bases
    induction bases with
    | nil => intro all s hs; exact Or.inl (by simpa [runMandatorySchedules] using hs)
    | cons b rest ih =>
      intro all s hs
      have hgc : ∀ s ∈ generateCombinations cfg (options.filter (fun opt => !opt.isMandatory))
          b.units b.totalCredits all,
          s ∈ all ∨ ∃ b2 ∈ b :: rest, ∃ (k : Nat) (ext : List CourseUnit),
            k ≤ (options.filter (fun opt => !opt.isMandatory)).length ∧
            List.Forall₂ (fun (o : CourseOption) (u : CourseUnit) => u ∈ o.units)
              ((options.filter (fun opt => !opt.isMandatory)).take k) ext ∧
            s.units = b2.units ++ ext := by
        intro s2 hs2
        rcases generateCombinations_sound_take cfg hpart _ _ _ all s2 hs2 with
          h | ⟨k, ext, h1, h2, h3⟩
        · exact Or.inl h
        · exact Or.inr ⟨b, List.mem_cons_self _ _, k, ext, h1, h2, by rw [h3]⟩
      unfold runMandatorySchedules at hs
      split_ifs at hs
      · exact hgc s hs
      · rcases ih _ s hs with h | ⟨b2, hb2, k, ext, h1, h2, h3⟩
        · exact hgc s h
        · exact Or.inr ⟨b2, List.mem_cons_of_mem _ hb2, k, ext, h1, h2, h3⟩
  unfold searchSchedules at hs
  split_ifs at hs with h1 h2
  · simp at hs
  · rcases hrun _ [] s hs with h | ⟨b, hb, k, ext, h3, h4, h5⟩
    · simp at h
    · exact ⟨b, k, ext, hb, h3, h4, h5⟩
  · exfalso
    have hlen : (options.filter (fun opt => opt.isMandatory)).length = 0 := by
      by_contra hne
      exact h1 ⟨by omega, by omega⟩
    unfold generateMandatoryCombinations at h2
    rw [if_pos hlen] at h2
    simp at h2

theorem generateMandatoryCombinations_sound (selectedDays : List Nat)
    (mandatoryOptions : List CourseOption) (b : MandatorySchedule)
    (hb : b ∈ generateMandatoryCombinations selectedDays mandatoryOptions) :
    List.Forall₂ (fun (o : CourseOption) (u : CourseUnit) => u ∈ o.units)
      mandatoryOptions b.units ∧ b.totalCredits = sumCredits b.units := by
  unfold generateMandatoryCombinations at hb
  split_ifs at hb with hlen
  · rw [List.length_eq_zero] at hlen
    simp only [List.mem_singleton] at hb
    subst hb
    rw [hlen]
    exact ⟨List.Forall₂.nil, rfl⟩
  · rcases generate_sound selectedDays _ [] 0 [] b hb with h | ⟨ext, hext, hb2⟩
    · simp at h
    · subst hb2
      simp only [List.nil_append, zero_add]
      exact ⟨hext, trivial⟩

/-! ## Course units setup: order of the units of a course -/

theorem iteration_first_section (catalog : List Section) (it : Iteration)
    (hit : it ∈ scanCourses 0 none catalog) (u : CourseUnit) (hpush : it.pushed = some u) :
    ∃ sec, catalog[it.index]? = some sec ∧ (unitSections u).head? = some sec := by
  obtain ⟨_, c, p2, hc, _, hp⟩ := scanCourses_pushed_next 0 none catalog it hit
  rw [Nat.sub_zero] at hc hp
  rw [hpush] at hp
  refine ⟨c, hc, ?_⟩
  rcases loopBody_cases p2 c _ u hp.symm with ⟨p, _, _, _, _, hu, _⟩ | ⟨_, hu, _⟩ | ⟨_, hu, _⟩
  · subst hu; rfl
  · subst hu; rfl
  · subst hu; rfl

theorem forall2_of_map_pushed (P : CourseUnit → Nat → Prop) :
    ∀ (its : List Iteration) (us : List CourseUnit),
      its.map (fun it => it.pushed) = us.map some →
      (∀ it ∈ its, ∀ u, it.pushed = some u → P u it.index) →
      List.Forall₂ P us (its.map (fun it => it.index)) := by
  intro its
  induction its with
  | nil =>
    intro us h _
    cases us with
    | nil => exact List.Forall₂.nil
    | cons u rest => simp at h
  | cons it rest ih =>
    intro us h hP
    cases us with
    | nil => simp at h
    | cons u us2 =>
      simp only [List.map_cons, List.cons.injEq] at h
      exact List.Forall₂.cons (hP it (List.mem_cons_self _ _) u h.1)
        (ih us2 h.2 (fun it2 hit2 => hP it2 (List.mem_cons_of_mem _ hit2)))

theorem map_pushed_filter (l : List Iteration) :
    (l.filter (fun it => it.pushed.isSome)).map (fun it => it.pushed)
      = (l.filterMap (fun it => it.pushed)).map some := by
  induction l with
  | nil => rfl
  | cons it rest ih =>
    cases hp : it.pushed with
    | none => simp [List.filter_cons, List.filterMap_cons, hp, ih]
    | some u => simp [List.filter_cons, List.filterMap_cons, hp, ih]

theorem section_code_of_setupCourseUnits (catalog : List Section) (code : String)
    (us : List CourseUnit) (hus : unitsOf (setupCourseUnits catalog) code = some us)
    (u : CourseUnit) (hu : u ∈ us) : ∀ sec ∈ unitSections u, sec.code = code := by
  obtain ⟨c, _, hc, h | h | h⟩ := unit_of_setupCourseUnits catalog code us hus u hu
  · obtain ⟨p, _, hp, rfl⟩ := h
    intro sec hsec
    simp only [unitSections, combinedUnit, Option.toList, List.cons_append, List.nil_append,
      List.mem_cons, List.mem_singleton, List.not_mem_nil, or_false] at hsec
    rcases hsec with h | h
    · rw [h]; exact hc
    · rw [h]; exact hp
  · subst h
    intro sec hsec
    simp only [unitSections, theoryUnit, Option.toList, List.append_nil, List.mem_singleton]
      at hsec
    rw [hsec]; exact hc
  · subst h
    intro sec hsec
    simp only [unitSections, practicalUnit, Option.toList, List.nil_append, List.mem_singleton]
      at hsec
    rw [hsec]; exact hc

/-! ## Course selection handlers: the mandatory set stays inside the selected set -/

theorem mem_setAdd (s : List String) (x y : String) : y ∈ setAdd s x ↔ y ∈ s ∨ y = x := by
  unfold setAdd
  split_ifs with h
  · constructor
    · exact Or.inl
    · rintro (h2 | h2)
      · exact h2
      · subst h2; simpa using h
  · simp

theorem mem_setDelete (s : List String) (x y : String) : y ∈ setDelete s x ↔ y ∈ s ∧ y ≠ x := by
  unfold setDelete
  simp [List.mem_filter]

theorem subset_selectAllKeys (courseUnits : CourseUnits) :
    ∀ (selected : List String), ∀ y ∈ selected, y ∈ selectAllKeys courseUnits selected := by
  induction courseUnits with
  | nil => intro selected y hy; exact hy
  | cons e rest ih =>
    obtain ⟨code, units⟩ := e
    intro selected y hy
    unfold selectAllKeys
    split_ifs
    · exact ih _ y ((mem_setAdd _ _ _).2 (Or.inl hy))
    · exact (mem_setAdd _ _ _).2 (Or.inl hy)

theorem applyAction_invariant (courseUnits : CourseUnits) (st : Selection)
    (action : SelectionAction) (h : ∀ m ∈ st.mandatoryCourses, m ∈ st.selectedCourses) :
    ∀ m ∈ (applyAction courseUnits st action).mandatoryCourses,
      m ∈ (applyAction courseUnits st action).selectedCourses := by
  cases action with
  | toggleCourse code =>
    intro m hm
    simp only [applyAction, toggleCourse] at hm ⊢
    split_ifs at hm ⊢ with hsel
    · rw [mem_setDelete] at hm ⊢
      exact ⟨h m hm.1, hm.2⟩
    · exact (mem_setAdd _ _ _).2 (Or.inl (h m hm))
  | toggleMandatory code =>
    intro m hm
    simp only [applyAction, toggleMandatory] at hm ⊢
    split_ifs at hm ⊢ with hman hsel
    · exact h m ((mem_setDelete _ _ _).1 hm).1
    · rcases (mem_setAdd _ _ _).1 hm with h2 | h2
      · exact h m h2
      · subst h2; simpa using hsel
    · rcases (mem_setAdd _ _ _).1 hm with h2 | h2
      · exact (mem_setAdd _ _ _).2 (Or.inl (h m h2))
      · exact (mem_setAdd _ _ _).2 (Or.inr h2)
  | selectAll =>
    intro m hm
    exact subset_selectAllKeys courseUnits _ m (h m hm)
  | deselectAll =>
    intro m hm
    simp [applyAction, deselectAllCourses] at hm

theorem foldl_applyAction_invariant (courseUnits : CourseUnits) :
    ∀ (actions : List SelectionAction) (st : Selection),
      (∀ m ∈ st.mandatoryCourses, m ∈ st.selectedCourses) →
      ∀ m ∈ (actions.foldl (applyAction courseUnits) st).mandatoryCourses,
        m ∈ (actions.foldl (applyAction courseUnits) st).selectedCourses := by
  intro actions
  induction actions with
  | nil => intro st h; simpa using h
  | cons a rest ih =>
    intro st h
    simp only [List.foldl_cons]
    exact ih _ (applyAction_invariant courseUnits st a h)

/-! ## Credit bounds that cannot be reached -/

theorem le_highestCredit (l : List CourseUnit) : ∀ u ∈ l, u.totalCredits ≤ highestCredit l := by
  induction l with
  | nil => intro u hu; simp at hu
  | cons a rest ih =>
    intro u hu
    cases rest with
    | nil =>
      simp only [List.mem_singleton] at hu
      subst hu
      exact le_refl _
    | cons b rest2 =>
      unfold highestCredit
      rcases List.mem_cons.1 hu with h | h
      · subst h; exact le_max_left _ _
      · exact le_trans (ih u h) (le_max_right _ _)

theorem highestCredit_mem (l : List CourseUnit) (hl : l ≠ []) :
    ∃ u ∈ l, highestCredit l = u.totalCredits := by
  induction l with
  | nil => exact absurd rfl hl
  | cons a rest ih =>
    cases rest with
    | nil => exact ⟨a, List.mem_singleton_self a, rfl⟩
    | cons b rest2 =>
      obtain ⟨u, hu, hmax⟩ := ih (List.cons_ne_nil _ _)
      unfold highestCredit
      rcases max_cases a.totalCredits (highestCredit (b :: rest2)) with ⟨h, _⟩ | ⟨h, _⟩
      · exact ⟨a, List.mem_cons_self _ _, h⟩
      · exact ⟨u, List.mem_cons_of_mem _ hu, h.trans hmax⟩

theorem highestCredit_nonneg (l : List CourseUnit) (h : ∀ u ∈ l, 0 ≤ u.totalCredits) :
    0 ≤ highestCredit l := by
  by_cases hl : l = []
  · subst hl; exact le_refl _
  · obtain ⟨u, hu, hmax⟩ := highestCredit_mem l hl
    rw [hmax]
    exact h u hu

theorem highestCredit_mono (a b : List CourseUnit) (hsub : ∀ u ∈ a, u ∈ b)
    (h : ∀ u ∈ b, 0 ≤ u.totalCredits) : highestCredit a ≤ highestCredit b := by
  by_cases ha : a = []
  · subst ha; exact highestCredit_nonneg b h
  · obtain ⟨u, hu, hmax⟩ := highestCredit_mem a ha
    rw [hmax]
    exact le_highestCredit b u (hsub u hu)

theorem sumCredits_nonneg (l : List CourseUnit) (h : ∀ u ∈ l, 0 ≤ u.totalCredits) :
    0 ≤ sumCredits l := by
  induction l with
  | nil => exact le_refl _
  | cons a rest ih =>
    rw [sumCredits_cons]
    have h1 := h a (List.mem_cons_self _ _)
    have h2 := ih (fun u hu => h u (List.mem_cons_of_mem _ hu))
    omega

theorem highestCredit_le_sumCredits (l : List CourseUnit)
    (h : ∀ u ∈ l, 0 ≤ u.totalCredits) : highestCredit l ≤ sumCredits l := by
  induction l with
  | nil => exact le_refl _
  | cons a rest ih =>
    cases rest with
    | nil => simp [highestCredit, sumCredits]
    | cons b rest2 =>
      have h1 := h a (List.mem_cons_self _ _)
      have h2 := ih (fun u hu => h u (List.mem_cons_of_mem _ hu))
      have h3 := sumCredits_nonneg (b :: rest2) (fun u hu => h u (List.mem_cons_of_mem _ hu))
      unfold highestCredit
      rw [sumCredits_cons]
      rcases max_cases a.totalCredits (highestCredit (b :: rest2)) with ⟨h4, _⟩ | ⟨h4, _⟩
      · rw [h4]; omega
      · rw [h4]; omega

theorem forall2_sumCredits_le (l : List CourseOption) (us : List CourseUnit)
    (h : List.Forall₂ (fun (o : CourseOption) (u : CourseUnit) => u ∈ o.units) l us) :
    sumCredits us ≤ (l.map (fun o => highestCredit o.units)).sum := by
  induction h with
  | nil => exact le_refl _
  | cons hu _ ih =>
    rw [sumCredits_cons, List.map_cons, List.sum_cons]
    have := le_highestCredit _ _ hu
    omega

theorem candidate_credits_le (options : List CourseOption)
    (hnonneg : ∀ o ∈ options, ∀ u ∈ o.units, 0 ≤ u.totalCredits)
    (base ext : List CourseUnit) (chosen : List CourseOption)
    (hbase : List.Forall₂ (fun (o : CourseOption) (u : CourseUnit) => u ∈ o.units)
      (options.filter (fun opt => opt.isMandatory)) base)
    (hsub : chosen.Sublist (options.filter (fun opt => !opt.isMandatory)))
    (hext : List.Forall₂ (fun (o : CourseOption) (u : CourseUnit) => u ∈ o.units) chosen ext) :
    sumCredits (base ++ ext) ≤ (options.map (fun o => highestCredit o.units)).sum := by
  have h1 := forall2_sumCredits_le _ _ hbase
  have h2 := forall2_sumCredits_le _ _ hext
  have h3 : (chosen.map (fun o => highestCredit o.units)).sum
      ≤ ((options.filter (fun opt => !opt.isMandatory)).map
          (fun o => highestCredit o.units)).sum := by
    apply List.Sublist.sum_le_sum (hsub.map _)
    intro x hx
    obtain ⟨o, ho, rfl⟩ := List.mem_map.1 hx
    exact highestCredit_nonneg _ (hnonneg o (List.mem_filter.1 ho).1)
  have h4 : ((options.filter (fun opt => opt.isMandatory)
      ++ options.filter (fun opt => !opt.isMandatory)).map
        (fun o => highestCredit o.units)).sum
      = (options.map (fun o => highestCredit o.units)).sum :=
    ((List.filter_append_perm _ options).map _).sum_eq
  rw [List.map_append, List.sum_append] at h4
  rw [sumCredits_append]
  omega

theorem options_credits_le (courseUnits : CourseUnits) (cfg : Settings)
    (hnonneg : ∀ code ∈ cfg.selectedCourses, ∀ units, unitsOf courseUnits code = some units →
      ∀ u ∈ units, 0 ≤ u.totalCredits)
    (options : List CourseOption) (hopt : courseOptions courseUnits cfg = some options) :
    (∀ o ∈ options, ∀ u ∈ o.units, 0 ≤ u.totalCredits) ∧
      (options.map (fun o => highestCredit o.units)).sum
        ≤ bestTotal courseUnits cfg.selectedCourses := by
  unfold courseOptions at hopt
  rcases Option.map_eq_some'.1 hopt with ⟨mapped, hmapped, rfl⟩
  obtain ⟨hcodes, hinv⟩ := mapCourseOptions_mem_inv courseUnits cfg _ mapped hmapped
  have hsel : ∀ o ∈ mapped, o.code ∈ cfg.selectedCourses := by
    intro o ho
    rw [← hcodes]
    exact List.mem_map_of_mem (fun o => o.code) ho
  have hnn : ∀ o ∈ mapped, ∀ u ∈ o.units, 0 ≤ u.totalCredits := by
    intro o ho u hu
    obtain ⟨units, hunits, hoeq⟩ := hinv o ho
    rw [hoeq] at hu
    exact hnonneg o.code (hsel o ho) units hunits u
      (courseOptionOf_units_subset cfg o.code units u hu)
  refine ⟨fun o ho => hnn o (List.mem_filter.1 ho).1, ?_⟩
  have h1 : ((mapped.filter (fun option => decide (option.units.length > 0))).map
      (fun o => highestCredit o.units)).sum ≤ (mapped.map (fun o => highestCredit o.units)).sum := by
    apply List.Sublist.sum_le_sum ((List.filter_sublist _).map _)
    intro x hx
    obtain ⟨o, ho, rfl⟩ := List.mem_map.1 hx
    exact highestCredit_nonneg _ (hnn o ho)
  have h2 : (mapped.map (fun o => highestCredit o.units)).sum
      ≤ (mapped.map (fun o => highestCredit ((unitsOf courseUnits o.code).getD []))).sum := by
    apply List.sum_le_sum
    intro o ho
    obtain ⟨units, hunits, hoeq⟩ := hinv o ho
    rw [hunits, Option.getD_some]
    apply highestCredit_mono
    · intro u hu
      rw [hoeq] at hu
      exact courseOptionOf_units_subset cfg o.code units u hu
    · exact hnonneg o.code (hsel o ho) units hunits
  have h3 : (mapped.map (fun o => highestCredit ((unitsOf courseUnits o.code).getD []))).sum
      = bestTotal courseUnits cfg.selectedCourses := by
    unfold bestTotal
    rw [← hcodes, List.map_map]
    rfl
  omega

theorem bestTotal_le_allCreditsTotal (courseUnits : CourseUnits) (selected : List String)
    (hnonneg : ∀ code ∈ selected, ∀ units, unitsOf courseUnits code = some units →
      ∀ u ∈ units, 0 ≤ u.totalCredits) :
    bestTotal courseUnits selected ≤ allCreditsTotal courseUnits selected := by
  unfold bestTotal allCreditsTotal
  apply List.sum_le_sum
  intro code hcode
  apply highestCredit_le_sumCredits
  intro u hu
  cases hunits : unitsOf courseUnits code with
  | none => rw [hunits] at hu; simp at hu
  | some units =>
    rw [hunits] at hu
    exact hnonneg code hcode units hunits u hu

theorem generateAll_eq_nil_of_bestTotal_lt (courseUnits : CourseUnits) (cfg : Settings)
    (hkeys : ∀ code ∈ cfg.selectedCourses, (unitsOf courseUnits code).isSome = true)
    (hnonneg : ∀ code ∈ cfg.selectedCourses, ∀ units, unitsOf courseUnits code = some units →
      ∀ u ∈ units, 0 ≤ u.totalCredits)
    (hmin : bestTotal courseUnits cfg.selectedCourses < cfg.minCredits) :
    generateAllSchedulesComprehensive courseUnits cfg = some [] := by
  obtain ⟨mapped, hmapped⟩ := mapCourseOptions_isSome courseUnits cfg cfg.selectedCourses hkeys
  have hsome : ∃ result, generateAllSchedulesComprehensive courseUnits cfg = some result := by
    unfold generateAllSchedulesComprehensive courseOptions
    rw [hmapped]
    exact ⟨_, rfl⟩
  obtain ⟨result, hres⟩ := hsome
  rw [hres]
  congr 1
  rw [List.eq_nil_iff_forall_not_mem]
  intro s hs
  have hge : cfg.minCredits ≤ s.totalCredits :=
    generateAll_forall courseUnits cfg (fun s => cfg.minCredits ≤ s.totalCredits)
      (fun _ _ h _ => h) result hres s hs
  obtain ⟨options, hopt, hall⟩ := generateAll_sound courseUnits cfg result hres
  obtain ⟨base, ext, chosen, hbase, hsub, hext, heq⟩ := hall s hs
  obtain ⟨hnn, hle⟩ := options_credits_le courseUnits cfg hnonneg options hopt
  have := candidate_credits_le options hnn base ext chosen hbase hsub hext
  rw [heq] at hge
  simp only at hge
  omega

/-! ## The result cap -/

theorem emit_append (cfg : Settings) (cur : List CourseUnit) (total : Int)
    (all : List Schedule) :
    ∃ new, emit cfg cur total all = all ++ new ∧ new.length ≤ 1 := by
  unfold emit
  split_ifs
  · exact ⟨_, rfl, by simp⟩
  · exact ⟨[], by simp, by simp⟩
  · exact ⟨[], by simp, by simp⟩

theorem generateCombinations_append (cfg : Settings) :
    ∀ (opts : List CourseOption) (cur : List CourseUnit) (total : Int) (all : List Schedule),
      ∃ new, generateCombinations cfg opts cur total all = all ++ new := by
  intro opts
  induction opts with
  | nil =>
    intro cur total all
    unfold generateCombinations
    split_ifs
    · exact ⟨[], by simp⟩
    · obtain ⟨new, h, _⟩ := emit_append cfg cur total all
      exact ⟨new, h⟩
  | cons o rest ih =>
    intro cur total all
    have hfold : ∃ new, o.units.foldl
        (fun acc unit =>
          if total + unit.totalCredits ≤ cfg.maxCredits then
            if hasConflictWith cur unit then acc
            else
              generateCombinations cfg rest (cur ++ [unit]) (total + unit.totalCredits) acc
          else acc)
        (emit cfg cur total all) = all ++ new := by
      apply foldl_forall (fun acc : List Schedule => ∃ new, acc = all ++ new)
      · intro acc u _ hacc
        dsimp only
        split_ifs
        · exact hacc
        · obtain ⟨new1, h1⟩ := hacc
          obtain ⟨new2, h2⟩ := ih (cur ++ [u]) (total + u.totalCredits) acc
          exact ⟨new1 ++ new2, by rw [h2, h1, List.append_assoc]⟩
        · exact hacc
      · obtain ⟨new, h, _⟩ := emit_append cfg cur total all
        exact ⟨new, h⟩
    unfold generateCombinations
    split_ifs
    · exact ⟨[], by simp⟩
    · obtain ⟨new, h, _⟩ := emit_append cfg cur total all
      exact ⟨new, h⟩
    · obtain ⟨new1, h1⟩ := hfold
      obtain ⟨new2, h2⟩ := ih cur total (o.units.foldl
        (fun acc unit =>
          if total + unit.totalCredits ≤ cfg.maxCredits then
            if hasConflictWith cur unit then acc
            else
              generateCombinations cfg rest (cur ++ [unit]) (total + unit.totalCredits) acc
          else acc)
        (emit cfg cur total all))
      exact ⟨new1 ++ new2, by rw [h2, h1, List.append_assoc]⟩
    · exact hfold

theorem runMandatorySchedules_append (cfg : Settings) (opts : List CourseOption) :
    ∀ (bases : List MandatorySchedule) (all : List Schedule),
      ∃ new, runMandatorySchedules cfg opts bases all = all ++ new := by
  intro bases
  induction bases with
  | nil => intro all; exact ⟨[], by simp [runMandatorySchedules]⟩
  | cons b rest ih =>
    intro all
    obtain ⟨new1, h1⟩ := generateCombinations_append cfg opts b.units b.totalCredits all
    unfold runMandatorySchedules
    split_ifs
    · exact ⟨new1, h1⟩
    · obtain ⟨new2, h2⟩ := ih (generateCombinations cfg opts b.units b.totalCredits all)
      exact ⟨new1 ++ new2, by rw [h2, h1, List.append_assoc]⟩

theorem capReached_withMaxResults_zero (cfg : Settings) (all : List Schedule) :
    capReached (withMaxResults cfg 0) all = false :=
  capReached_eq_false _ (le_refl _) all

theorem capReached_withMaxResults (cfg : Settings) (N : Nat) (hN : 0 < N)
    (all : List Schedule) :
    capReached (withMaxResults cfg (N : Int)) all = decide (N ≤ all.length) := by
  unfold capReached withMaxResults
  have h1 : ((N : Int) > 0) := by omega
  simp [h1]

theorem take_of_capped (N : Nat) (aN a0 new : List Schedule) (h : aN = a0.take N)
    (hlen : N ≤ aN.length) : aN = (a0 ++ new).take N := by
  have h0 : N ≤ a0.length := by
    rw [h, List.length_take] at hlen
    omega
  rw [List.take_append_of_le_length h0]
  exact h

theorem eq_of_not_capped (N : Nat) (aN a0 : List Schedule) (h : aN = a0.take N)
    (hlen : aN.length < N) : aN = a0 ∧ a0.length < N := by
  have h0 : a0.length < N := by
    rw [h, List.length_take] at hlen
    omega
  exact ⟨by rw [h, List.take_of_length_le (by omega)], h0⟩

theorem emit_capped (cfg : Settings) (N : Nat) (cur : List CourseUnit) (total : Int)
    (a0 : List Schedule) (hlen : a0.length < N) :
    emit (withMaxResults cfg (N : Int)) cur total a0
      = (emit (withMaxResults cfg 0) cur total a0).take N := by
  have heq : emit (withMaxResults cfg (N : Int)) cur total a0
      = emit (withMaxResults cfg 0) cur total a0 := rfl
  obtain ⟨new, hnew, hl⟩ := emit_append (withMaxResults cfg 0) cur total a0
  rw [heq, List.take_of_length_le]
  rw [hnew, List.length_append]
  omega

theorem generateCombinations_capped (cfg : Settings) (N : Nat) (hN : 0 < N) :
    ∀ (opts : List CourseOption) (cur : List CourseUnit) (total : Int)
      (aN a0 : List Schedule), aN = a0.take N →
      generateCombinations (withMaxResults cfg (N : Int)) opts cur total aN
        = (generateCombinations (withMaxResults cfg 0) opts cur total a0).take N := by
  intro opts
  induction opts with
  | nil =>
    intro cur total aN a0 h
    by_cases hcap : N ≤ aN.length
    · obtain ⟨new, hnew⟩ := generateCombinations_append (withMaxResults cfg 0) [] cur total a0
      have hl : generateCombinations (withMaxResults cfg (N : Int)) [] cur total aN = aN := by
        unfold generateCombinations
        rw [capReached_withMaxResults cfg N hN, if_pos (by simpa using hcap)]
      rw [hl, hnew]
      exact take_of_capped N aN a0 new h hcap
    · obtain ⟨heq, h0⟩ := eq_of_not_capped N aN a0 h (by omega)
      subst heq
      unfold generateCombinations
      rw [capReached_withMaxResults cfg N hN, capReached_withMaxResults_zero,
        if_neg (by simpa using hcap)]
      simp only [Bool.false_eq_true, if_false]
      exact emit_capped cfg N cur total aN h0
  | cons o rest ih =>
    intro cur total aN a0 h
    by_cases hcap : N ≤ aN.length
    · obtain ⟨new, hnew⟩ :=
        generateCombinations_append (withMaxResults cfg 0) (o :: rest) cur total a0
      have hl : generateCombinations (withMaxResults cfg (N : Int)) (o :: rest) cur total aN
          = aN := by
        unfold generateCombinations
        rw [capReached_withMaxResults cfg N hN, if_pos (by simpa using hcap)]
      rw [hl, hnew]
      exact take_of_capped N aN a0 new h hcap
    · obtain ⟨heq, h0⟩ := eq_of_not_capped N aN a0 h (by omega)
      subst heq
      have hfold := foldl_rel (fun (x y : List Schedule) => x = y.take N)
        (fun acc unit =>
          if total + unit.totalCredits ≤ (withMaxResults cfg (N : Int)).maxCredits then
            if hasConflictWith cur unit then acc
            else generateCombinations (withMaxResults cfg (N : Int)) rest (cur ++ [unit])
              (total + unit.totalCredits) acc
          else acc)
        (fun acc unit =>
          if total + unit.totalCredits ≤ (withMaxResults cfg 0).maxCredits then
            if hasConflictWith cur unit then acc
            else generateCombinations (withMaxResults cfg 0) rest (cur ++ [unit])
              (total + unit.totalCredits) acc
          else acc)
        o.units
        (fun a b u _ hab => by
          dsimp only
          have hmax : (withMaxResults cfg (N : Int)).maxCredits
              = (withMaxResults cfg 0).maxCredits := rfl
          rw [hmax]
          split_ifs
          · exact hab
          · exact ih _ _ a b hab
          · exact hab)
        _ _ (emit_capped cfg N cur total aN h0)
      unfold generateCombinations
      rw [capReached_withMaxResults cfg N hN, capReached_withMaxResults_zero,
        if_neg (by simpa using hcap)]
      simp only [Bool.false_eq_true, if_false]
      have hmax : (withMaxResults cfg (N : Int)).maxCredits
          = (withMaxResults cfg 0).maxCredits := rfl
      have hpart : (withMaxResults cfg (N : Int)).allowPartialSchedules
          = (withMaxResults cfg 0).allowPartialSchedules := rfl
      rw [hmax, hpart]
      split_ifs
      · exact emit_capped cfg N cur total aN h0
      · exact ih _ _ _ _ hfold
      · exact hfold

theorem runMandatorySchedules_capped (cfg : Settings) (N : Nat) (hN : 0 < N)
    (opts : List CourseOption) :
    ∀ (bases : List MandatorySchedule) (aN a0 : List Schedule), aN = a0.take N →
      runMandatorySchedules (withMaxResults cfg (N : Int)) opts bases aN
        = (runMandatorySchedules (withMaxResults cfg 0) opts bases a0).take N := by
  intro bases
  induction bases with
  | nil => intro aN a0 h; simpa [runMandatorySchedules] using h
  | cons b rest ih =>
    intro aN a0 h
    have hgc := generateCombinations_capped cfg N hN opts b.units b.totalCredits aN a0 h
    unfold runMandatorySchedules
    rw [capReached_withMaxResults cfg N hN, capReached_withMaxResults_zero]
    simp only [Bool.false_eq_true, if_false]
    by_cases hcap : N ≤ (generateCombinations (withMaxResults cfg (N : Int)) opts b.units
        b.totalCredits aN).length
    · rw [if_pos (by simpa using hcap)]
      obtain ⟨new, hnew⟩ := runMandatorySchedules_append (withMaxResults cfg 0) opts rest
        (generateCombinations (withMaxResults cfg 0) opts b.units b.totalCredits a0)
      rw [hnew]
      exact take_of_capped N _ _ new hgc hcap
    · rw [if_neg (by simpa using hcap)]
      exact ih _ _ hgc

theorem searchSchedules_capped (cfg : Settings) (N : Nat) (hN : 0 < N)
    (options : List CourseOption) :
    searchSchedules (withMaxResults cfg (N : Int)) options
      = (searchSchedules (withMaxResults cfg 0) options).take N := by
  unfold searchSchedules
  have hdays : (withMaxResults cfg (N : Int)).selectedDays
      = (withMaxResults cfg 0).selectedDays := rfl
  rw [hdays]
  split_ifs
  · simp
  · exact runMandatorySchedules_capped cfg N hN _ _ [] [] (by simp)
  · exact generateCombinations_capped cfg N hN _ [] 0 [] [] (by simp)

theorem mapCourseOptions_withMaxResults (courseUnits : CourseUnits) (cfg : Settings)
    (n m : Int) (codes : List String) :
    mapCourseOptions courseUnits (withMaxResults cfg n) codes
      = mapCourseOptions courseUnits (withMaxResults cfg m) codes := by
  induction codes with
  | nil => rfl
  | cons c rest ih =>
    unfold mapCourseOptions
    rw [ih]
    rfl

theorem courseOptions_withMaxResults (courseUnits : CourseUnits) (cfg : Settings)
    (n m : Int) :
    courseOptions courseUnits (withMaxResults cfg n)
      = courseOptions courseUnits (withMaxResults cfg m) := by
  unfold courseOptions
  have hsel : (withMaxResults cfg n).selectedCourses = (withMaxResults cfg m).selectedCourses :=
    rfl
  rw [hsel, mapCourseOptions_withMaxResults courseUnits cfg n m]

/-! ## Reordering the units of a schedule -/

theorem orderedInsert_comm_of_lt (a b : DaySlot) (h : a.start < b.start) (l : List DaySlot) :
    List.orderedInsert (fun x y : DaySlot => x.start ≤ y.start) a
        (List.orderedInsert (fun x y : DaySlot => x.start ≤ y.start) b l)
      = List.orderedInsert (fun x y : DaySlot => x.start ≤ y.start) b
        (List.orderedInsert (fun x y : DaySlot => x.start ≤ y.start) a l) := by
  induction l with
  | nil => simp [List.orderedInsert, h.le, not_le.2 h]
  | cons x l ih =>
    by_cases hax : a.start ≤ x.start
    · by_cases hbx : b.start ≤ x.start
      · simp [List.orderedInsert, hax, hbx, h.le, not_le.2 h]
      · simp [List.orderedInsert, hax, hbx, h.le, not_le.2 h]
    · have hbx : ¬ b.start ≤ x.start := by omega
      simp only [List.orderedInsert, hax, hbx, if_false]
      rw [ih]

theorem orderedInsert_comm (a b : DaySlot) (h : a.start ≠ b.start) (l : List DaySlot) :
    List.orderedInsert (fun x y : DaySlot => x.start ≤ y.start) a
        (List.orderedInsert (fun x y : DaySlot => x.start ≤ y.start) b l)
      = List.orderedInsert (fun x y : DaySlot => x.start ≤ y.start) b
        (List.orderedInsert (fun x y : DaySlot => x.start ≤ y.start) a l) := by
  rcases Nat.lt_or_gt_of_ne h with h1 | h1
  · exact orderedInsert_comm_of_lt a b h1 l
  · exact (orderedInsert_comm_of_lt b a h1 l).symm

theorem sortByStart_append (A L : List DaySlot) :
    sortByStart (A ++ L)
      = A.foldr (List.orderedInsert (fun x y : DaySlot => x.start ≤ y.start)) (sortByStart L) := by
  induction A with
  | nil => rfl
  | cons a A ih =>
    have h : sortByStart (a :: A ++ L)
        = List.orderedInsert (fun x y : DaySlot => x.start ≤ y.start) a (sortByStart (A ++ L)) :=
      rfl
    rw [h, ih]
    rfl

theorem orderedInsert_foldr_comm (a : DaySlot) (B S : List DaySlot)
    (h : ∀ b ∈ B, a.start ≠ b.start) :
    List.orderedInsert (fun x y : DaySlot => x.start ≤ y.start) a
        (B.foldr (List.orderedInsert (fun x y : DaySlot => x.start ≤ y.start)) S)
      = B.foldr (List.orderedInsert (fun x y : DaySlot => x.start ≤ y.start))
        (List.orderedInsert (fun x y : DaySlot => x.start ≤ y.start) a S) := by
  induction B with
  | nil => rfl
  | cons b B ih =>
    simp only [List.foldr_cons]
    rw [orderedInsert_comm a b (h b (List.mem_cons_self _ _)),
      ih (fun x hx => h x (List.mem_cons_of_mem _ hx))]

theorem foldr_orderedInsert_comm (A B S : List DaySlot)
    (h : ∀ a ∈ A, ∀ b ∈ B, a.start ≠ b.start) :
    A.foldr (List.orderedInsert (fun x y : DaySlot => x.start ≤ y.start))
        (B.foldr (List.orderedInsert (fun x y : DaySlot => x.start ≤ y.start)) S)
      = B.foldr (List.orderedInsert (fun x y : DaySlot => x.start ≤ y.start))
        (A.foldr (List.orderedInsert (fun x y : DaySlot => x.start ≤ y.start)) S) := by
  induction A with
  | nil => rfl
  | cons a A ih =>
    simp only [List.foldr_cons]
    rw [ih (fun x hx => h x (List.mem_cons_of_mem _ hx)),
      orderedInsert_foldr_comm a B _ (h a (List.mem_cons_self _ _))]

theorem daySlots_cons (u : CourseUnit) (l : List CourseUnit) (d : Nat) :
    daySlots (u :: l) d = daySlots [u] d ++ daySlots l d := by
  unfold daySlots allSessions
  simp [List.flatMap_cons, List.filter_append, List.map_append]

theorem starts_differ_of_no_conflict (u v : CourseUnit)
    (hconf : hasTimeConflict (unitSessions u) (unitSessions v) = false)
    (hu : ∀ s ∈ unitSessions u, timeToMinutes s.startTime < timeToMinutes s.endTime)
    (hv : ∀ s ∈ unitSessions v, timeToMinutes s.startTime < timeToMinutes s.endTime)
    (d : Nat) : ∀ a ∈ daySlots [u] d, ∀ b ∈ daySlots [v] d, a.start ≠ b.start := by
  intro a ha b hb hab
  unfold daySlots allSessions at ha hb
  simp only [List.flatMap_cons, List.flatMap_nil, List.append_nil, List.mem_map,
    List.mem_filter, decide_eq_true_eq] at ha hb
  obtain ⟨s, ⟨hs, hsd⟩, rfl⟩ := ha
  obtain ⟨t, ⟨ht, htd⟩, rfl⟩ := hb
  have hst : timeToMinutes s.startTime = timeToMinutes t.startTime := hab
  have h1 := hu s hs
  have h2 := hv t ht
  have hov : sessionsOverlap s t = true := by
    rw [sessionsOverlap_iff]
    exact ⟨by rw [hsd, htd], by omega, by omega⟩
  have : hasTimeConflict (unitSessions u) (unitSessions v) = true :=
    (hasTimeConflict_eq_true_iff _ _).2 ⟨s, hs, t, ht, hov⟩
  rw [hconf] at this
  exact Bool.false_ne_true this

theorem sortByStart_daySlots_perm (units1 units2 : List CourseUnit)
    (hperm : units1.Perm units2) (d : Nat)
    (h : units1.Pairwise
      (fun u v => ∀ a ∈ daySlots [u] d, ∀ b ∈ daySlots [v] d, a.start ≠ b.start)) :
    sortByStart (daySlots units1 d) = sortByStart (daySlots units2 d) := by
  induction hperm with
  | nil => rfl
  | @cons u l1 l2 _ ih =>
    rw [daySlots_cons u l1 d, daySlots_cons u l2 d, sortByStart_append, sortByStart_append,
      ih (List.Pairwise.of_cons h)]
  | swap u v l =>
    rw [daySlots_cons v (u :: l) d, daySlots_cons u l d, daySlots_cons u (v :: l) d,
      daySlots_cons v l d, sortByStart_append, sortByStart_append, sortByStart_append,
      sortByStart_append]
    have hvu := (List.pairwise_cons.1 h).1 u (List.mem_cons_self _ _)
    exact foldr_orderedInsert_comm _ _ _ hvu
  | trans hp1 _ ih1 ih2 =>
    rw [ih1 h]
    apply ih2
    refine (List.Perm.pairwise_iff ?_ hp1).1 h
    intro x y hxy a ha b hb hab
    exact hxy b hb a ha hab.symm

theorem eq_of_entryOf_eq {α : Type} :
    ∀ (l1 l2 : List (Nat × α)), l1.Pairwise (fun a b => a.1 < b.1) →
      l2.Pairwise (fun a b => a.1 < b.1) → (∀ d, entryOf l1 d = entryOf l2 d) → l1 = l2 := by
  intro l1
  induction l1 with
  | nil =>
    intro l2 _ _ h
    cases l2 with
    | nil => rfl
    | cons e r =>
      have := h e.1
      rw [entryOf_cons, if_pos rfl] at this
      cases this
  | cons e1 r1 ih =>
    intro l2 h1 h2 h
    rw [List.pairwise_cons] at h1
    cases l2 with
    | nil =>
      have := h e1.1
      rw [entryOf_cons, if_pos rfl] at this
      cases this
    | cons e2 r2 =>
      rw [List.pairwise_cons] at h2
      have hn1 : ∀ d, d ≤ e1.1 → entryOf r1 d = none := fun d hd =>
        entryOf_eq_none r1 d (fun x hx => by have := h1.1 x hx; simp only at this; omega)
      have hn2 : ∀ d, d ≤ e2.1 → entryOf r2 d = none := fun d hd =>
        entryOf_eq_none r2 d (fun x hx => by have := h2.1 x hx; simp only at this; omega)
      have hkey : e1.1 = e2.1 := by
        by_contra hne
        rcases Nat.lt_or_gt_of_ne hne with hlt | hgt
        · have := h e1.1
          rw [entryOf_cons, if_pos rfl, entryOf_cons, if_neg (by omega),
            hn2 e1.1 (by omega)] at this
          cases this
        · have := h e2.1
          rw [entryOf_cons, if_neg (by omega), hn1 e2.1 (by omega), entryOf_cons,
            if_pos rfl] at this
          cases this
      have hval : e1.2 = e2.2 := by
        have := h e1.1
        rw [entryOf_cons, if_pos rfl, entryOf_cons, if_pos hkey.symm] at this
        exact Option.some.inj this
      have he : e1 = e2 := Prod.ext hkey hval
      subst he
      congr 1
      apply ih r2 h1.2 h2.2
      intro d
      by_cases hd : e1.1 = d
      · rw [hn1 d (by omega), hn2 d (by omega)]
      · have := h d
        rw [entryOf_cons, if_neg hd, entryOf_cons, if_neg hd] at this
        exact this

theorem calculateDailyGaps_keys_sorted (units : List CourseUnit) :
    (calculateDailyGaps units).Pairwise (fun a b => a.1 < b.1) := by
  have hsorted := (foldl_addSlot (allSessions units) [] List.Pairwise.nil).1
  unfold calculateDailyGaps dailySchedules
  rw [List.pairwise_map]
  exact hsorted

theorem entryOf_calculateDailyGaps (units : List CourseUnit) (day : Nat) :
    entryOf (calculateDailyGaps units) day =
      if daySlots units day = [] then none
      else some (gapsBetween (sortByStart (daySlots units day))) := by
  unfold calculateDailyGaps
  rw [entryOf_map (fun slots => gapsBetween (sortByStart slots)), entryOf_dailySchedules]
  split_ifs <;> rfl

theorem sortByStart_eq_nil (l : List DaySlot) : sortByStart l = [] ↔ l = [] := by
  rw [← List.length_eq_zero, ← List.length_eq_zero]
  unfold sortByStart
  rw [List.length_insertionSort]

theorem calculateDailyGaps_perm (units1 units2 : List CourseUnit)
    (hperm : units1.Perm units2)
    (hconf : units1.Pairwise
      (fun u v => hasTimeConflict (unitSessions u) (unitSessions v) = false))
    (htime : ∀ s ∈ allSessions units1, timeToMinutes s.startTime < timeToMinutes s.endTime) :
    calculateDailyGaps units2 = calculateDailyGaps units1 := by
  apply eq_of_entryOf_eq _ _ (calculateDailyGaps_keys_sorted _) (calculateDailyGaps_keys_sorted _)
  intro d
  have hsort : sortByStart (daySlots units1 d) = sortByStart (daySlots units2 d) := by
    apply sortByStart_daySlots_perm units1 units2 hperm d
    have hall : ∀ u ∈ units1, ∀ s ∈ unitSessions u,
        timeToMinutes s.startTime < timeToMinutes s.endTime := fun u hu s hs =>
      htime s (List.mem_flatMap.2 ⟨u, hu, hs⟩)
    have hmem : units1.Pairwise (fun u v => u ∈ units1 ∧ v ∈ units1) :=
      List.pairwise_of_forall_mem_list (fun a ha b hb => ⟨ha, hb⟩)
    refine (hconf.and hmem).imp ?_
    intro u v huv
    exact starts_differ_of_no_conflict u v huv.1 (hall u huv.2.1) (hall v huv.2.2) d
  have hnil : daySlots units1 d = [] ↔ daySlots units2 d = [] := by
    rw [← sortByStart_eq_nil, hsort, sortByStart_eq_nil]
  rw [entryOf_calculateDailyGaps, entryOf_calculateDailyGaps, hsort]
  by_cases h1 : daySlots units1 d = []
  · rw [if_pos h1, if_pos (hnil.1 h1)]
  · rw [if_neg h1, if_neg (fun h2 => h1 (hnil.2 h2))]

theorem calculateScheduleScore_perm (registeredSections : List String)
    (units1 units2 : List CourseUnit) (hperm : units1.Perm units2)
    (hgaps : calculateDailyGaps units2 = calculateDailyGaps units1) :
    calculateScheduleScore registeredSections units2
      = calculateScheduleScore registeredSections units1 := by
  rw [calculateScheduleScore_eq, calculateScheduleScore_eq]
  have hsum := (hperm.map (fun unit => theoreticalScore registeredSections unit
    + practicalScore registeredSections unit)).sum_eq
  have hgap : totalGapMinutes units2 = totalGapMinutes units1 := by
    unfold totalGapMinutes
    rw [hgaps]
  rw [hsum, hgap]

theorem pairwise_units_of_noPairConflict (units : List CourseUnit)
    (h : noPairConflict (allSessions units) = true) :
    units.Pairwise (fun u v => hasTimeConflict (unitSessions u) (unitSessions v) = false) := by
  rw [noPairConflict_iff] at h
  induction units with
  | nil => exact List.Pairwise.nil
  | cons u rest ih =>
    have happ : allSessions (u :: rest) = unitSessions u ++ allSessions rest := by
      simp [allSessions, List.flatMap_cons]
    rw [happ, List.pairwise_append] at h
    refine List.pairwise_cons.2 ⟨?_, ih h.2.1⟩
    intro v hv
    rw [← Bool.not_eq_true, hasTimeConflict_eq_true_iff]
    rintro ⟨a, ha, b, hb, hov⟩
    have := h.2.2 a ha b (List.mem_flatMap.2 ⟨v, hv, hb⟩)
    rw [hov] at this
    exact Bool.noConfusion this

/-! ## Partial schedules held during the search -/

theorem generateCombinationsCalls_fst (cfg : Settings) :
    ∀ (opts : List CourseOption) (cur : List CourseUnit) (total : Int)
      (st : List Schedule × List (List CourseUnit)),
      (generateCombinationsCalls cfg opts cur total st).1
        = generateCombinations cfg opts cur total st.1 := by
  intro opts
  induction opts with
  | nil =>
    intro cur total st
    unfold generateCombinationsCalls generateCombinations
    split_ifs <;> rfl
  | cons o rest ih =>
    intro cur total st
    have hfold := foldl_rel
      (fun (x : List Schedule × List (List CourseUnit)) (y : List Schedule) => x.1 = y)
      (fun acc unit =>
        if total + unit.totalCredits ≤ cfg.maxCredits then
          if hasConflictWith cur unit then acc
          else generateCombinationsCalls cfg rest (cur ++ [unit]) (total + unit.totalCredits) acc
        else acc)
      (fun acc unit =>
        if total + unit.totalCredits ≤ cfg.maxCredits then
          if hasConflictWith cur unit then acc
          else generateCombinations cfg rest (cur ++ [unit]) (total + unit.totalCredits) acc
        else acc)
      o.units
      (fun a b u _ hab => by
        dsimp only at hab ⊢
        split_ifs
        · exact hab
        · rw [ih, hab]
        · exact hab)
      (emit cfg cur total st.1, st.2 ++ [cur]) (emit cfg cur total st.1) rfl
    unfold generateCombinationsCalls generateCombinations
    split_ifs
    · rfl
    · rfl
    · dsimp only at hfold ⊢
      rw [ih, hfold]
    · exact hfold

theorem generateCalls_fst (selectedDays : List Nat) :
    ∀ (opts : List CourseOption) (cur : List CourseUnit) (total : Int)
      (st : List MandatorySchedule × List (List CourseUnit)),
      (generateCalls selectedDays opts cur total st).1
        = generate selectedDays opts cur total st.1 := by
  intro opts
  induction opts with
  | nil =>
    intro cur total st
    unfold generateCalls generate
    split_ifs <;> rfl
  | cons o rest ih =>
    intro cur total st
    unfold generateCalls generate
    exact foldl_rel
      (fun (x : List MandatorySchedule × List (List CourseUnit)) (y : List MandatorySchedule) =>
        x.1 = y)
      _ _ o.units
      (fun a b u _ hab => by
        dsimp only at hab ⊢
        split_ifs
        · exact hab
        · rw [ih, hab])
      (st.1, st.2 ++ [cur]) st.1 rfl

theorem generateMandatoryCombinationsCalls_fst (selectedDays : List Nat)
    (mandatoryOptions : List CourseOption) :
    (generateMandatoryCombinationsCalls selectedDays mandatoryOptions).1
      = generateMandatoryCombinations selectedDays mandatoryOptions := by
  unfold generateMandatoryCombinationsCalls generateMandatoryCombinations
  split_ifs
  · rfl
  · exact generateCalls_fst selectedDays mandatoryOptions [] 0 ([], [])

theorem runMandatorySchedulesCalls_fst (cfg : Settings) (opts : List CourseOption) :
    ∀ (bases : List MandatorySchedule) (st : List Schedule × List (List CourseUnit)),
      (runMandatorySchedulesCalls cfg opts bases st).1
        = runMandatorySchedules cfg opts bases st.1 := by
  intro bases
  induction bases with
  | nil => intro st; rfl
  | cons b rest ih =>
    intro st
    unfold runMandatorySchedulesCalls runMandatorySchedules
    rw [generateCombinationsCalls_fst]
    split_ifs
    · exact generateCombinationsCalls_fst cfg opts b.units b.totalCredits st
    · rw [ih, generateCombinationsCalls_fst]

theorem pairwise_append_unit (cur : List CourseUnit) (u : CourseUnit)
    (hcur : cur.Pairwise
      (fun a b => hasTimeConflict (unitSessions a) (unitSessions b) = false))
    (hu : hasConflictWith cur u = false) :
    (cur ++ [u]).Pairwise
      (fun a b => hasTimeConflict (unitSessions a) (unitSessions b) = false) := by
  rw [List.pairwise_append]
  refine ⟨hcur, List.pairwise_singleton _ _, ?_⟩
  intro a ha b hb
  rw [List.mem_singleton] at hb
  subst hb
  unfold hasConflictWith at hu
  rw [List.any_eq_false] at hu
  have := hu a ha
  rw [hasTimeConflict_symm]
  simpa using this

theorem generateCombinationsCalls_forall (cfg : Settings) (P : CourseUnit → Prop) :
    ∀ (opts : List CourseOption) (cur : List CourseUnit) (total : Int)
      (st : List Schedule × List (List CourseUnit)),
      (∀ o ∈ opts, ∀ u ∈ o.units, P u) →
      (cur.Pairwise (fun a b => hasTimeConflict (unitSessions a) (unitSessions b) = false) ∧
        ∀ u ∈ cur, P u) →
      (∀ c ∈ st.2,
        c.Pairwise (fun a b => hasTimeConflict (unitSessions a) (unitSessions b) = false) ∧
          ∀ u ∈ c, P u) →
      ∀ c ∈ (generateCombinationsCalls cfg opts cur total st).2,
        c.Pairwise (fun a b => hasTimeConflict (unitSessions a) (unitSessions b) = false) ∧
          ∀ u ∈ c, P u := by
  intro opts
  induction opts with
  | nil =>
    intro cur total st _ hcur hst c hc
    unfold generateCombinationsCalls at hc
    have hc2 : c ∈ st.2 ++ [cur] := by
      split_ifs at hc <;> exact hc
    rcases List.mem_append.1 hc2 with h | h
    · exact hst c h
    · rw [List.mem_singleton] at h; rw [h]; exact hcur
  | cons o rest ih =>
    intro cur total st hopts hcur hst
    have hrest : ∀ o2 ∈ rest, ∀ u ∈ o2.units, P u := fun o2 ho2 =>
      hopts o2 (List.mem_cons_of_mem _ ho2)
    have hpush : ∀ (all : List Schedule), ∀ c ∈ st.2 ++ [cur],
        c.Pairwise (fun a b => hasTimeConflict (unitSessions a) (unitSessions b) = false) ∧
          ∀ u ∈ c, P u := by
      intro _ c hc
      rcases List.mem_append.1 hc with h | h
      · exact hst c h
      · rw [List.mem_singleton] at h; rw [h]; exact hcur
    have hfold : ∀ c ∈ (o.units.foldl
        (fun acc unit =>
          if total + unit.totalCredits ≤ cfg.maxCredits then
            if hasConflictWith cur unit then acc
            else
              generateCombinationsCalls cfg rest (cur ++ [unit]) (total + unit.totalCredits) acc
          else acc)
        (emit cfg cur total st.1, st.2 ++ [cur])).2,
        c.Pairwise (fun a b => hasTimeConflict (unitSessions a) (unitSessions b) = false) ∧
          ∀ u ∈ c, P u := by
      apply foldl_forall (fun acc : List Schedule × List (List CourseUnit) => ∀ c ∈ acc.2,
        c.Pairwise (fun a b => hasTimeConflict (unitSessions a) (unitSessions b) = false) ∧
          ∀ u ∈ c, P u)
      · intro acc u hu hacc
        dsimp only
        by_cases h1 : total + u.totalCredits ≤ cfg.maxCredits
        · rw [if_pos h1]
          by_cases h2 : hasConflictWith cur u = true
          · rw [if_pos h2]; exact hacc
          · rw [if_neg h2]
            apply ih (cur ++ [u]) (total + u.totalCredits) acc hrest _ hacc
            refine ⟨pairwise_append_unit cur u hcur.1 (by simpa using h2), ?_⟩
            intro x hx
            rcases List.mem_append.1 hx with h | h
            · exact hcur.2 x h
            · rw [List.mem_singleton] at h; rw [h]
              exact hopts o (List.mem_cons_self _ _) u hu
        · rw [if_neg h1]; exact hacc
      · exact hpush []
    unfold generateCombinationsCalls
    split_ifs
    · exact hpush []
    · exact hpush []
    · exact ih cur total _ hrest hcur hfold
    · exact hfold

theorem generateCalls_forall (selectedDays : List Nat) (P : CourseUnit → Prop) :
    ∀ (opts : List CourseOption) (cur : List CourseUnit) (total : Int)
      (st : List MandatorySchedule × List (List CourseUnit)),
      (∀ o ∈ opts, ∀ u ∈ o.units, P u) →
      (cur.Pairwise (fun a b => hasTimeConflict (unitSessions a) (unitSessions b) = false) ∧
        ∀ u ∈ cur, P u) →
      ((∀ m ∈ st.1,
        m.units.Pairwise
            (fun a b => hasTimeConflict (unitSessions a) (unitSessions b) = false) ∧
          ∀ u ∈ m.units, P u) ∧
       ∀ c ∈ st.2,
        c.Pairwise (fun a b => hasTimeConflict (unitSessions a) (unitSessions b) = false) ∧
          ∀ u ∈ c, P u) →
      ((∀ m ∈ (generateCalls selectedDays opts cur total st).1,
        m.units.Pairwise
            (fun a b => hasTimeConflict (unitSessions a) (unitSessions b) = false) ∧
          ∀ u ∈ m.units, P u) ∧
       ∀ c ∈ (generateCalls selectedDays opts cur total st).2,
        c.Pairwise (fun a b => hasTimeConflict (unitSessions a) (unitSessions b) = false) ∧
          ∀ u ∈ c, P u) := by
  intro opts
  induction opts with
  | nil =>
    intro cur total st _ hcur hst
    unfold generateCalls
    constructor
    · intro m hm
      dsimp only at hm
      split_ifs at hm
      · rcases List.mem_append.1 hm with h | h
        · exact hst.1 m h
        · rw [List.mem_singleton] at h; rw [h]; exact hcur
      · exact hst.1 m hm
    · intro c hc
      rcases List.mem_append.1 hc with h | h
      · exact hst.2 c h
      · rw [List.mem_singleton] at h; rw [h]; exact hcur
  | cons o rest ih =>
    intro cur total st hopts hcur hst
    have hrest : ∀ o2 ∈ rest, ∀ u ∈ o2.units, P u := fun o2 ho2 =>
      hopts o2 (List.mem_cons_of_mem _ ho2)
    unfold generateCalls
    apply foldl_forall (fun acc : List MandatorySchedule × List (List CourseUnit) =>
      (∀ m ∈ acc.1,
        m.units.Pairwise
            (fun a b => hasTimeConflict (unitSessions a) (unitSessions b) = false) ∧
          ∀ u ∈ m.units, P u) ∧
       ∀ c ∈ acc.2,
        c.Pairwise (fun a b => hasTimeConflict (unitSessions a) (unitSessions b) = false) ∧
          ∀ u ∈ c, P u)
    · intro acc u hu hacc
      dsimp only
      by_cases h2 : hasConflictWith cur u = true
      · rw [if_pos h2]; exact hacc
      · rw [if_neg h2]
        apply ih (cur ++ [u]) (total + u.totalCredits) acc hrest _ hacc
        refine ⟨pairwise_append_unit cur u hcur.1 (by simpa using h2), ?_⟩
        intro x hx
        rcases List.mem_append.1 hx with h | h
        · exact hcur.2 x h
        · rw [List.mem_singleton] at h; rw [h]
          exact hopts o (List.mem_cons_self _ _) u hu
    · refine ⟨hst.1, ?_⟩
      intro c hc
      rcases List.mem_append.1 hc with h | h
      · exact hst.2 c h
      · rw [List.mem_singleton] at h; rw [h]; exact hcur

theorem runMandatorySchedulesCalls_forall (cfg : Settings) (P : CourseUnit → Prop)
    (opts : List CourseOption) (hopts : ∀ o ∈ opts, ∀ u ∈ o.units, P u) :
    ∀ (bases : List MandatorySchedule) (st : List Schedule × List (List CourseUnit)),
      (∀ m ∈ bases,
        m.units.Pairwise
            (fun a b => hasTimeConflict (unitSessions a) (unitSessions b) = false) ∧
          ∀ u ∈ m.units, P u) →
      (∀ c ∈ st.2,
        c.Pairwise (fun a b => hasTimeConflict (unitSessions a) (unitSessions b) = false) ∧
          ∀ u ∈ c, P u) →
      ∀ c ∈ (runMandatorySchedulesCalls cfg opts bases st).2,
        c.Pairwise (fun a b => hasTimeConflict (unitSessions a) (unitSessions b) = false) ∧
          ∀ u ∈ c, P u := by
  intro bases
  induction bases with
  | nil => intro st _ hst; exact hst
  | cons b rest ih =>
    intro st hbases hst
    have hgc := generateCombinationsCalls_forall cfg P opts b.units b.totalCredits st hopts
      (hbases b (List.mem_cons_self _ _)) hst
    unfold runMandatorySchedulesCalls
    split_ifs
    · exact hgc
    · exact ih _ (fun m hm => hbases m (List.mem_cons_of_mem _ hm)) hgc

theorem searchCalls_forall (cfg : Settings) (P : CourseUnit → Prop)
    (options : List CourseOption) (hopts : ∀ o ∈ options, ∀ u ∈ o.units, P u) :
    ∀ c ∈ searchCalls cfg options,
      c.Pairwise (fun a b => hasTimeConflict (unitSessions a) (unitSessions b) = false) ∧
        ∀ u ∈ c, P u := by
  have hman : ∀ o ∈ options.filter (fun opt => opt.isMandatory), ∀ u ∈ o.units, P u :=
    fun o ho => hopts o (List.mem_of_mem_filter ho)
  have hopt : ∀ o ∈ options.filter (fun opt => !opt.isMandatory), ∀ u ∈ o.units, P u :=
    fun o ho => hopts o (List.mem_of_mem_filter ho)
  have hnil : ([] : List CourseUnit).Pairwise
        (fun a b => hasTimeConflict (unitSessions a) (unitSessions b) = false) ∧
      ∀ u ∈ ([] : List CourseUnit), P u := ⟨List.Pairwise.nil, fun u hu => by cases hu⟩
  have hgen : (∀ m ∈ (generateMandatoryCombinationsCalls cfg.selectedDays
        (options.filter (fun opt => opt.isMandatory))).1,
        m.units.Pairwise
            (fun a b => hasTimeConflict (unitSessions a) (unitSessions b) = false) ∧
          ∀ u ∈ m.units, P u) ∧
       ∀ c ∈ (generateMandatoryCombinationsCalls cfg.selectedDays
        (options.filter (fun opt => opt.isMandatory))).2,
        c.Pairwise (fun a b => hasTimeConflict (unitSessions a) (unitSessions b) = false) ∧
          ∀ u ∈ c, P u := by
    unfold generateMandatoryCombinationsCalls
    split_ifs
    · refine ⟨?_, fun c hc => by cases hc⟩
      intro m hm
      rw [List.mem_singleton] at hm
      rw [hm]
      exact hnil
    · exact generateCalls_forall cfg.selectedDays P _ [] 0 ([], []) hman hnil
        ⟨fun m hm => (by cases hm), fun c hc => (by cases hc)⟩
  intro c hc
  unfold searchCalls at hc
  rcases List.mem_append.1 hc with h | h
  · exact hgen.2 c h
  · split_ifs at h
    · cases h
    · exact runMandatorySchedulesCalls_forall cfg P _ hopt _ ([], []) hgen.1
        (fun c hc => by cases hc) c h
    · exact generateCombinationsCalls_forall cfg P _ [] 0 ([], []) hopt hnil
        (fun c hc => by cases hc) c h

theorem noPairConflict_of_units (units : List CourseUnit)
    (hpair : units.Pairwise
      (fun a b => hasTimeConflict (unitSessions a) (unitSessions b) = false))
    (hself : ∀ u ∈ units, noPairConflict (unitSessions u) = true) :
    noPairConflict (allSessions units) = true := by
  rw [noPairConflict_iff]
  induction units with
  | nil => exact List.Pairwise.nil
  | cons u rest ih =>
    have happ : allSessions (u :: rest) = unitSessions u ++ allSessions rest := by
      simp [allSessions, List.flatMap_cons]
    rw [List.pairwise_cons] at hpair
    rw [happ, List.pairwise_append]
    refine ⟨(noPairConflict_iff _).1 (hself u (List.mem_cons_self _ _)),
      ih hpair.2 (fun v hv => hself v (List.mem_cons_of_mem _ hv)), ?_⟩
    intro a ha b hb
    obtain ⟨v, hv, hbv⟩ := List.mem_flatMap.1 hb
    have hf := hpair.1 v hv
    rw [← Bool.not_eq_true] at hf ⊢
    intro hov
    exact hf ((hasTimeConflict_eq_true_iff _ _).2 ⟨a, ha, b, hbv, hov⟩)

/-! ## Repeated candidates -/

theorem units_nodup_of_catalog_nodup (catalog : List Section) (hnodup : catalog.Nodup)
    (code : String) (us : List CourseUnit)
    (hus : unitsOf (setupCourseUnits catalog) code = some us) : us.Nodup := by
  rw [unitsOf_setupCourseUnits] at hus
  split_ifs at hus
  cases hus
  unfold pushedUnder List.Nodup
  have hmem : (scanCourses 0 none catalog).Pairwise
      (fun a b => a ∈ scanCourses 0 none catalog ∧ b ∈ scanCourses 0 none catalog) :=
    List.pairwise_of_forall_mem_list (fun a ha b hb => ⟨ha, hb⟩)
  have hpair := (scanCourses_index_lt 0 none catalog).and hmem
  refine List.Pairwise.filterMap (fun it => it.pushed) ?_
    (hpair.sublist ((List.filter_sublist _).trans (effectiveIterations_sublist _)))
  intro a b hab u hu v hv huv
  subst huv
  obtain ⟨sec1, h1, h2⟩ :=
    iteration_first_section catalog a hab.2.1 u (Option.mem_def.1 hu)
  obtain ⟨sec2, h3, h4⟩ :=
    iteration_first_section catalog b hab.2.2 u (Option.mem_def.1 hv)
  rw [h2] at h4
  cases h4
  obtain ⟨hi, hgi⟩ := List.getElem?_eq_some.1 h1
  obtain ⟨hj, hgj⟩ := List.getElem?_eq_some.1 h3
  have := (List.Nodup.getElem_inj_iff hnodup).1 (hgi.trans hgj.symm)
  have hlt := hab.1
  omega

theorem option_units_nodup (catalog : List Section) (hnodup : catalog.Nodup) (cfg : Settings)
    (options : List CourseOption)
    (hopt : courseOptions (setupCourseUnits catalog) cfg = some options) :
    ∀ o ∈ options, o.units.Nodup := by
  intro o ho
  obtain ⟨units, hunits, hoeq⟩ := (courseOptions_inv _ cfg options hopt).2 o ho
  have hn := units_nodup_of_catalog_nodup catalog hnodup o.code units hunits
  rw [hoeq]
  unfold courseOptionOf
  dsimp only
  split_ifs
  · exact hn
  · exact hn.filter _

theorem foldl_units_nodup {β : Type} (proj : β → List CourseUnit) (cur : List CourseUnit)
    (step : List β → CourseUnit → List β) :
    ∀ (us : List CourseUnit), us.Nodup →
      (∀ acc, ∀ u ∈ us, ∃ newu : List (List CourseUnit), newu.Nodup ∧
        (step acc u).map proj = acc.map proj ++ newu.map (fun ext => cur ++ u :: ext)) →
      ∀ (all0 : List (List CourseUnit)) (acc : List β) (new : List (List CourseUnit)),
        new.Nodup → (∀ e ∈ new, ∀ u ∈ us, e.head? ≠ some u) →
        acc.map proj = all0 ++ new.map (fun ext => cur ++ ext) →
        ∃ new2 : List (List CourseUnit), new2.Nodup ∧
          (us.foldl step acc).map proj = all0 ++ new2.map (fun ext => cur ++ ext) := by
  intro us
  induction us with
  | nil => intro _ _ all0 acc new hnew _ hacc; exact ⟨new, hnew, hacc⟩
  | cons u rest ih =>
    intro hus hstep all0 acc new hnew hhead hacc
    rw [List.nodup_cons] at hus
    obtain ⟨newu, hnewu, hmap⟩ := hstep acc u (List.mem_cons_self _ _)
    simp only [List.foldl_cons]
    apply ih hus.2 (fun acc2 v hv => hstep acc2 v (List.mem_cons_of_mem _ hv)) all0
      (step acc u) (new ++ newu.map (List.cons u))
    · refine List.Nodup.append hnew (hnewu.map (List.cons_injective)) ?_
      intro e he1 he2
      obtain ⟨x, _, rfl⟩ := List.mem_map.1 he2
      exact hhead _ he1 u (List.mem_cons_self _ _) rfl
    · intro e he v hv
      rcases List.mem_append.1 he with h | h
      · exact hhead e h v (List.mem_cons_of_mem _ hv)
      · obtain ⟨x, _, rfl⟩ := List.mem_map.1 h
        intro hx
        simp only [List.head?_cons, Option.some.injEq] at hx
        rw [hx] at hus
        exact hus.1 hv
    · rw [hmap, hacc, List.map_append, List.map_map, List.append_assoc]
      rfl

theorem emit_units (cfg : Settings) (cur : List CourseUnit) (total : Int)
    (all : List Schedule) :
    ∃ new : List (List CourseUnit), new.Nodup ∧ (∀ e ∈ new, e = []) ∧
      (emit cfg cur total all).map (fun s => s.units)
        = all.map (fun s => s.units) ++ new.map (fun ext => cur ++ ext) := by
  unfold emit
  split_ifs
  · exact ⟨[[]], by simp, by simp, by simp⟩
  · exact ⟨[], by simp, by simp, by simp⟩
  · exact ⟨[], by simp, by simp, by simp⟩

theorem generateCombinations_units (cfg : Settings)
    (hpart : cfg.allowPartialSchedules = false) :
    ∀ (opts : List CourseOption), (∀ o ∈ opts, o.units.Nodup) →
      ∀ (cur : List CourseUnit) (total : Int) (all : List Schedule),
        ∃ new : List (List CourseUnit), new.Nodup ∧
          (generateCombinations cfg opts cur total all).map (fun s => s.units)
            = all.map (fun s => s.units) ++ new.map (fun ext => cur ++ ext) := by
  intro opts
  induction opts with
  | nil =>
    intro _ cur total all
    unfold generateCombinations
    split_ifs
    · exact ⟨[], by simp, by simp⟩
    · obtain ⟨new, h1, _, h3⟩ := emit_units cfg cur total all
      exact ⟨new, h1, h3⟩
  | cons o rest ih =>
    intro hopts cur total all
    have hrest : ∀ o2 ∈ rest, o2.units.Nodup := fun o2 ho2 =>
      hopts o2 (List.mem_cons_of_mem _ ho2)
    obtain ⟨new0, hn0, hnil0, hmap0⟩ := emit_units cfg cur total all
    have hfold := foldl_units_nodup (fun s : Schedule => s.units) cur
      (fun acc unit =>
        if total + unit.totalCredits ≤ cfg.maxCredits then
          if hasConflictWith cur unit then acc
          else generateCombinations cfg rest (cur ++ [unit]) (total + unit.totalCredits) acc
        else acc)
      o.units (hopts o (List.mem_cons_self _ _))
      (fun acc u _ => by
        dsimp only
        split_ifs
        · exact ⟨[], by simp, by simp⟩
        · obtain ⟨new, h1, h2⟩ := ih hrest (cur ++ [u]) (total + u.totalCredits) acc
          exact ⟨new, h1, by rw [h2]; simp⟩
        · exact ⟨[], by simp, by simp⟩)
      (all.map (fun s => s.units)) (emit cfg cur total all) new0 hn0
      (fun e he u _ => by rw [hnil0 e he]; simp) hmap0
    unfold generateCombinations
    rw [hpart]
    simp only [Bool.false_eq_true, if_false]
    split_ifs
    · exact ⟨[], by simp, by simp⟩
    · exact ⟨new0, hn0, hmap0⟩
    · exact hfold

theorem generate_units (selectedDays : List Nat) :
    ∀ (opts : List CourseOption), (∀ o ∈ opts, o.units.Nodup) →
      ∀ (cur : List CourseUnit) (total : Int) (acc : List MandatorySchedule),
        ∃ new : List (List CourseUnit), new.Nodup ∧
          (generate selectedDays opts cur total acc).map (fun b => b.units)
            = acc.map (fun b => b.units) ++ new.map (fun ext => cur ++ ext) := by
  intro opts
  induction opts with
  | nil =>
    intro _ cur total acc
    unfold generate
    split_ifs
    · exact ⟨[[]], by simp, by simp⟩
    · exact ⟨[], by simp, by simp⟩
  | cons o rest ih =>
    intro hopts cur total acc
    have hrest : ∀ o2 ∈ rest, o2.units.Nodup := fun o2 ho2 =>
      hopts o2 (List.mem_cons_of_mem _ ho2)
    unfold generate
    exact foldl_units_nodup (fun b : MandatorySchedule => b.units) cur
      (fun acc unit =>
        if hasConflictWith cur unit then acc
        else generate selectedDays rest (cur ++ [unit]) (total + unit.totalCredits) acc)
      o.units (hopts o (List.mem_cons_self _ _))
      (fun acc u _ => by
        dsimp only
        split_ifs
        · exact ⟨[], by simp, by simp⟩
        · obtain ⟨new, h1, h2⟩ := ih hrest (cur ++ [u]) (total + u.totalCredits) acc
          exact ⟨new, h1, by rw [h2]; simp⟩)
      (acc.map (fun b => b.units)) acc [] List.nodup_nil
      (fun e he => by cases he) (by simp)

theorem runMandatorySchedules_nodup (cfg : Settings)
    (hpart : cfg.allowPartialSchedules = false) (opts : List CourseOption)
    (hopts : ∀ o ∈ opts, o.units.Nodup) (L : Nat) :
    ∀ (bases : List MandatorySchedule) (all : List Schedule),
      (bases.map (fun b => b.units)).Nodup → (∀ b ∈ bases, b.units.length = L) →
      (all.map (fun s => s.units)).Nodup →
      (∀ s ∈ all, ∀ b ∈ bases, s.units.take L ≠ b.units) →
      ((runMandatorySchedules cfg opts bases all).map (fun s => s.units)).Nodup := by
  intro bases
  induction bases with
  | nil => intro all _ _ hall _; simpa [runMandatorySchedules] using hall
  | cons b rest ih =>
    intro all hbases hlen hall hdiff
    rw [List.map_cons, List.nodup_cons] at hbases
    have hbL := hlen b (List.mem_cons_self _ _)
    obtain ⟨new, hnew, hmap⟩ :=
      generateCombinations_units cfg hpart opts hopts b.units b.totalCredits all
    have hmem : ∀ s ∈ generateCombinations cfg opts b.units b.totalCredits all,
        (∃ s0 ∈ all, s.units = s0.units) ∨ s.units.take L = b.units := by
      intro s hs
      have : s.units ∈ (generateCombinations cfg opts b.units b.totalCredits all).map
          (fun s => s.units) := List.mem_map_of_mem (fun s => s.units) hs
      rw [hmap] at this
      rcases List.mem_append.1 this with h | h
      · obtain ⟨s0, hs0, h0⟩ := List.mem_map.1 h
        exact Or.inl ⟨s0, hs0, h0.symm⟩
      · obtain ⟨e, _, he⟩ := List.mem_map.1 h
        right
        rw [← he]
        exact List.take_left' hbL
    have hgn : ((generateCombinations cfg opts b.units b.totalCredits all).map
        (fun s => s.units)).Nodup := by
      rw [hmap]
      refine List.Nodup.append hall (hnew.map (List.append_right_injective _)) ?_
      intro x hx1 hx2
      obtain ⟨s0, hs0, h0⟩ := List.mem_map.1 hx1
      obtain ⟨e, _, he⟩ := List.mem_map.1 hx2
      apply hdiff s0 hs0 b (List.mem_cons_self _ _)
      rw [h0, ← he]
      exact List.take_left' hbL
    unfold runMandatorySchedules
    split_ifs
    · exact hgn
    · apply ih _ hbases.2 (fun b2 hb2 => hlen b2 (List.mem_cons_of_mem _ hb2)) hgn
      intro s hs b2 hb2
      rcases hmem s hs with ⟨s0, hs0, h0⟩ | h
      · rw [h0]
        exact hdiff s0 hs0 b2 (List.mem_cons_of_mem _ hb2)
      · rw [h]
        intro heq
        exact hbases.1 (by rw [heq]; exact List.mem_map_of_mem (fun b => b.units) hb2)

theorem generateMandatoryCombinations_units (selectedDays : List Nat)
    (mandatoryOptions : List CourseOption) (hopts : ∀ o ∈ mandatoryOptions, o.units.Nodup) :
    ((generateMandatoryCombinations selectedDays mandatoryOptions).map
        (fun b => b.units)).Nodup ∧
      ∀ b ∈ generateMandatoryCombinations selectedDays mandatoryOptions,
        b.units.length = mandatoryOptions.length := by
  unfold generateMandatoryCombinations
  split_ifs with h0
  · refine ⟨by simp, ?_⟩
    intro b hb
    rw [List.mem_singleton] at hb
    rw [hb, h0]
    rfl
  · constructor
    · obtain ⟨new, hnew, hmap⟩ := generate_units selectedDays mandatoryOptions hopts [] 0 []
      rw [hmap]
      simpa using hnew
    · intro b hb
      rcases generate_sound selectedDays mandatoryOptions [] 0 [] b hb with h | ⟨ext, hext, hbe⟩
      · cases h
      · rw [hbe]
        simpa using hext.length_eq.symm

theorem searchSchedules_nodup (cfg : Settings) (hpart : cfg.allowPartialSchedules = false)
    (options : List CourseOption) (hopts : ∀ o ∈ options, o.units.Nodup) :
    ((searchSchedules cfg options).map (fun s => s.units)).Nodup := by
  have hman : ∀ o ∈ options.filter (fun opt => opt.isMandatory), o.units.Nodup :=
    fun o ho => hopts o (List.mem_of_mem_filter ho)
  have hopt : ∀ o ∈ options.filter (fun opt => !opt.isMandatory), o.units.Nodup :=
    fun o ho => hopts o (List.mem_of_mem_filter ho)
  obtain ⟨hb1, hb2⟩ := generateMandatoryCombinations_units cfg.selectedDays _ hman
  unfold searchSchedules
  split_ifs
  · exact List.nodup_nil
  · exact runMandatorySchedules_nodup cfg hpart _ hopt _ _ [] hb1 hb2 List.nodup_nil
      (fun s hs => by cases hs)
  · obtain ⟨new, hnew, hmap⟩ := generateCombinations_units cfg hpart _ hopt [] 0 []
    rw [hmap]
    simpa using hnew

/-! ## Catalogs without inherited names -/

theorem effectiveIterations_scanCourses (catalog : List Section)
    (hcodes : ∀ s ∈ catalog, s.code ∉ inheritedNames) :
    effectiveIterations (scanCourses 0 none catalog) = scanCourses 0 none catalog := by
  apply effectiveIterations_eq_self
  intro it hit
  obtain ⟨_, c, _, _, hc, hcode, _⟩ := scanCourses_pushed 0 none catalog it hit
  rw [hcode]
  exact hcodes c (List.mem_iff_getElem?.2 ⟨_, hc⟩)

theorem setupCourseUnits_eq_foldl (catalog : List Section)
    (hcodes : ∀ s ∈ catalog, s.code ∉ inheritedNames) :
    setupCourseUnits catalog = (scanCourses 0 none catalog).foldl applyIteration [] := by
  unfold setupCourseUnits
  rw [runIterations_fst, effectiveIterations_scanCourses catalog hcodes]

theorem setupCourseUnitsThrows_eq_false (catalog : List Section)
    (hcodes : ∀ s ∈ catalog, s.code ∉ inheritedNames) :
    setupCourseUnitsThrows catalog = false := by
  unfold setupCourseUnitsThrows
  rw [runIterations_snd, List.any_eq_false]
  intro it hit
  obtain ⟨_, c, _, _, hc, hcode, _⟩ := scanCourses_pushed 0 none catalog it hit
  have : it.courseCode ∉ inheritedNames := by
    rw [hcode]
    exact hcodes c (List.mem_iff_getElem?.2 ⟨_, hc⟩)
  simp [this]

/-! ## Credit totals as JavaScript numbers: what every candidate carries -/

theorem roundDouble_exact (n : Int) (h : n.natAbs < 2 ^ 53) :
    roundDouble n = JsNum.finite n := by
  have hr : roundNat n.natAbs = n.natAbs := by
    unfold roundNat
    rw [if_pos h]
  have hlt : ¬ (2 ^ 256 * 2 ^ 256 * 2 ^ 256 * 2 ^ 256 ≤ n.natAbs) := by
    have h2 : (2 : Nat) ^ 53 ≤ 2 ^ 256 * 2 ^ 256 * 2 ^ 256 * 2 ^ 256 := by norm_num
    omega
  unfold roundDouble
  rw [hr, if_neg hlt]
  by_cases h0 : 0 ≤ n
  · rw [if_pos h0]
    congr 1
    omega
  · rw [if_neg h0]
    congr 1
    omega

theorem jsSum_append_singleton (cur : List CourseUnit) (u : CourseUnit) :
    jsSum (cur ++ [u]) = jsAdd (jsSum cur) u.totalCredits := by
  unfold jsSum
  rw [List.foldl_append]
  rfl

theorem foldl_jsAdd_exact :
    ∀ (units : List CourseUnit) (a : Int),
      a.natAbs + (units.map (fun u => u.totalCredits.natAbs)).sum < 2 ^ 53 →
      units.foldl (fun total unit => jsAdd total unit.totalCredits) (JsNum.finite a)
        = JsNum.finite (a + sumCredits units) := by
  intro units
  induction units with
  | nil => intro a _; simp [sumCredits]
  | cons u rest ih =>
    intro a h
    simp only [List.map_cons, List.sum_cons] at h
    simp only [List.foldl_cons]
    have hadd : jsAdd (JsNum.finite a) u.totalCredits = JsNum.finite (a + u.totalCredits) := by
      unfold jsAdd
      exact roundDouble_exact _ (by omega)
    rw [hadd, ih (a + u.totalCredits) (by omega), sumCredits_cons, add_assoc]

theorem jsSum_exact (units : List CourseUnit)
    (h : (units.map (fun u => u.totalCredits.natAbs)).sum < 2 ^ 53) :
    jsSum units = JsNum.finite (sumCredits units) := by
  unfold jsSum
  rw [foldl_jsAdd_exact units 0 (by simpa using h), zero_add]

theorem mem_emitNum (cfg : Settings) (cur : List CourseUnit) (total : JsNum)
    (all : List NumSchedule) (s : NumSchedule) (hs : s ∈ emitNum cfg cur total all) :
    s ∈ all ∨ s = ⟨cur, total, calculateScheduleScore cfg.registeredSections cur⟩ := by
  unfold emitNum at hs
  split_ifs at hs
  · rcases List.mem_append.1 hs with h | h
    · exact Or.inl h
    · exact Or.inr (List.mem_singleton.1 h)
  · exact Or.inl hs
  · exact Or.inl hs

theorem generateCombinationsNum_fields (cfg : Settings) :
    ∀ (opts : List CourseOption) (cur : List CourseUnit) (total : JsNum)
      (all : List NumSchedule), total = jsSum cur →
      (∀ s ∈ all, s.totalCredits = jsSum s.units ∧
        s.score = calculateScheduleScore cfg.registeredSections s.units) →
      ∀ s ∈ generateCombinationsNum cfg opts cur total all,
        s.totalCredits = jsSum s.units ∧
          s.score = calculateScheduleScore cfg.registeredSections s.units := by
  have hemit : ∀ (cur : List CourseUnit) (total : JsNum) (all : List NumSchedule),
      total = jsSum cur →
      (∀ s ∈ all, s.totalCredits = jsSum s.units ∧
        s.score = calculateScheduleScore cfg.registeredSections s.units) →
      ∀ s ∈ emitNum cfg cur total all,
        s.totalCredits = jsSum s.units ∧
          s.score = calculateScheduleScore cfg.registeredSections s.units := by
    intro cur total all htot hall s hs
    rcases mem_emitNum cfg cur total all s hs with h | h
    · exact hall s h
    · rw [h]; exact ⟨htot, rfl⟩
  intro opts
  induction opts with
  | nil =>
    intro cur total all htot hall
    unfold generateCombinationsNum
    split_ifs
    · exact hall
    · exact hemit cur total all htot hall
  | cons o rest ih =>
    intro cur total all htot hall
    have hfold : ∀ s ∈ o.units.foldl
        (fun acc unit =>
          if jsLe (jsAdd total unit.totalCredits) cfg.maxCredits then
            if hasConflictWith cur unit then acc
            else
              generateCombinationsNum cfg rest (cur ++ [unit])
                (jsAdd total unit.totalCredits) acc
          else acc)
        (emitNum cfg cur total all),
        s.totalCredits = jsSum s.units ∧
          s.score = calculateScheduleScore cfg.registeredSections s.units := by
      apply foldl_forall (fun acc : List NumSchedule => ∀ s ∈ acc,
        s.totalCredits = jsSum s.units ∧
          s.score = calculateScheduleScore cfg.registeredSections s.units)
      · intro acc u _ hacc
        dsimp only
        split_ifs
        · exact hacc
        · exact ih (cur ++ [u]) _ acc (by rw [jsSum_append_singleton, htot]) hacc
        · exact hacc
      · exact hemit cur total all htot hall
    unfold generateCombinationsNum
    split_ifs
    · exact hall
    · exact hemit cur total all htot hall
    · exact ih cur total _ htot hfold
    · exact hfold

theorem generateNum_fields (selectedDays : List Nat) :
    ∀ (opts : List CourseOption) (cur : List CourseUnit) (total : JsNum)
      (acc : List NumMandatorySchedule), total = jsSum cur →
      (∀ b ∈ acc, b.totalCredits = jsSum b.units) →
      ∀ b ∈ generateNum selectedDays opts cur total acc, b.totalCredits = jsSum b.units := by
  intro opts
  induction opts with
  | nil =>
    intro cur total acc htot hacc b hb
    unfold generateNum at hb
    split_ifs at hb
    · rcases List.mem_append.1 hb with h | h
      · exact hacc b h
      · rw [List.mem_singleton.1 h]; exact htot
    · exact hacc b hb
  | cons o rest ih =>
    intro cur total acc htot hacc
    unfold generateNum
    apply foldl_forall (fun acc : List NumMandatorySchedule => ∀ b ∈ acc,
      b.totalCredits = jsSum b.units)
    · intro acc2 u _ hacc2
      dsimp only
      split_ifs
      · exact hacc2
      · exact ih (cur ++ [u]) _ acc2 (by rw [jsSum_append_singleton, htot]) hacc2
    · exact hacc

theorem runMandatorySchedulesNum_fields (cfg : Settings) (opts : List CourseOption) :
    ∀ (bases : List NumMandatorySchedule) (all : List NumSchedule),
      (∀ b ∈ bases, b.totalCredits = jsSum b.units) →
      (∀ s ∈ all, s.totalCredits = jsSum s.units ∧
        s.score = calculateScheduleScore cfg.registeredSections s.units) →
      ∀ s ∈ runMandatorySchedulesNum cfg opts bases all,
        s.totalCredits = jsSum s.units ∧
          s.score = calculateScheduleScore cfg.registeredSections s.units := by
  intro bases
  induction bases with
  | nil => intro all _ hall; simpa [runMandatorySchedulesNum] using hall
  | cons b rest ih =>
    intro all hbases hall
    have hgc := generateCombinationsNum_fields cfg opts b.units b.totalCredits all
      (hbases b (List.mem_cons_self _ _)) hall
    unfold runMandatorySchedulesNum
    split_ifs
    · exact hgc
    · exact ih _ (fun b2 hb2 => hbases b2 (List.mem_cons_of_mem _ hb2)) hgc

theorem searchSchedulesNum_fields (cfg : Settings) (options : List CourseOption) :
    ∀ s ∈ searchSchedulesNum cfg options,
      s.totalCredits = jsSum s.units ∧
        s.score = calculateScheduleScore cfg.registeredSections s.units := by
  have hbases : ∀ b ∈ generateMandatoryCombinationsNum cfg.selectedDays
      (options.filter (fun opt => opt.isMandatory)), b.totalCredits = jsSum b.units := by
    unfold generateMandatoryCombinationsNum
    split_ifs
    · intro b hb
      rw [List.mem_singleton.1 hb]
      rfl
    · exact generateNum_fields cfg.selectedDays _ [] (JsNum.finite 0) [] rfl
        (fun b hb => by cases hb)
  unfold searchSchedulesNum
  split_ifs
  · intro s hs; cases hs
  · exact runMandatorySchedulesNum_fields cfg _ _ [] hbases (fun s hs => by cases hs)
  · exact generateCombinationsNum_fields cfg _ [] (JsNum.finite 0) [] rfl
      (fun s hs => by cases hs)

/-! ## The integer totals agree with the JavaScript numbers below 2^53 -/

theorem natAbs_le_sum_of_mem (units : List CourseUnit) (u : CourseUnit) (hu : u ∈ units) :
    u.totalCredits.natAbs ≤ (units.map (fun u => u.totalCredits.natAbs)).sum := by
  induction units with
  | nil => cases hu
  | cons v rest ih =>
    simp only [List.map_cons, List.sum_cons]
    rcases List.mem_cons.1 hu with h | h
    · rw [h]; omega
    · have := ih h; omega

theorem creditMass_cons (o : CourseOption) (rest : List CourseOption) :
    creditMass (o :: rest)
      = (o.units.map (fun u => u.totalCredits.natAbs)).sum + creditMass rest := by
  simp [creditMass]

theorem creditMass_filter (options : List CourseOption) (p : CourseOption → Bool) :
    creditMass (options.filter p) + creditMass (options.filter (fun o => !p o))
      = creditMass options := by
  induction options with
  | nil => rfl
  | cons o rest ih =>
    cases hp : p o
    · simp only [List.filter_cons, hp, Bool.not_false, if_true, Bool.false_eq_true, if_false,
        creditMass_cons]
      omega
    · simp only [List.filter_cons, hp, Bool.not_true, if_true, Bool.false_eq_true, if_false,
        creditMass_cons]
      omega

theorem forall2_natAbs_sumCredits_le (opts : List CourseOption) (us : List CourseUnit)
    (h : List.Forall₂ (fun (o : CourseOption) (u : CourseUnit) => u ∈ o.units) opts us) :
    (sumCredits us).natAbs ≤ creditMass opts := by
  induction h with
  | nil => simp [sumCredits, creditMass]
  | @cons o u opts2 us2 hu _ ih =>
    rw [sumCredits_cons, creditMass_cons]
    have := natAbs_le_sum_of_mem o.units u hu
    omega

theorem capReachedNum_map (cfg : Settings) (all : List Schedule) :
    capReachedNum cfg (all.map toNumSchedule) = capReached cfg all := by
  unfold capReachedNum capReached
  rw [List.length_map]

theorem emitNum_map (cfg : Settings) (cur : List CourseUnit) (total : Int)
    (all : List Schedule) :
    emitNum cfg cur (JsNum.finite total) (all.map toNumSchedule)
      = (emit cfg cur total all).map toNumSchedule := by
  unfold emitNum emit jsGe
  by_cases h1 : total ≥ cfg.minCredits
  · by_cases h2 : isValidSchedule cfg.selectedDays cur = true
    · simp [h1, h2, toNumSchedule]
    · simp [h1, h2]
  · simp [h1]

theorem jsAdd_finite_exact (total credits : Int) (h : (total + credits).natAbs < 2 ^ 53) :
    jsAdd (JsNum.finite total) credits = JsNum.finite (total + credits) := by
  unfold jsAdd
  exact roundDouble_exact _ h

theorem generateCombinationsNum_map (cfg : Settings) :
    ∀ (opts : List CourseOption) (cur : List CourseUnit) (total : Int) (all : List Schedule),
      total.natAbs + creditMass opts < 2 ^ 53 →
      generateCombinationsNum cfg opts cur (JsNum.finite total) (all.map toNumSchedule)
        = (generateCombinations cfg opts cur total all).map toNumSchedule := by
  intro opts
  induction opts with
  | nil =>
    intro cur total all _
    unfold generateCombinationsNum generateCombinations
    rw [capReachedNum_map]
    split_ifs
    · rfl
    · exact emitNum_map cfg cur total all
  | cons o rest ih =>
    intro cur total all hb
    rw [creditMass_cons] at hb
    have hfold := foldl_rel
      (fun (x : List NumSchedule) (y : List Schedule) => x = y.map toNumSchedule)
      (fun acc unit =>
        if jsLe (jsAdd (JsNum.finite total) unit.totalCredits) cfg.maxCredits then
          if hasConflictWith cur unit then acc
          else
            generateCombinationsNum cfg rest (cur ++ [unit])
              (jsAdd (JsNum.finite total) unit.totalCredits) acc
        else acc)
      (fun acc unit =>
        if total + unit.totalCredits ≤ cfg.maxCredits then
          if hasConflictWith cur unit then acc
          else generateCombinations cfg rest (cur ++ [unit]) (total + unit.totalCredits) acc
        else acc)
      o.units
      (fun a b u hu hab => by
        have hu2 := natAbs_le_sum_of_mem o.units u hu
        have hadd := jsAdd_finite_exact total u.totalCredits (by omega)
        dsimp only
        rw [hadd]
        have hle : jsLe (JsNum.finite (total + u.totalCredits)) cfg.maxCredits
            = decide (total + u.totalCredits ≤ cfg.maxCredits) := rfl
        rw [hle]
        by_cases h1 : total + u.totalCredits ≤ cfg.maxCredits
        · simp only [h1, decide_True, if_true]
          by_cases h2 : hasConflictWith cur u = true
          · simp only [h2, if_true]; exact hab
          · simp only [h2, Bool.false_eq_true, if_false]
            rw [hab]
            exact ih _ _ b (by omega)
        · simp only [h1, decide_False, Bool.false_eq_true, if_false]
          exact hab)
      _ _ (emitNum_map cfg cur total all)
    unfold generateCombinationsNum generateCombinations
    rw [capReachedNum_map]
    have hge : jsGe (JsNum.finite total) cfg.maxCredits = decide (total ≥ cfg.maxCredits) := rfl
    rw [hge]
    by_cases h0 : capReached cfg all = true
    · simp only [h0, if_true]
    · simp only [h0, Bool.false_eq_true, if_false]
      by_cases h1 : total ≥ cfg.maxCredits
      · simp only [h1, decide_True, if_true]
        exact emitNum_map cfg cur total all
      · simp only [h1, decide_False, Bool.false_eq_true, if_false]
        by_cases h2 : cfg.allowPartialSchedules = true
        · simp only [h2, if_true]
          rw [hfold]
          exact ih _ _ _ (by omega)
        · simp only [h2, Bool.false_eq_true, if_false]
          exact hfold

theorem generateNum_map (selectedDays : List Nat) :
    ∀ (opts : List CourseOption) (cur : List CourseUnit) (total : Int)
      (acc : List MandatorySchedule),
      total.natAbs + creditMass opts < 2 ^ 53 →
      generateNum selectedDays opts cur (JsNum.finite total) (acc.map toNumMandatorySchedule)
        = (generate selectedDays opts cur total acc).map toNumMandatorySchedule := by
  intro opts
  induction opts with
  | nil =>
    intro cur total acc _
    unfold generateNum generate
    split_ifs
    · simp [toNumMandatorySchedule]
    · rfl
  | cons o rest ih =>
    intro cur total acc hb
    rw [creditMass_cons] at hb
    unfold generateNum generate
    exact foldl_rel
      (fun (x : List NumMandatorySchedule) (y : List MandatorySchedule) =>
        x = y.map toNumMandatorySchedule)
      _ _ o.units
      (fun a b u hu hab => by
        have hu2 := natAbs_le_sum_of_mem o.units u hu
        have hadd := jsAdd_finite_exact total u.totalCredits (by omega)
        dsimp only
        rw [hadd]
        by_cases h2 : hasConflictWith cur u = true
        · simp only [h2, if_true]; exact hab
        · simp only [h2, Bool.false_eq_true, if_false]
          rw [hab]
          exact ih _ _ b (by omega))
      _ _ rfl

theorem generateMandatoryCombinationsNum_map (selectedDays : List Nat)
    (mandatoryOptions : List CourseOption) (hb : creditMass mandatoryOptions < 2 ^ 53) :
    generateMandatoryCombinationsNum selectedDays mandatoryOptions
      = (generateMandatoryCombinations selectedDays mandatoryOptions).map
          toNumMandatorySchedule := by
  unfold generateMandatoryCombinationsNum generateMandatoryCombinations
  split_ifs
  · rfl
  · exact generateNum_map selectedDays mandatoryOptions [] 0 [] (by simpa using hb)

theorem runMandatorySchedulesNum_map (cfg : Settings) (opts : List CourseOption) :
    ∀ (bases : List MandatorySchedule) (all : List Schedule),
      (∀ b ∈ bases, b.totalCredits.natAbs + creditMass opts < 2 ^ 53) →
      runMandatorySchedulesNum cfg opts (bases.map toNumMandatorySchedule)
          (all.map toNumSchedule)
        = (runMandatorySchedules cfg opts bases all).map toNumSchedule := by
  intro bases
  induction bases with
  | nil => intro all _; rfl
  | cons b rest ih =>
    intro all hb
    have hgc := generateCombinationsNum_map cfg opts b.units b.totalCredits all
      (hb b (List.mem_cons_self _ _))
    have hunits : (toNumMandatorySchedule b).units = b.units := rfl
    have htotal : (toNumMandatorySchedule b).totalCredits = JsNum.finite b.totalCredits := rfl
    simp only [List.map_cons]
    unfold runMandatorySchedulesNum runMandatorySchedules
    rw [hunits, htotal, hgc, capReachedNum_map]
    split_ifs
    · rfl
    · exact ih _ (fun b2 hb2 => hb b2 (List.mem_cons_of_mem _ hb2))

theorem searchSchedulesNum_map (cfg : Settings) (options : List CourseOption)
    (hsafe : creditMass options < 2 ^ 53) :
    searchSchedulesNum cfg options = (searchSchedules cfg options).map toNumSchedule := by
  have hsplit := creditMass_filter options (fun opt => opt.isMandatory)
  have hman := generateMandatoryCombinationsNum_map cfg.selectedDays
    (options.filter (fun opt => opt.isMandatory)) (by omega)
  have hbases : ∀ b ∈ generateMandatoryCombinations cfg.selectedDays
      (options.filter (fun opt => opt.isMandatory)),
      b.totalCredits.natAbs + creditMass (options.filter (fun opt => !opt.isMandatory))
        < 2 ^ 53 := by
    intro b hb
    obtain ⟨h1, h2⟩ := generateMandatoryCombinations_sound _ _ b hb
    have := forall2_natAbs_sumCredits_le _ _ h1
    rw [h2]
    omega
  unfold searchSchedulesNum searchSchedules
  rw [hman, List.length_map]
  split_ifs
  · rfl
  · exact runMandatorySchedulesNum_map cfg _ _ [] hbases
  · exact generateCombinationsNum_map cfg _ [] 0 [] (by simp; omega)

theorem sortByScoreNum_map (all : List Schedule) :
    sortByScoreNum (all.map toNumSchedule) = (sortByScore all).map toNumSchedule := by
  unfold sortByScoreNum sortByScore
  exact (List.map_insertionSort (fun a b : Schedule => a.score ≥ b.score)
    (fun a b : NumSchedule => a.score ≥ b.score) toNumSchedule all
    (fun a _ b _ => Iff.rfl)).symm

theorem generateAllSchedulesComprehensiveNum_eq (courseUnits : CourseUnits) (cfg : Settings)
    (options : List CourseOption) (hopt : courseOptions courseUnits cfg = some options)
    (hsafe : creditMass options < 2 ^ 53) :
    generateAllSchedulesComprehensiveNum courseUnits cfg
      = (generateAllSchedulesComprehensive courseUnits cfg).map
          (fun result => result.map toNumSchedule) := by
  unfold generateAllSchedulesComprehensiveNum generateAllSchedulesComprehensive
  rw [hopt]
  simp only [Option.map_some']
  rw [searchSchedulesNum_map cfg options hsafe, sortByScoreNum_map]

/-! ## Claims -/

/-- C1: every candidate returned by `generateAllSchedulesComprehensive` is conflict-free.
Any two distinct session occurrences (positions `i ≠ j` of the sessions collected from the
theoretical and practical sections of its units) are not on the same day with
`start1 < end2` and `start2 < end1`. -/
theorem candidates_conflict_free (catalog : List Section) (cfg : Settings)
    (result : List Schedule)
    (hres : generateAllSchedulesComprehensive (setupCourseUnits catalog) cfg = some result)
    (c : Schedule) (hc : c ∈ result) (i j : Nat) (hij : i ≠ j) (s1 s2 : Session)
    (h1 : (allSessions c.units)[i]? = some s1) (h2 : (allSessions c.units)[j]? = some s2) :
    ¬ (s1.day = s2.day ∧ timeToMinutes s1.startTime < timeToMinutes s2.endTime ∧
        timeToMinutes s2.startTime < timeToMinutes s1.endTime) := by
  have hvalid : isValidSchedule cfg.selectedDays c.units = true :=
    generateAll_forall (setupCourseUnits catalog) cfg
      (fun s => isValidSchedule cfg.selectedDays s.units = true)
      (fun _ _ _ h => h) result hres c hc
  have hpw := ((isValidSchedule_iff _ _).1 hvalid).1
  rw [List.pairwise_iff_getElem] at hpw
  obtain ⟨hi, rfl⟩ := List.getElem?_eq_some.1 h1
  obtain ⟨hj, rfl⟩ := List.getElem?_eq_some.1 h2
  intro hov
  rcases Nat.lt_or_gt_of_ne hij with hlt | hgt
  · have := hpw i j hi hj hlt
    rw [(sessionsOverlap_iff _ _).2 hov] at this
    exact Bool.noConfusion this
  · have := hpw j i hj hi hgt
    rw [(sessionsOverlap_iff _ _).2 ⟨hov.1.symm, hov.2.2, hov.2.1⟩] at this
    exact Bool.noConfusion this

/-- Witness for C1: in the scenario, the sessions of the returned candidate made of A2 and B
(positions 0 and 1) do not overlap. -/
theorem candidates_conflict_free_witness :
    generateAllSchedulesComprehensive (setupCourseUnits scenarioCatalog) (scenarioSettings false)
        = some scenarioResult ∧
      ¬ ((1 : Nat) = 1 ∧ timeToMinutes ⟨11, 0⟩ < timeToMinutes ⟨10, 30⟩ ∧
          timeToMinutes ⟨9, 30⟩ < timeToMinutes ⟨12, 0⟩) :=
  ⟨by decide,
   candidates_conflict_free scenarioCatalog (scenarioSettings false) scenarioResult (by decide)
     ⟨[theoryUnit scenarioA2, theoryUnit scenarioB], 6, 112⟩ (by decide) 0 1 (by decide)
     ⟨1, ⟨11, 0⟩, ⟨12, 0⟩, "R1"⟩ ⟨1, ⟨9, 30⟩, ⟨10, 30⟩, "R2"⟩ (by decide) (by decide)⟩

/-- C2: `hasTimeConflict(A, B)` is true exactly when some session of A and some session of B
are on the same day with `start(a) < end(b)` and `start(b) < end(a)`, times in minutes since
midnight. Same-day sessions 540-600 and 590-650 conflict; same-day back-to-back sessions
540-600 and 600-660 do not. -/
theorem hasTimeConflict_spec :
    (∀ A B : List Session,
      hasTimeConflict A B = true ↔
        ∃ a ∈ A, ∃ b ∈ B, a.day = b.day ∧
          timeToMinutes a.startTime < timeToMinutes b.endTime ∧
          timeToMinutes b.startTime < timeToMinutes a.endTime) ∧
    (timeToMinutes ⟨9, 0⟩ = 540 ∧ timeToMinutes ⟨10, 0⟩ = 600 ∧ timeToMinutes ⟨9, 50⟩ = 590 ∧
      timeToMinutes ⟨10, 50⟩ = 650 ∧ timeToMinutes ⟨11, 0⟩ = 660) ∧
    (∀ (day : Nat) (room1 room2 : String),
      hasTimeConflict [⟨day, ⟨9, 0⟩, ⟨10, 0⟩, room1⟩] [⟨day, ⟨9, 50⟩, ⟨10, 50⟩, room2⟩] = true) ∧
    (∀ (day : Nat) (room1 room2 : String),
      hasTimeConflict [⟨day, ⟨9, 0⟩, ⟨10, 0⟩, room1⟩] [⟨day, ⟨10, 0⟩, ⟨11, 0⟩, room2⟩] = false ∧
      hasTimeConflict [⟨day, ⟨10, 0⟩, ⟨11, 0⟩, room2⟩] [⟨day, ⟨9, 0⟩, ⟨10, 0⟩, room1⟩] = false) := by
  refine ⟨?_, by decide, ?_, ?_⟩
  · intro A B
    rw [hasTimeConflict_eq_true_iff]
    simp only [sessionsOverlap_iff]
  · intro day room1 room2
    simp [hasTimeConflict, sessionsOverlap, timeToMinutes]
  · intro day room1 room2
    simp [hasTimeConflict, sessionsOverlap, timeToMinutes]

/-- C5: every session of every section of every unit of every returned candidate has its day
in the selected-day list. -/
theorem candidates_on_selected_days (catalog : List Section) (cfg : Settings)
    (result : List Schedule)
    (hres : generateAllSchedulesComprehensive (setupCourseUnits catalog) cfg = some result)
    (c : Schedule) (hc : c ∈ result) (u : CourseUnit) (hu : u ∈ c.units) (sec : Section)
    (hsec : u.theoretical = some sec ∨ u.practical = some sec)
    (s : Session) (hs : s ∈ sec.sessions) :
    s.day ∈ cfg.selectedDays := by
  have hvalid : isValidSchedule cfg.selectedDays c.units = true :=
    generateAll_forall (setupCourseUnits catalog) cfg
      (fun s => isValidSchedule cfg.selectedDays s.units = true)
      (fun _ _ _ h => h) result hres c hc
  apply ((isValidSchedule_iff _ _).1 hvalid).2
  exact List.mem_flatMap.2 ⟨u, hu, mem_unitSessions u sec s hsec hs⟩

/-- Witness for C5: in the scenario, the session of B in the candidate made of A2 and B is on
a selected day. -/
theorem candidates_on_selected_days_witness :
    generateAllSchedulesComprehensive (setupCourseUnits scenarioCatalog) (scenarioSettings false)
        = some scenarioResult ∧
      (1 : Nat) ∈ (scenarioSettings false).selectedDays :=
  ⟨by decide,
   candidates_on_selected_days scenarioCatalog (scenarioSettings false) scenarioResult
     (by decide) ⟨[theoryUnit scenarioA2, theoryUnit scenarioB], 6, 112⟩ (by decide)
     (theoryUnit scenarioB) (by decide) scenarioB (Or.inl rfl)
     ⟨1, ⟨9, 30⟩, ⟨10, 30⟩, "R2"⟩ (by decide)⟩

/-- C6: with `maxResults = N > 0`, `generateAllSchedulesComprehensive` returns at most N
candidates. -/
theorem result_count_le_maxResults (catalog : List Section) (cfg : Settings)
    (result : List Schedule) (hN : 0 < cfg.maxResults)
    (hres : generateAllSchedulesComprehensive (setupCourseUnits catalog) cfg = some result) :
    (result.length : Int) ≤ cfg.maxResults := by
  unfold generateAllSchedulesComprehensive at hres
  rcases Option.map_eq_some'.1 hres with ⟨options, _, rfl⟩
  unfold sortByScore
  rw [List.length_insertionSort]
  exact searchSchedules_length_le cfg hN options

/-- Witness for C6: the scenario, which has four candidates without a cap, returns two
candidates under `maxResults = 2`. -/
theorem result_count_le_maxResults_witness :
    generateAllSchedulesComprehensive (setupCourseUnits scenarioCatalog) (cappedSettings 2)
        = some [⟨[theoryUnit scenarioA1], 3, 120⟩, ⟨[], 0, 100⟩] ∧
      (([⟨[theoryUnit scenarioA1], 3, 120⟩, ⟨[], 0, 100⟩] : List Schedule).length : Int)
        ≤ (cappedSettings 2).maxResults :=
  ⟨by decide,
   result_count_le_maxResults scenarioCatalog (cappedSettings 2)
     [⟨[theoryUnit scenarioA1], 3, 120⟩, ⟨[], 0, 100⟩] (by decide) (by decide)⟩

/-- C3 (evaluation at the failing input): two mandatory courses of 3 credit hours each under
`maxCredits = 5`. The mandatory phase never compares its credit total with `maxCredits`, so
the only returned candidate has `totalCredits = 6`, above `maxCredits`. -/
theorem mandatory_credits_exceed_maxCredits :
    generateAllSchedulesComprehensive (setupCourseUnits [creditsM1, creditsM2]) creditsSettings
        = some [⟨[theoryUnit creditsM1, theoryUnit creditsM2], 6, 140⟩] ∧
      creditsSettings.maxCredits < 6 := by
  decide

/-- C4 (evaluation at the failing input): course M is selected and mandatory, its only section
is closed and not registered, and closed sections are not included. The course is dropped
from `courseOptions`, and both returned candidates hold no unit of M. -/
theorem closed_mandatory_course_omitted :
    generateAllSchedulesComprehensive (setupCourseUnits [closedM, openN]) closedMandatorySettings
        = some [⟨[theoryUnit openN], 3, 120⟩, ⟨[], 0, 100⟩] ∧
      (∀ code ∈ closedMandatorySettings.mandatoryCourses,
        code ∈ closedMandatorySettings.selectedCourses) ∧
      "M" ∈ closedMandatorySettings.mandatoryCourses ∧
      ∀ c ∈ ([⟨[theoryUnit openN], 3, 120⟩, ⟨[], 0, 100⟩] : List Schedule),
        ∀ u ∈ c.units, unitCourseCode u ≠ some "M" := by
  decide

/-- C9 (counterexample): in the scenario the search does not return exactly one candidate;
it returns four (with partial schedules off), the partial schedules included. -/
theorem scenario_not_single_candidate :
    ¬ ∃ c : Schedule,
      generateAllSchedulesComprehensive (setupCourseUnits scenarioCatalog)
        (scenarioSettings false) = some [c] := by
  rintro ⟨c, hc⟩
  have h4 : generateAllSchedulesComprehensive (setupCourseUnits scenarioCatalog)
      (scenarioSettings false) = some scenarioResult := by decide
  rw [h4] at hc
  have hlen := congrArg (Option.map List.length) hc
  simp [scenarioResult] at hlen

/-- C9 (amended): in the scenario, with partial schedules on or off and no result cap, exactly
one returned candidate holds a unit of both courses, and it is A2 followed by B; the pairing
of A1 with B is not returned; every other returned candidate is a schedule of at most one
unit (the empty schedule and single units, emitted because `minCredits = 0`). -/
theorem scenario_unique_full_candidate (allowPartialSchedules : Bool) :
    ∃ result : List Schedule,
      generateAllSchedulesComprehensive (setupCourseUnits scenarioCatalog)
        (scenarioSettings allowPartialSchedules) = some result ∧
      result.filter (fun c => decide (2 ≤ c.units.length))
        = [⟨[theoryUnit scenarioA2, theoryUnit scenarioB], 6, 112⟩] ∧
      (∀ c ∈ result, c.units ≠ [theoryUnit scenarioA1, theoryUnit scenarioB]) ∧
      result.length = (if allowPartialSchedules then 9 else 4) := by
  cases allowPartialSchedules
  · exact ⟨scenarioResult, by decide, by decide, by decide, by decide⟩
  · exact ⟨_, rfl, by decide, by decide, by decide⟩

/-- C8: courses M and N are both selected and mandatory and the only unit of M conflicts with
the only unit of N, but the unit of M is closed and closed sections are not included. M is
dropped from `courseOptions`; the result is not the empty list and its schedule holds N
without the mandatory course M. -/
theorem conflicting_mandatory_not_empty :
    unitsOf (setupCourseUnits [closedM, openN]) "M" = some [theoryUnit closedM] ∧
      unitsOf (setupCourseUnits [closedM, openN]) "N" = some [theoryUnit openN] ∧
      hasTimeConflict (unitSessions (theoryUnit closedM)) (unitSessions (theoryUnit openN))
        = true ∧
      "M" ∈ bothMandatorySettings.mandatoryCourses ∧
      "N" ∈ bothMandatorySettings.mandatoryCourses ∧
      generateAllSchedulesComprehensive (setupCourseUnits [closedM, openN])
        bothMandatorySettings = some [⟨[theoryUnit openN], 3, 120⟩] ∧
      generateAllSchedulesComprehensive (setupCourseUnits [closedM, openN])
        bothMandatorySettings ≠ some [] := by
  decide

/-- Supporting C8, the fail-fast path outside the defect: if two distinct selected mandatory
courses each have at least one available unit (a unit left after the closed-section filter)
and every available unit of the one conflicts (`hasTimeConflict`) with every available unit
of the other, then `generateAllSchedulesComprehensive` returns the empty list; it does not
fail and returns no schedule at all. Every selected code is taken to be a key of
`courseUnits`, as the selection page guarantees. -/
theorem mandatory_conflict_yields_empty (catalog : List Section) (cfg : Settings)
    (hkeys : ∀ code ∈ cfg.selectedCourses,
      (unitsOf (setupCourseUnits catalog) code).isSome = true)
    (m1 m2 : String) (hne : m1 ≠ m2)
    (hs1 : m1 ∈ cfg.selectedCourses) (hs2 : m2 ∈ cfg.selectedCourses)
    (hm1 : m1 ∈ cfg.mandatoryCourses) (hm2 : m2 ∈ cfg.mandatoryCourses)
    (units1 units2 : List CourseUnit)
    (hu1 : unitsOf (setupCourseUnits catalog) m1 = some units1)
    (hu2 : unitsOf (setupCourseUnits catalog) m2 = some units2)
    (havail1 : (courseOptionOf cfg m1 units1).units ≠ [])
    (havail2 : (courseOptionOf cfg m2 units2).units ≠ [])
    (hconf : ∀ u1 ∈ (courseOptionOf cfg m1 units1).units,
      ∀ u2 ∈ (courseOptionOf cfg m2 units2).units,
        hasTimeConflict (unitSessions u1) (unitSessions u2) = true) :
    generateAllSchedulesComprehensive (setupCourseUnits catalog) cfg = some [] := by
  obtain ⟨options, hopt⟩ :=
    mapCourseOptions_isSome (setupCourseUnits catalog) cfg cfg.selectedCourses hkeys
  have hmem1 := mapCourseOptions_mem _ cfg _ options hopt m1 hs1 units1 hu1
  have hmem2 := mapCourseOptions_mem _ cfg _ options hopt m2 hs2 units2 hu2
  have hf1 : courseOptionOf cfg m1 units1 ∈
      options.filter (fun option => decide (option.units.length > 0)) :=
    List.mem_filter.2 ⟨hmem1, by simpa using List.length_pos.2 havail1⟩
  have hf2 : courseOptionOf cfg m2 units2 ∈
      options.filter (fun option => decide (option.units.length > 0)) :=
    List.mem_filter.2 ⟨hmem2, by simpa using List.length_pos.2 havail2⟩
  have hne2 : courseOptionOf cfg m1 units1 ≠ courseOptionOf cfg m2 units2 := by
    intro h
    exact hne (congrArg CourseOption.code h)
  have hman1 : (courseOptionOf cfg m1 units1).isMandatory = true := by
    simpa [courseOptionOf] using hm1
  have hman2 : (courseOptionOf cfg m2 units2).isMandatory = true := by
    simpa [courseOptionOf] using hm2
  unfold generateAllSchedulesComprehensive courseOptions
  rw [hopt]
  simp only [Option.map_some']
  rw [searchSchedules_two_conflicting cfg _ _ _ hf1 hf2 hman1 hman2 hne2 hconf]
  rfl

/-- Example of the fail-fast path: M and N both open, both mandatory, their single units overlap on
day 1; the search returns the empty list. -/
theorem mandatory_conflict_yields_empty_witness :
    hasTimeConflict (unitSessions (theoryUnit openM)) (unitSessions (theoryUnit openN)) = true ∧
      generateAllSchedulesComprehensive (setupCourseUnits [openM, openN])
        bothMandatorySettings = some [] :=
  ⟨by decide,
   mandatory_conflict_yields_empty [openM, openN] bothMandatorySettings (by decide)
     "M" "N" (by decide) (by decide) (by decide) (by decide) (by decide)
     [theoryUnit openM] [theoryUnit openN] (by decide) (by decide) (by decide) (by decide)
     (by decide)⟩

/-- Supporting C10, the pairing outside the defect: in a catalog none of whose course codes
is an inherited property name, when a Theoretical section at catalog position `i` is
immediately followed by a Practical section with the same course code, the loop iteration at
`i` is the only one at
that position and pushes one `combined` unit holding exactly these two sections, which is
listed under the course code; no iteration runs at position `i + 1`, and every standalone
`practical` unit holds the section at the position of its own iteration, so the consumed
practical section is in no standalone unit. A Theoretical section not so followed yields one
`theoretical` unit. The units listed under a code are exactly the units the iterations pushed
under it. For `[Theory(CS101), Practical(CS101), Theory(CS102)]` the result is exactly one
combined unit under CS101 and one theoretical unit under CS102. -/
theorem setupCourseUnits_pairing (catalog : List Section)
    (hcodes : ∀ s ∈ catalog, s.code ∉ inheritedNames) (i : Nat) (t : Section)
    (ht : catalog[i]? = some t) (hT : t.type = THEORETICAL) :
    (∀ p : Section, catalog[i + 1]? = some p → p.code = t.code → p.type = PRACTICAL →
      (⟨i, t.code, some (combinedUnit t p)⟩ : Iteration) ∈ scanCourses 0 none catalog ∧
      (∀ it ∈ scanCourses 0 none catalog, it.index = i →
        it = ⟨i, t.code, some (combinedUnit t p)⟩) ∧
      (∃ us, unitsOf (setupCourseUnits catalog) t.code = some us ∧ combinedUnit t p ∈ us) ∧
      (∀ it ∈ scanCourses 0 none catalog, it.index ≠ i + 1) ∧
      (∀ it ∈ scanCourses 0 none catalog, ∀ u, it.pushed = some u →
        u.type = UnitType.practical → u.practical = catalog[it.index]? ∧ it.index ≠ i + 1)) ∧
    ((∀ p : Section, catalog[i + 1]? = some p → ¬ (p.code = t.code ∧ p.type = PRACTICAL)) →
      (⟨i, t.code, some (theoryUnit t)⟩ : Iteration) ∈ scanCourses 0 none catalog ∧
      (∀ it ∈ scanCourses 0 none catalog, it.index = i →
        it = ⟨i, t.code, some (theoryUnit t)⟩) ∧
      (∃ us, unitsOf (setupCourseUnits catalog) t.code = some us ∧ theoryUnit t ∈ us)) ∧
    (∀ (code : String) (us : List CourseUnit),
      unitsOf (setupCourseUnits catalog) code = some us →
        us = pushedUnder code (scanCourses 0 none catalog)) ∧
    (∀ t1 p1 t2 : Section, t1.type = THEORETICAL → t1.code = "CS101" →
      p1.type = PRACTICAL → p1.code = "CS101" → t2.type = THEORETICAL → t2.code = "CS102" →
      setupCourseUnits [t1, p1, t2] =
        [("CS101", [combinedUnit t1 p1]), ("CS102", [theoryUnit t2])]) := by
  have hvisit := scanCourses_theoretical 0 none catalog i t ht hT
  rw [Nat.zero_add] at hvisit
  have heff := effectiveIterations_scanCourses catalog hcodes
  refine ⟨?_, ?_, ?_, ?_⟩
  · intro p hp hc hP
    rw [hp, loopBody_pair none t p hT hc hP] at hvisit
    have hskip : ∀ it ∈ scanCourses 0 none catalog, it.index ≠ i + 1 := by
      intro it hit
      have := scanCourses_skips 0 none catalog i t p ht hp hT hc hP it hit
      omega
    refine ⟨hvisit, ?_, mem_unitsOf_of_iteration catalog t.code i _ (heff.symm ▸ hvisit),
      hskip, ?_⟩
    · intro it hit hidx
      exact scanCourses_index_inj 0 none catalog it _ hit hvisit hidx
    · intro it hit u hu hty
      refine ⟨?_, hskip it hit⟩
      obtain ⟨_, c, p2, n2, hc2, _, hpush⟩ := scanCourses_pushed 0 none catalog it hit
      rw [Nat.sub_zero] at hc2
      rw [hc2]
      exact loopBody_practical_unit p2 c n2 u (hpush ▸ hu) hty
  · intro hnext
    rw [loopBody_alone none t _ hT hnext] at hvisit
    refine ⟨hvisit, ?_, mem_unitsOf_of_iteration catalog t.code i _ (heff.symm ▸ hvisit)⟩
    intro it hit hidx
    exact scanCourses_index_inj 0 none catalog it _ hit hvisit hidx
  · intro code us hus
    rw [unitsOf_setupCourseUnits, heff] at hus
    split_ifs at hus
    exact (Option.some.inj hus).symm
  · intro t1 p1 t2 h1 c1 h2 c2 h3 c3
    have hne : ¬ ("CS101" = "CS102") := by decide
    have hin1 : "CS101" ∉ inheritedNames := by decide
    have hin2 : "CS102" ∉ inheritedNames := by decide
    have hcodes2 : ∀ s ∈ [t1, p1, t2], s.code ∉ inheritedNames := by
      intro s hs
      simp only [List.mem_cons, List.mem_singleton, List.not_mem_nil, or_false] at hs
      rcases hs with h | h | h
      · rw [h, c1]; exact hin1
      · rw [h, c2]; exact hin1
      · rw [h, c3]; exact hin2
    rw [setupCourseUnits_eq_foldl _ hcodes2]
    simp [scanCourses, loopBody, applyIteration, initCode, pushUnit, unitsOf,
      combinedUnit, theoryUnit, h1, c1, h2, c2, h3, c3, hne]

/-- Example of the pairing: in the catalog `[Theory(CS101), Practical(CS101), Theory(CS102)]` the
combined unit of the first two sections is listed under CS101, and the table is as stated. -/
theorem setupCourseUnits_pairing_witness :
    (∃ us, unitsOf (setupCourseUnits pairingCatalog) "CS101" = some us ∧
      combinedUnit cs101Theory cs101Practical ∈ us) ∧
    setupCourseUnits pairingCatalog =
      [("CS101", [combinedUnit cs101Theory cs101Practical]), ("CS102", [theoryUnit cs102Theory])] :=
  ⟨((setupCourseUnits_pairing pairingCatalog (by decide) 0 cs101Theory (by decide)
      (by decide)).1 cs101Practical (by decide) (by decide) (by decide)).2.2.1,
   (setupCourseUnits_pairing pairingCatalog (by decide) 0 cs101Theory (by decide)
      (by decide)).2.2.2 cs101Theory cs101Practical cs102Theory (by decide) (by decide) (by decide) (by decide)
      (by decide) (by decide)⟩

/-- C7 (counterexample): course A (3 credit hours) and the practical-only course L (0 credit
hours) are optional, `maxCredits = 3`, `maxResults = 0`, partial schedules allowed. The
sequence of A's unit followed by L's unit is conflict-free, on selected days and has credit
total 3 within `[0, 3]`, yet no returned candidate has these units: the search stops
descending once the total reaches `maxCredits`. -/
theorem search_incomplete_at_maxCredits :
    limitSettings.maxResults = 0 ∧ limitSettings.allowPartialSchedules = true ∧
      mapCourseOptions (setupCourseUnits [limitA, limitL]) limitSettings
          limitSettings.selectedCourses
        = some [⟨"A", [theoryUnit limitA], false⟩, ⟨"L", [practicalUnit limitL], false⟩] ∧
      isValidSchedule limitSettings.selectedDays [theoryUnit limitA, practicalUnit limitL]
        = true ∧
      limitSettings.minCredits ≤ sumCredits [theoryUnit limitA, practicalUnit limitL] ∧
      sumCredits [theoryUnit limitA, practicalUnit limitL] ≤ limitSettings.maxCredits ∧
      ∃ result, generateAllSchedulesComprehensive (setupCourseUnits [limitA, limitL])
          limitSettings = some result ∧
        ∀ c ∈ result, c.units ≠ [theoryUnit limitA, practicalUnit limitL] :=
  ⟨by decide, by decide, by decide, by decide, by decide, by decide, _, rfl, by decide⟩

/-- C7 (amended): with `maxResults = 0` and partial schedules allowed, every sequence made of
one unit of each selected mandatory course followed by at most one unit of each selected
optional course (in course order) whose sessions are pairwise non-overlapping, all lie on
selected days, whose credit total is within `[minCredits, maxCredits]`, and whose running
credit total is still below `maxCredits` before each of its optional units is added, is the
unit list of a returned candidate (with that credit total). The units of a course are those
the closed-section filter leaves (`mapped` is the outcome of the `map` step of
`courseOptions`). -/
theorem search_complete (catalog : List Section) (cfg : Settings)
    (mapped : List CourseOption)
    (hmax : cfg.maxResults = 0) (hpart : cfg.allowPartialSchedules = true)
    (hmapped : mapCourseOptions (setupCourseUnits catalog) cfg cfg.selectedCourses = some mapped)
    (base ext : List CourseUnit) (chosen : List CourseOption)
    (hbase : List.Forall₂ (fun (o : CourseOption) (u : CourseUnit) => u ∈ o.units)
      (mapped.filter (fun opt => opt.isMandatory)) base)
    (hchosen : chosen.Sublist (mapped.filter (fun opt => !opt.isMandatory)))
    (hext : List.Forall₂ (fun (o : CourseOption) (u : CourseUnit) => u ∈ o.units) chosen ext)
    (hpw : (allSessions (base ++ ext)).Pairwise (fun a b =>
      ¬ (a.day = b.day ∧ timeToMinutes a.startTime < timeToMinutes b.endTime ∧
          timeToMinutes b.startTime < timeToMinutes a.endTime)))
    (hdays : ∀ s ∈ allSessions (base ++ ext), s.day ∈ cfg.selectedDays)
    (hmin : cfg.minCredits ≤ sumCredits (base ++ ext))
    (hmaxc : sumCredits (base ++ ext) ≤ cfg.maxCredits)
    (hroom : ∀ n, n < ext.length → sumCredits (base ++ ext.take n) < cfg.maxCredits) :
    ∃ result, generateAllSchedulesComprehensive (setupCourseUnits catalog) cfg = some result ∧
      ∃ c ∈ result, c.units = base ++ ext ∧ c.totalCredits = sumCredits (base ++ ext) := by
  have hvalid : isValidSchedule cfg.selectedDays (base ++ ext) = true := by
    rw [isValidSchedule_iff]
    refine ⟨hpw.imp (fun {a b} h => ?_), hdays⟩
    rw [← Bool.not_eq_true, sessionsOverlap_iff]
    exact h
  have hbase2 : List.Forall₂ (fun (o : CourseOption) (u : CourseUnit) => u ∈ o.units)
      ((mapped.filter (fun option => decide (option.units.length > 0))).filter
        (fun opt => opt.isMandatory)) base := by
    rw [filter_mandatory_eq mapped (forall2_units_pos _ _ hbase)]
    exact hbase
  have hchosen2 := sublist_filter_optional mapped chosen hchosen (forall2_units_pos _ _ hext)
  refine ⟨sortByScore (searchSchedules cfg
    (mapped.filter (fun option => decide (option.units.length > 0)))), ?_, ?_⟩
  · unfold generateAllSchedulesComprehensive courseOptions
    rw [hmapped]
    rfl
  · exact ⟨_, (mem_sortByScore _ _).2
      (searchSchedules_complete cfg (by omega) hpart _ base ext chosen hbase2 hchosen2 hext
        hvalid hmin hmaxc hroom), rfl, rfl⟩

/-- Witness for C7 (amended): in the scenario with partial schedules allowed, the sequence of
A2 followed by B meets every condition and is returned. -/
theorem search_complete_witness :
    mapCourseOptions (setupCourseUnits scenarioCatalog) (scenarioSettings true)
        (scenarioSettings true).selectedCourses = some scenarioOptions ∧
      ∃ result, generateAllSchedulesComprehensive (setupCourseUnits scenarioCatalog)
          (scenarioSettings true) = some result ∧
        ∃ c ∈ result, c.units = [] ++ [theoryUnit scenarioA2, theoryUnit scenarioB] ∧
          c.totalCredits = sumCredits ([] ++ [theoryUnit scenarioA2, theoryUnit scenarioB]) :=
  ⟨by decide,
   search_complete scenarioCatalog (scenarioSettings true) scenarioOptions (by decide)
     (by decide) (by decide) [] [theoryUnit scenarioA2, theoryUnit scenarioB] scenarioOptions
     List.Forall₂.nil (List.Sublist.refl _)
     (List.Forall₂.cons (by decide) (List.Forall₂.cons (by decide) List.Forall₂.nil))
     (by decide) (by decide) (by decide) (by decide) (by decide)⟩

/-- C20: for every unit built by `setupCourseUnits`, `totalCredits` is the credit hours of
its theoretical section when it has one (a combined or theoretical unit), taken as 0 when
that value does not parse (`creditHours = none`), and is 0 for a practical-only unit
whatever credit hours its practical section carries. -/
theorem unit_totalCredits (catalog : List Section) (code : String) (us : List CourseUnit)
    (hus : unitsOf (setupCourseUnits catalog) code = some us) (u : CourseUnit) (hu : u ∈ us) :
    (∀ t, u.theoretical = some t →
      (u.type = UnitType.combined ∨ u.type = UnitType.theoretical) ∧
      u.totalCredits = (match t.creditHours with
        | some hours => hours
        | none => 0)) ∧
    (u.theoretical = none →
      u.type = UnitType.practical ∧ (∃ p, u.practical = some p) ∧ u.totalCredits = 0) := by
  obtain ⟨c, _, _, h | h | h⟩ := unit_of_setupCourseUnits catalog code us hus u hu
  · obtain ⟨p, _, _, rfl⟩ := h
    refine ⟨fun t ht => ?_, fun hnone => ?_⟩
    · simp only [combinedUnit, Option.some.injEq] at ht
      subst ht
      refine ⟨Or.inl rfl, ?_⟩
      simp only [combinedUnit, parsedCredits]
      cases c.creditHours <;> rfl
    · simp [combinedUnit] at hnone
  · subst h
    refine ⟨fun t ht => ?_, fun hnone => ?_⟩
    · simp only [theoryUnit, Option.some.injEq] at ht
      subst ht
      refine ⟨Or.inr rfl, ?_⟩
      simp only [theoryUnit, parsedCredits]
      cases c.creditHours <;> rfl
    · simp [theoryUnit] at hnone
  · subst h
    refine ⟨fun t ht => ?_, fun _ => ⟨rfl, ⟨c, rfl⟩, rfl⟩⟩
    simp [practicalUnit] at ht

/-- Witness for C20: the combined unit of CS101 in the pairing catalog has the 3 credit hours
of its theoretical section (its practical section carries none). -/
theorem unit_totalCredits_witness :
    (combinedUnit cs101Theory cs101Practical).totalCredits = 3 := by
  have h := (unit_totalCredits pairingCatalog "CS101" [combinedUnit cs101Theory cs101Practical]
    (by decide) (combinedUnit cs101Theory cs101Practical) (by decide)).1 cs101Theory rfl
  exact h.2

/-- C15: `hasTimeConflict(A, B) = hasTimeConflict(B, A)` for all session lists. -/
theorem hasTimeConflict_comm (A B : List Session) :
    hasTimeConflict A B = hasTimeConflict B A := by
  rw [Bool.eq_iff_iff, hasTimeConflict_eq_true_iff, hasTimeConflict_eq_true_iff]
  constructor
  · rintro ⟨a, ha, b, hb, h⟩
    exact ⟨b, hb, a, ha, (sessionsOverlap_symm b a).trans h⟩
  · rintro ⟨a, ha, b, hb, h⟩
    exact ⟨b, hb, a, ha, (sessionsOverlap_symm b a).trans h⟩

/-- C12: `calculateScheduleScore` returns 100, plus for each unit's theoretical section +100
if its sectionId is registered, else +20 if its status is Open, else -5, plus for each unit's
practical section +50 if registered, else +10 if Open, else -3, minus
`floor(totalGapMinutes / 10)`, where `totalGapMinutes` is the sum of `gapMinutes` over all
records of `calculateDailyGaps` (this is `scoreBySpec`); the empty candidate scores 100. -/
theorem calculateScheduleScore_spec :
    (∀ (registeredSections : List String) (units : List CourseUnit),
      calculateScheduleScore registeredSections units = scoreBySpec registeredSections units) ∧
    (∀ registeredSections : List String, calculateScheduleScore registeredSections [] = 100) := by
  constructor
  · intro registeredSections units
    rw [calculateScheduleScore_eq, fdiv_ten_eq_floor, totalGapMinutes_eq]
    unfold scoreBySpec
    simp only [theoreticalScore_eq, practicalScore_eq]
  · intro registeredSections
    rfl

/-- C16: for a candidate holding a section whose status is Open and whose sectionId is not in
the registered set, the score with that sectionId added to the registered set is strictly
greater than before. -/
theorem score_increases_when_registered (registeredSections : List String)
    (units : List CourseUnit) (u : CourseUnit) (sec : Section) (hu : u ∈ units)
    (hsec : u.theoretical = some sec ∨ u.practical = some sec)
    (hopen : sec.status = OPEN) (hnot : sec.sectionId ∉ registeredSections) :
    calculateScheduleScore registeredSections units
      < calculateScheduleScore (registeredSections ++ [sec.sectionId]) units := by
  rw [calculateScheduleScore_eq, calculateScheduleScore_eq]
  have hlt := List.sum_lt_sum
    (fun unit => theoreticalScore registeredSections unit
      + practicalScore registeredSections unit)
    (fun unit => theoreticalScore (registeredSections ++ [sec.sectionId]) unit
      + practicalScore (registeredSections ++ [sec.sectionId]) unit)
    (l := units)
    (fun unit _ => add_le_add (theoreticalScore_mono _ _ unit) (practicalScore_mono _ _ unit))
    ⟨u, hu, by
      dsimp only
      rcases hsec with h | h
      · have h1 : theoreticalScore registeredSections u
            < theoreticalScore (registeredSections ++ [sec.sectionId]) u := by
          simp [theoreticalScore, h, hnot, hopen]
        have h2 := practicalScore_mono registeredSections sec.sectionId u
        omega
      · have h1 : practicalScore registeredSections u
            < practicalScore (registeredSections ++ [sec.sectionId]) u := by
          simp [practicalScore, h, hnot, hopen]
        have h2 := theoreticalScore_mono registeredSections sec.sectionId u
        omega⟩
  omega

/-- Witness for C16: registering the open section 101 of the scenario raises the score of
the schedule holding it from 120 to 200. -/
theorem score_increases_when_registered_witness :
    calculateScheduleScore [] [theoryUnit scenarioA1] = 120 ∧
      calculateScheduleScore ([] ++ [scenarioA1.sectionId]) [theoryUnit scenarioA1] = 200 ∧
      calculateScheduleScore [] [theoryUnit scenarioA1]
        < calculateScheduleScore ([] ++ [scenarioA1.sectionId]) [theoryUnit scenarioA1] :=
  ⟨by decide, by decide,
   score_increases_when_registered [] [theoryUnit scenarioA1] (theoryUnit scenarioA1)
     scenarioA1 (by decide) (Or.inl rfl) (by decide) (by decide)⟩

/-- C13: the list returned by `generateAllSchedulesComprehensive` is a permutation of the
candidates emitted by the search (`searchSchedules`, the array before it is sorted), is
ordered by score non-increasing, and candidates with equal score keep the relative order in
which the search emitted them (for every score value, the returned candidates with that
score are the emitted candidates with that score, in emission order). -/
theorem result_sorted_by_score_stable (catalog : List Section) (cfg : Settings)
    (result : List Schedule)
    (hres : generateAllSchedulesComprehensive (setupCourseUnits catalog) cfg = some result) :
    ∃ options, courseOptions (setupCourseUnits catalog) cfg = some options ∧
      result.Perm (searchSchedules cfg options) ∧
      result.Pairwise (fun a b => a.score ≥ b.score) ∧
      ∀ v : Int, result.filter (fun c => decide (c.score = v))
        = (searchSchedules cfg options).filter (fun c => decide (c.score = v)) := by
  unfold generateAllSchedulesComprehensive at hres
  rcases Option.map_eq_some'.1 hres with ⟨options, hopt, rfl⟩
  exact ⟨options, hopt, List.perm_insertionSort _ _, sortByScore_sorted _,
    fun v => filter_sortByScore v _⟩

/-- Witness for C13: the scenario result (scores 120, 112, 100, 95) is the sorted list of the
four emitted candidates. -/
theorem result_sorted_by_score_stable_witness :
    scenarioResult.map (fun c => c.score) = [120, 112, 100, 95] ∧
      ∃ options, courseOptions (setupCourseUnits scenarioCatalog) (scenarioSettings false)
          = some options ∧
        scenarioResult.Perm (searchSchedules (scenarioSettings false) options) ∧
        scenarioResult.Pairwise (fun a b => a.score ≥ b.score) ∧
        ∀ v : Int, scenarioResult.filter (fun c => decide (c.score = v))
          = (searchSchedules (scenarioSettings false) options).filter
              (fun c => decide (c.score = v)) :=
  ⟨by decide,
   result_sorted_by_score_stable scenarioCatalog (scenarioSettings false) scenarioResult
     (by decide)⟩

/-- Supporting C11, the partition outside the defect: for a catalog whose sections all have
kind Theoretical or Practical and none of whose course codes is an inherited property name,
every section (identified by its catalog position) is in exactly one unit of the mapping
built by
`setupCourseUnits`. The units of the mapping are exactly the units pushed by the loop
iterations (as a permutation, the mapping grouping them by course code); the catalog
positions held by the pushed units, listed unit by unit, are `0, 1, ..., length - 1`, each
once; and each pushed unit holds the catalog sections at its positions. -/
theorem sections_in_exactly_one_unit (catalog : List Section)
    (hcodes : ∀ s ∈ catalog, s.code ∉ inheritedNames)
    (hkind : ∀ s ∈ catalog, s.type = THEORETICAL ∨ s.type = PRACTICAL) :
    (scanCourses 0 none catalog).flatMap iterationPositions = List.range catalog.length ∧
    (∀ it ∈ scanCourses 0 none catalog, ∀ u, it.pushed = some u →
      (iterationPositions it).map (fun j => catalog[j]?) = (unitSections u).map some) ∧
    ((setupCourseUnits catalog).flatMap Prod.snd).Perm
      ((scanCourses 0 none catalog).filterMap (fun it => it.pushed)) := by
  refine ⟨?_, fun it hit u hu => iteration_sections catalog it hit u hu, ?_⟩
  · rw [scanCourses_positions 0 none catalog hkind (fun _ _ _ h => by cases h),
      List.range_eq_range']
  · have := foldl_applyIteration_perm (scanCourses 0 none catalog) [] (by simp)
    rw [setupCourseUnits_eq_foldl catalog hcodes]
    simpa using this

/-- Example of the partition: in the catalog `[Theory(CS101), Practical(CS101), Theory(CS102)]` the
pushed units hold the positions 0, 1, 2. -/
theorem sections_in_exactly_one_unit_witness :
    (scanCourses 0 none pairingCatalog).flatMap iterationPositions = [0, 1, 2] ∧
      (scanCourses 0 none pairingCatalog).flatMap iterationPositions
        = List.range pairingCatalog.length :=
  ⟨by decide, (sections_in_exactly_one_unit pairingCatalog (by decide) (by decide)).1⟩

/-- C14: for every list of units and every day, the gap list `calculateDailyGaps` returns for
that day (present exactly when the day has a session) is `gapsBySpec` of the day's sessions
sorted by start time: in time order, one record per pair of neighbouring sessions with
`next.start - prev.end > 10`, carrying that difference as `gapMinutes`, `prev.endTime` as
`afterTime` and `next.startTime` as `beforeTime`. The sorted list is a permutation of the
day's sessions in non-decreasing start order; every record has `gapMinutes > 10`; each day
has at most one entry (keys ascending). A difference of exactly 10 minutes gives no record, a
difference of 11 minutes gives one. -/
theorem calculateDailyGaps_spec (units : List CourseUnit) (day : Nat) :
    entryOf (calculateDailyGaps units) day =
      (if daySlots units day = [] then none
       else some (gapsBySpec (sortByStart (daySlots units day)))) ∧
    (sortByStart (daySlots units day)).Perm (daySlots units day) ∧
    (sortByStart (daySlots units day)).Pairwise (fun a b => a.start ≤ b.start) ∧
    (∀ gaps, entryOf (calculateDailyGaps units) day = some gaps →
      ∀ g ∈ gaps, g.gapMinutes > 10) ∧
    ((calculateDailyGaps units).map Prod.fst).Pairwise (fun a b => a < b) ∧
    calculateDailyGaps [theoryUnit gapFirst, theoryUnit gapTen] = [(1, [])] ∧
    calculateDailyGaps [theoryUnit gapFirst, theoryUnit gapEleven]
      = [(1, [⟨11, ⟨10, 0⟩, ⟨10, 11⟩⟩])] := by
  have hentry : entryOf (calculateDailyGaps units) day =
      (if daySlots units day = [] then none
       else some (gapsBySpec (sortByStart (daySlots units day)))) := by
    unfold calculateDailyGaps
    rw [entryOf_map (fun slots => gapsBetween (sortByStart slots)), entryOf_dailySchedules]
    split_ifs
    · rfl
    · simp [gapsBetween_eq_gapsBySpec]
  refine ⟨hentry, List.perm_insertionSort _ _, sortByStart_sorted _, ?_, ?_, by decide,
    by decide⟩
  · intro gaps hgaps g hg
    rw [hentry] at hgaps
    split_ifs at hgaps
    cases hgaps
    exact gapsBySpec_gt _ g hg
  · have hsorted := (foldl_addSlot (allSessions units) [] List.Pairwise.nil).1
    unfold calculateDailyGaps dailySchedules
    rw [List.map_map, List.pairwise_map]
    exact hsorted

/-- Witness for C14: with sessions 9:00-10:00 and 10:11-11:00 on day 1, the gap list of day 1
holds one record of 11 minutes, which exceeds 10. -/
theorem calculateDailyGaps_spec_witness :
    entryOf (calculateDailyGaps [theoryUnit gapFirst, theoryUnit gapEleven]) 1
        = some [⟨11, ⟨10, 0⟩, ⟨10, 11⟩⟩] ∧
      (11 : Int) > 10 :=
  ⟨by decide,
   (calculateDailyGaps_spec [theoryUnit gapFirst, theoryUnit gapEleven] 1).2.2.2.1
     [⟨11, ⟨10, 0⟩, ⟨10, 11⟩⟩] (by decide) ⟨11, ⟨10, 0⟩, ⟨10, 11⟩⟩ (by decide)⟩

/-- C17: when `includeClosedSections` is off, every theoretical and practical section of
every unit of every returned candidate has status Open or has its sectionId in the registered
set; when it is on, every course option holds all the units listed for its course in
`courseUnits` (no unit is removed because of its status). -/
theorem closed_section_filter (catalog : List Section) (cfg : Settings) :
    (cfg.includeClosedSections = false →
      ∀ result, generateAllSchedulesComprehensive (setupCourseUnits catalog) cfg = some result →
        ∀ c ∈ result, ∀ u ∈ c.units, ∀ sec : Section,
          (u.theoretical = some sec ∨ u.practical = some sec) →
            sec.status = OPEN ∨ sec.sectionId ∈ cfg.registeredSections) ∧
    (cfg.includeClosedSections = true →
      ∀ options, courseOptions (setupCourseUnits catalog) cfg = some options →
        ∀ o ∈ options, unitsOf (setupCourseUnits catalog) o.code = some o.units) := by
  constructor
  · intro hoff result hres c hc u hu sec hsec
    obtain ⟨code, units, _, _, hmem⟩ :=
      unit_of_result (setupCourseUnits catalog) cfg result hres c hc u hu
    unfold courseOptionOf at hmem
    simp only [hoff, Bool.false_eq_true, if_false] at hmem
    have havail := (List.mem_filter.1 hmem).2
    unfold unitAvailable at havail
    rw [Bool.and_eq_true] at havail
    rcases hsec with h | h
    · have := havail.1
      rw [h] at this
      simpa [sectionOpen] using this
    · have := havail.2
      rw [h] at this
      simpa [sectionOpen] using this
  · intro hon options hopt o ho
    obtain ⟨units, hunits, hoeq⟩ :=
      (courseOptions_inv (setupCourseUnits catalog) cfg options hopt).2 o ho
    rw [hunits]
    conv_rhs => rw [hoeq]
    simp [courseOptionOf, hon]

/-- Witness for C17: with closed sections excluded, the returned schedule holding N has an
open section; with closed sections included (the scenario), the option of course A keeps its
closed unit. -/
theorem closed_section_filter_witness :
    (openN.status = OPEN ∨ openN.sectionId ∈ closedMandatorySettings.registeredSections) ∧
      unitsOf (setupCourseUnits scenarioCatalog) "A"
        = some [theoryUnit scenarioA1, theoryUnit scenarioA2] :=
  ⟨(closed_section_filter [closedM, openN] closedMandatorySettings).1 (by decide)
      [⟨[theoryUnit openN], 3, 120⟩, ⟨[], 0, 100⟩] (by decide) ⟨[theoryUnit openN], 3, 120⟩
      (by decide) (theoryUnit openN) (by decide) openN (Or.inl rfl),
   (closed_section_filter scenarioCatalog (scenarioSettings false)).2 (by decide)
      scenarioOptions (by decide) ⟨"A", [theoryUnit scenarioA1, theoryUnit scenarioA2], false⟩
      (by decide)⟩

/-- C19: every returned candidate holds at most one unit per course code: every unit has a
course code and the course codes of the units of a candidate are pairwise distinct. The
selected courses are a JavaScript `Set`, so their list has no duplicate. -/
theorem one_unit_per_course (catalog : List Section) (cfg : Settings)
    (hset : cfg.selectedCourses.Nodup) (result : List Schedule)
    (hres : generateAllSchedulesComprehensive (setupCourseUnits catalog) cfg = some result)
    (c : Schedule) (hc : c ∈ result) :
    (∀ u ∈ c.units, ∃ code, unitCourseCode u = some code) ∧
      (c.units.map unitCourseCode).Nodup := by
  obtain ⟨options, hopt, hall⟩ := generateAll_sound (setupCourseUnits catalog) cfg result hres
  obtain ⟨base, ext, chosen, hbase, hsub, hext, hs⟩ := hall c hc
  obtain ⟨hcodes, hinv⟩ := courseOptions_inv (setupCourseUnits catalog) cfg options hopt
  have hcode : ∀ o ∈ options, ∀ u ∈ o.units, unitCourseCode u = some o.code := by
    intro o ho u hu
    obtain ⟨units, hunits, hoeq⟩ := hinv o ho
    rw [hoeq] at hu
    exact unitCourseCode_of_setupCourseUnits catalog o.code units hunits u
      (courseOptionOf_units_subset cfg o.code units u hu)
  have hall2 : List.Forall₂ (fun (o : CourseOption) (u : CourseUnit) => u ∈ o.units)
      (options.filter (fun opt => opt.isMandatory) ++ chosen) (base ++ ext) :=
    List.rel_append hbase hext
  have hsubset : ∀ o ∈ options.filter (fun opt => opt.isMandatory) ++ chosen, o ∈ options := by
    intro o ho
    rcases List.mem_append.1 ho with h | h
    · exact (List.mem_filter.1 h).1
    · exact (List.mem_filter.1 (hsub.subset h)).1
  have hmap := forall2_map_code _ _ hall2 (fun o ho => hcode o (hsubset o ho))
  have hnd : ((options.filter (fun opt => opt.isMandatory) ++ chosen).map
      (fun o => o.code)).Nodup := by
    have h1 : (options.map (fun o => o.code)).Nodup := hset.sublist hcodes
    have h2 : (options.filter (fun opt => opt.isMandatory)
        ++ options.filter (fun opt => !opt.isMandatory)).Perm options :=
      List.filter_append_perm _ _
    have h3 : ((options.filter (fun opt => opt.isMandatory)
        ++ options.filter (fun opt => !opt.isMandatory)).map (fun o => o.code)).Nodup :=
      (h2.map _).nodup_iff.2 h1
    exact h3.sublist (((List.Sublist.refl _).append hsub).map _)
  rw [hs]
  constructor
  · intro u hu
    obtain ⟨o, ho, huo⟩ := forall2_exists_option _ _ hall2 u hu
    exact ⟨o.code, hcode o (hsubset o ho) u huo⟩
  · simp only
    rw [hmap]
    have : (options.filter (fun opt => opt.isMandatory) ++ chosen).map (fun o => some o.code)
        = ((options.filter (fun opt => opt.isMandatory) ++ chosen).map
            (fun o => o.code)).map some := by
      rw [List.map_map]; rfl
    rw [this]
    exact hnd.map (Option.some_injective _)

/-- Witness for C19: the returned scenario candidate made of A2 and B has the distinct course
codes A and B. -/
theorem one_unit_per_course_witness :
    [theoryUnit scenarioA2, theoryUnit scenarioB].map unitCourseCode = [some "A", some "B"] ∧
      ([theoryUnit scenarioA2, theoryUnit scenarioB].map unitCourseCode).Nodup :=
  ⟨by decide,
   (one_unit_per_course scenarioCatalog (scenarioSettings false) (by decide) scenarioResult
     (by decide) ⟨[theoryUnit scenarioA2, theoryUnit scenarioB], 6, 112⟩ (by decide)).2⟩

/-- C18 (counterexample): with closed sections not included, the registered set does filter.
Course M has only a closed section (401). With no registered section the returned unit
sequences are `[N]` and the empty one; with 401 registered, M's unit passes the filter and
the returned sequences are `[M]` and the empty one (N conflicts with M). -/
theorem registered_set_filters_closed_sections :
    (generateAllSchedulesComprehensive (setupCourseUnits [closedM, openN])
        (closedFilterSettings [])).map (fun result => result.map (fun c => c.units))
      = some [[theoryUnit openN], []] ∧
    (generateAllSchedulesComprehensive (setupCourseUnits [closedM, openN])
        (closedFilterSettings ["401"])).map (fun result => result.map (fun c => c.units))
      = some [[theoryUnit closedM], []] ∧
    ¬ ([[theoryUnit closedM], []] : List (List CourseUnit)).Perm [[theoryUnit openN], []] := by
  refine ⟨by decide, by decide, ?_⟩
  intro h
  exact absurd (h.mem_iff.1 (by decide : [theoryUnit closedM] ∈ [[theoryUnit closedM], []]))
    (by decide)

/-- C18 (amended): when `includeClosedSections` is on, the registered-section set is used
only for scoring: for any two registered sets and otherwise identical catalog and settings,
`generateAllSchedulesComprehensive` fails for both or for neither, and the returned lists
hold the same collection of unit sequences with the same credit totals (a permutation; only
scores and the resulting order may differ). -/
theorem registered_set_only_scores (catalog : List Section) (cfg : Settings)
    (registered2 : List String) (hincl : cfg.includeClosedSections = true) :
    (generateAllSchedulesComprehensive (setupCourseUnits catalog) cfg).isSome
      = (generateAllSchedulesComprehensive (setupCourseUnits catalog)
          (withRegistered cfg registered2)).isSome ∧
    ∀ result1 result2,
      generateAllSchedulesComprehensive (setupCourseUnits catalog) cfg = some result1 →
      generateAllSchedulesComprehensive (setupCourseUnits catalog)
        (withRegistered cfg registered2) = some result2 →
      (result2.map (fun c => c.units)).Perm (result1.map (fun c => c.units)) ∧
        (result2.map unitsAndCredits).Perm (result1.map unitsAndCredits) := by
  unfold generateAllSchedulesComprehensive
  rw [courseOptions_indep (setupCourseUnits catalog) cfg registered2 hincl]
  cases hopt : courseOptions (setupCourseUnits catalog) cfg with
  | none => exact ⟨rfl, fun _ _ h => by simp at h⟩
  | some options =>
    refine ⟨rfl, ?_⟩
    intro result1 result2 h1 h2
    simp only [Option.map_some', Option.some.injEq] at h1 h2
    subst h1
    subst h2
    have hperm : ((sortByScore (searchSchedules (withRegistered cfg registered2) options)).map
        unitsAndCredits).Perm ((sortByScore (searchSchedules cfg options)).map
          unitsAndCredits) := by
      refine ((List.perm_insertionSort _ _).map _).trans ?_
      rw [← searchSchedules_indep cfg registered2 options]
      exact ((List.perm_insertionSort _ _).map _).symm
    refine ⟨?_, hperm⟩
    have := hperm.map Prod.fst
    simpa [List.map_map, Function.comp, unitsAndCredits] using this

/-- Witness for C18 (amended): in the scenario (closed sections included), registering
section 102 changes scores and order but not the collection of unit sequences. -/
theorem registered_set_only_scores_witness :
    (scenarioResultRegistered.map (fun c => c.units)).Perm
      (scenarioResult.map (fun c => c.units)) :=
  ((registered_set_only_scores scenarioCatalog (scenarioSettings false) ["102"]
    (by decide)).2 scenarioResult scenarioResultRegistered (by decide) (by decide)).1

/-- C27: when `allowPartialSchedules` is off, every returned candidate is a mandatory base
(one unit of each mandatory course option, an element of `generateMandatoryCombinations`)
followed by exactly one unit from each of the first `k` optional course options, in their
order, for some `k` between 0 and the number of optional course options. -/
theorem candidates_without_partial (catalog : List Section) (cfg : Settings)
    (hpart : cfg.allowPartialSchedules = false) (result : List Schedule)
    (hres : generateAllSchedulesComprehensive (setupCourseUnits catalog) cfg = some result)
    (c : Schedule) (hc : c ∈ result) :
    ∃ options, courseOptions (setupCourseUnits catalog) cfg = some options ∧
      ∃ (b : MandatorySchedule) (k : Nat) (ext : List CourseUnit),
        b ∈ generateMandatoryCombinations cfg.selectedDays
          (options.filter (fun opt => opt.isMandatory)) ∧
        List.Forall₂ (fun (o : CourseOption) (u : CourseUnit) => u ∈ o.units)
          (options.filter (fun opt => opt.isMandatory)) b.units ∧
        k ≤ (options.filter (fun opt => !opt.isMandatory)).length ∧
        List.Forall₂ (fun (o : CourseOption) (u : CourseUnit) => u ∈ o.units)
          ((options.filter (fun opt => !opt.isMandatory)).take k) ext ∧
        c.units = b.units ++ ext := by
  unfold generateAllSchedulesComprehensive at hres
  rcases Option.map_eq_some'.1 hres with ⟨options, hopt, rfl⟩
  obtain ⟨b, k, ext, hb, hk, hext, hu⟩ :=
    searchSchedules_sound_take cfg hpart options c ((mem_sortByScore _ c).1 hc)
  exact ⟨options, hopt, b, k, ext, hb,
    (generateMandatoryCombinations_sound _ _ b hb).1, hk, hext, hu⟩

/-- Witness for C27: the scenario with partial schedules off; the candidate made of A2 and B
takes one unit of each of the two optional courses. -/
theorem candidates_without_partial_witness :
    ∃ options, courseOptions (setupCourseUnits scenarioCatalog) (scenarioSettings false)
        = some options ∧
      ∃ (b : MandatorySchedule) (k : Nat) (ext : List CourseUnit),
        b ∈ generateMandatoryCombinations (scenarioSettings false).selectedDays
          (options.filter (fun opt => opt.isMandatory)) ∧
        List.Forall₂ (fun (o : CourseOption) (u : CourseUnit) => u ∈ o.units)
          (options.filter (fun opt => opt.isMandatory)) b.units ∧
        k ≤ (options.filter (fun opt => !opt.isMandatory)).length ∧
        List.Forall₂ (fun (o : CourseOption) (u : CourseUnit) => u ∈ o.units)
          ((options.filter (fun opt => !opt.isMandatory)).take k) ext ∧
        [theoryUnit scenarioA2, theoryUnit scenarioB] = b.units ++ ext :=
  candidates_without_partial scenarioCatalog (scenarioSettings false) (by decide)
    scenarioResult (by decide) ⟨[theoryUnit scenarioA2, theoryUnit scenarioB], 6, 112⟩
    (by decide)

/-- C21: for every catalog and course code, the units `setupCourseUnits` lists under the code
are in increasing order of the catalog position of their first section (there is a strictly
increasing list of positions, one per unit in order, each holding the first section of its
unit), and every section of those units has that course code. -/
theorem units_in_catalog_order (catalog : List Section) (code : String)
    (us : List CourseUnit) (hus : unitsOf (setupCourseUnits catalog) code = some us) :
    (∃ positions : List Nat,
      positions.Pairwise (fun a b => a < b) ∧
      List.Forall₂ (fun (u : CourseUnit) (pos : Nat) =>
        ∃ sec, catalog[pos]? = some sec ∧ (unitSections u).head? = some sec) us positions) ∧
    ∀ u ∈ us, ∀ sec ∈ unitSections u, sec.code = code := by
  refine ⟨?_, fun u hu => section_code_of_setupCourseUnits catalog code us hus u hu⟩
  have hus2 : us = pushedUnder code (effectiveIterations (scanCourses 0 none catalog)) := by
    rw [unitsOf_setupCourseUnits] at hus
    split_ifs at hus
    exact (Option.some.inj hus).symm
  have hsub : (((effectiveIterations (scanCourses 0 none catalog)).filter
      (fun it => decide (it.courseCode = code))).filter (fun it => it.pushed.isSome)).Sublist
      (scanCourses 0 none catalog) :=
    ((List.filter_sublist _).trans (List.filter_sublist _)).trans
      (effectiveIterations_sublist _)
  refine ⟨(((effectiveIterations (scanCourses 0 none catalog)).filter
      (fun it => decide (it.courseCode = code))).filter
        (fun it => it.pushed.isSome)).map (fun it => it.index), ?_, ?_⟩
  · rw [List.pairwise_map]
    exact (scanCourses_index_lt 0 none catalog).sublist hsub
  · apply forall2_of_map_pushed
    · rw [map_pushed_filter, hus2]
      rfl
    · intro it hit u hpush
      exact iteration_first_section catalog it (hsub.subset hit) u hpush

/-- Witness for C21: in the scenario catalog the two units of course A are listed in catalog
order and their sections have code A. -/
theorem units_in_catalog_order_witness :
    unitsOf (setupCourseUnits scenarioCatalog) "A"
        = some [theoryUnit scenarioA1, theoryUnit scenarioA2] ∧
      (∃ positions : List Nat,
        positions.Pairwise (fun a b => a < b) ∧
        List.Forall₂ (fun (u : CourseUnit) (pos : Nat) =>
          ∃ sec, scenarioCatalog[pos]? = some sec ∧ (unitSections u).head? = some sec)
          [theoryUnit scenarioA1, theoryUnit scenarioA2] positions) ∧
      ∀ u ∈ [theoryUnit scenarioA1, theoryUnit scenarioA2], ∀ sec ∈ unitSections u,
        sec.code = "A" :=
  ⟨by decide,
   units_in_catalog_order scenarioCatalog "A" [theoryUnit scenarioA1, theoryUnit scenarioA2]
     (by decide)⟩

/-- C23: `generateSchedules` reports a validation error and runs no search when no course is
selected, when no day is selected, or when some mandatory course code is not among the
selected courses; in every other case it proceeds to the search. -/
theorem generateSchedules_validation (courseUnits : CourseUnits) (cfg : Settings) :
    (cfg.selectedCourses = [] →
      generateSchedules courseUnits cfg = GenerateOutcome.noCourseSelected) ∧
    (cfg.selectedCourses ≠ [] → cfg.selectedDays = [] →
      generateSchedules courseUnits cfg = GenerateOutcome.noDaySelected) ∧
    (cfg.selectedCourses ≠ [] → cfg.selectedDays ≠ [] →
      (∃ m ∈ cfg.mandatoryCourses, m ∉ cfg.selectedCourses) →
      generateSchedules courseUnits cfg = GenerateOutcome.missingMandatory (missingMandatory cfg)
        ∧ missingMandatory cfg ≠ []) ∧
    (cfg.selectedCourses ≠ [] → cfg.selectedDays ≠ [] →
      (∀ m ∈ cfg.mandatoryCourses, m ∈ cfg.selectedCourses) →
      generateSchedules courseUnits cfg
        = GenerateOutcome.search (generateAllSchedulesComprehensive courseUnits cfg)) ∧
    ((∃ schedules, generateSchedules courseUnits cfg = GenerateOutcome.search schedules) ↔
      cfg.selectedCourses ≠ [] ∧ cfg.selectedDays ≠ [] ∧
        ∀ m ∈ cfg.mandatoryCourses, m ∈ cfg.selectedCourses) := by
  have hmiss : missingMandatory cfg = [] ↔ ∀ m ∈ cfg.mandatoryCourses, m ∈ cfg.selectedCourses := by
    unfold missingMandatory
    rw [List.filter_eq_nil_iff]
    simp
  have h1 : cfg.selectedCourses = [] →
      generateSchedules courseUnits cfg = GenerateOutcome.noCourseSelected := by
    intro h
    simp [generateSchedules, h]
  have h2 : cfg.selectedCourses ≠ [] → cfg.selectedDays = [] →
      generateSchedules courseUnits cfg = GenerateOutcome.noDaySelected := by
    intro hs hd
    simp [generateSchedules, hs, hd]
  have h3 : cfg.selectedCourses ≠ [] → cfg.selectedDays ≠ [] →
      (∃ m ∈ cfg.mandatoryCourses, m ∉ cfg.selectedCourses) →
      generateSchedules courseUnits cfg = GenerateOutcome.missingMandatory (missingMandatory cfg)
        ∧ missingMandatory cfg ≠ [] := by
    intro hs hd ⟨m, hm, hnot⟩
    have hne : missingMandatory cfg ≠ [] := by
      intro h
      exact hnot ((hmiss.1 h) m hm)
    have hman : cfg.mandatoryCourses ≠ [] := List.ne_nil_of_mem hm
    refine ⟨?_, hne⟩
    unfold generateSchedules
    rw [if_neg (by simpa using hs), if_neg (by simpa using hd),
      if_pos ⟨List.length_pos.2 hman, List.length_pos.2 hne⟩]
  have h4 : cfg.selectedCourses ≠ [] → cfg.selectedDays ≠ [] →
      (∀ m ∈ cfg.mandatoryCourses, m ∈ cfg.selectedCourses) →
      generateSchedules courseUnits cfg
        = GenerateOutcome.search (generateAllSchedulesComprehensive courseUnits cfg) := by
    intro hs hd hall
    have hnil := hmiss.2 hall
    unfold generateSchedules
    rw [if_neg (by simpa using hs), if_neg (by simpa using hd), if_neg (by simp [hnil])]
  refine ⟨h1, h2, h3, h4, ?_⟩
  constructor
  · rintro ⟨schedules, hsch⟩
    by_cases hs : cfg.selectedCourses = []
    · rw [h1 hs] at hsch; cases hsch
    · by_cases hd : cfg.selectedDays = []
      · rw [h2 hs hd] at hsch; cases hsch
      · refine ⟨hs, hd, ?_⟩
        by_contra hcon
        push_neg at hcon
        rw [(h3 hs hd hcon).1] at hsch
        cases hsch
  · rintro ⟨hs, hd, hall⟩
    exact ⟨_, h4 hs hd hall⟩

/-- Witness for C23: with no course selected a validation error is reported; the scenario
settings proceed to the search. -/
theorem generateSchedules_validation_witness :
    generateSchedules (setupCourseUnits scenarioCatalog)
        ⟨0, 99, 0, true, false, [1, 2, 3, 4, 5], [], [], []⟩
      = GenerateOutcome.noCourseSelected ∧
    generateSchedules (setupCourseUnits scenarioCatalog) (scenarioSettings false)
      = GenerateOutcome.search (generateAllSchedulesComprehensive
          (setupCourseUnits scenarioCatalog) (scenarioSettings false)) :=
  ⟨(generateSchedules_validation (setupCourseUnits scenarioCatalog)
      ⟨0, 99, 0, true, false, [1, 2, 3, 4, 5], [], [], []⟩).1 rfl,
   (generateSchedules_validation (setupCourseUnits scenarioCatalog)
      (scenarioSettings false)).2.2.2.1 (by decide) (by decide) (by decide)⟩

/-- C30: starting from both sets empty, after any sequence of `toggleCourse`,
`toggleMandatory`, `selectAllCourses` and `deselectAllCourses` every mandatory course code is
also a selected course code. -/
theorem mandatory_subset_selected (courseUnits : CourseUnits)
    (actions : List SelectionAction) :
    ∀ m ∈ (runActions courseUnits actions).mandatoryCourses,
      m ∈ (runActions courseUnits actions).selectedCourses :=
  foldl_applyAction_invariant courseUnits actions initialSelection
    (fun m hm => by simp [initialSelection] at hm)

/-- Witness for C30: marking B mandatory selects it; deselecting B then removes it from the
mandatory set as well. -/
theorem mandatory_subset_selected_witness :
    runActions (setupCourseUnits scenarioCatalog)
        [SelectionAction.toggleCourse "A", SelectionAction.toggleMandatory "B"]
      = ⟨["A", "B"], ["B"]⟩ ∧
    runActions (setupCourseUnits scenarioCatalog)
        [SelectionAction.toggleCourse "A", SelectionAction.toggleMandatory "B",
          SelectionAction.toggleCourse "B"]
      = ⟨["A"], []⟩ ∧
    "B" ∈ (runActions (setupCourseUnits scenarioCatalog)
        [SelectionAction.toggleCourse "A", SelectionAction.toggleMandatory "B"]).selectedCourses :=
  ⟨by decide, by decide,
   mandatory_subset_selected (setupCourseUnits scenarioCatalog)
     [SelectionAction.toggleCourse "A", SelectionAction.toggleMandatory "B"] "B" (by decide)⟩

/-- C22: if all unit credits of the selected courses are non-negative and `minCredits`
exceeds the total obtained by taking the highest-credit unit of each selected course (in
particular when it exceeds the sum of all their credits), `generateAllSchedulesComprehensive`
returns the empty list and does not fail. Every selected code is taken to be a key of
`courseUnits`, as the selection page guarantees. -/
theorem unreachable_minCredits_yields_empty (catalog : List Section) (cfg : Settings)
    (hkeys : ∀ code ∈ cfg.selectedCourses,
      (unitsOf (setupCourseUnits catalog) code).isSome = true)
    (hnonneg : ∀ code ∈ cfg.selectedCourses, ∀ units,
      unitsOf (setupCourseUnits catalog) code = some units → ∀ u ∈ units, 0 ≤ u.totalCredits) :
    (bestTotal (setupCourseUnits catalog) cfg.selectedCourses < cfg.minCredits →
      generateAllSchedulesComprehensive (setupCourseUnits catalog) cfg = some []) ∧
    (allCreditsTotal (setupCourseUnits catalog) cfg.selectedCourses < cfg.minCredits →
      generateAllSchedulesComprehensive (setupCourseUnits catalog) cfg = some []) := by
  constructor
  · exact generateAll_eq_nil_of_bestTotal_lt _ cfg hkeys hnonneg
  · intro h
    have := bestTotal_le_allCreditsTotal (setupCourseUnits catalog) cfg.selectedCourses hnonneg
    exact generateAll_eq_nil_of_bestTotal_lt _ cfg hkeys hnonneg (by omega)

/-- Witness for C22: in the scenario the best total is 3 + 3 = 6; with `minCredits = 7` the
search returns the empty list. -/
theorem unreachable_minCredits_yields_empty_witness :
    bestTotal (setupCourseUnits scenarioCatalog) ["A", "B"] = 6 ∧
      generateAllSchedulesComprehensive (setupCourseUnits scenarioCatalog)
        ⟨7, 99, 0, true, true, [1, 2, 3, 4, 5], ["A", "B"], [], []⟩ = some [] :=
  ⟨by decide,
   (unreachable_minCredits_yields_empty scenarioCatalog
     ⟨7, 99, 0, true, true, [1, 2, 3, 4, 5], ["A", "B"], [], []⟩ (by decide) (by decide)).1
     (by decide)⟩

/-- C25: the result cap is a hard stop on the search order. For every input and every
`N > 0`, the course options do not depend on `maxResults`, and the sequence of candidates
emitted before sorting with `maxResults = N` is the list of the first `N` elements of the
sequence emitted with `maxResults = 0`; its length is `min(N, M)` for `M` the length of the
latter. -/
theorem cap_is_hard_stop (catalog : List Section) (cfg : Settings) (N : Nat) (hN : 0 < N) :
    courseOptions (setupCourseUnits catalog) (withMaxResults cfg (N : Int))
      = courseOptions (setupCourseUnits catalog) (withMaxResults cfg 0) ∧
    ∀ options, courseOptions (setupCourseUnits catalog) (withMaxResults cfg 0) = some options →
      searchSchedules (withMaxResults cfg (N : Int)) options
        = (searchSchedules (withMaxResults cfg 0) options).take N ∧
      (searchSchedules (withMaxResults cfg (N : Int)) options).length
        = min N (searchSchedules (withMaxResults cfg 0) options).length := by
  refine ⟨courseOptions_withMaxResults _ cfg _ _, fun options _ => ?_⟩
  have h := searchSchedules_capped cfg N hN options
  exact ⟨h, by rw [h, List.length_take]⟩

/-- Witness for C25: in the scenario, the two candidates emitted under `maxResults = 2` are
the first two of the four emitted without a cap. -/
theorem cap_is_hard_stop_witness :
    (searchSchedules (withMaxResults (scenarioSettings false) 0) scenarioOptions).map
        (fun c => c.units)
      = [[], [theoryUnit scenarioA1], [theoryUnit scenarioA2],
          [theoryUnit scenarioA2, theoryUnit scenarioB]] ∧
    searchSchedules (withMaxResults (scenarioSettings false) ((2 : Nat) : Int)) scenarioOptions
      = (searchSchedules (withMaxResults (scenarioSettings false) 0) scenarioOptions).take 2 :=
  ⟨by decide,
   ((cap_is_hard_stop scenarioCatalog (scenarioSettings false) 2 (by decide)).2
     scenarioOptions (by decide)).1⟩

/-- C29: for every list of units in which no two units have overlapping sessions (which is
the case whenever the sessions of the list are pairwise non-overlapping) and every session
has startTime < endTime, and for every reordering of the list, `calculateDailyGaps` yields
the same days with the same gap records and `calculateScheduleScore` the same value. -/
theorem gaps_and_score_permutation_invariant (registeredSections : List String)
    (units reordered : List CourseUnit) (hperm : units.Perm reordered)
    (hconf : units.Pairwise
      (fun u v => hasTimeConflict (unitSessions u) (unitSessions v) = false))
    (htime : ∀ s ∈ allSessions units, timeToMinutes s.startTime < timeToMinutes s.endTime) :
    calculateDailyGaps reordered = calculateDailyGaps units ∧
    calculateScheduleScore registeredSections reordered
      = calculateScheduleScore registeredSections units :=
  ⟨calculateDailyGaps_perm units reordered hperm hconf htime,
   calculateScheduleScore_perm registeredSections units reordered hperm
     (calculateDailyGaps_perm units reordered hperm hconf htime)⟩

/-- Witness for C29: the sessions 9:00-10:00 and 10:11-11:00 of day 1 give the same gap record
and the same score in either order of their units. -/
theorem gaps_and_score_permutation_invariant_witness :
    calculateDailyGaps [theoryUnit gapEleven, theoryUnit gapFirst]
        = calculateDailyGaps [theoryUnit gapFirst, theoryUnit gapEleven] ∧
      calculateScheduleScore [] [theoryUnit gapEleven, theoryUnit gapFirst]
        = calculateScheduleScore [] [theoryUnit gapFirst, theoryUnit gapEleven] :=
  gaps_and_score_permutation_invariant [] [theoryUnit gapFirst, theoryUnit gapEleven]
    [theoryUnit gapEleven, theoryUnit gapFirst] (List.Perm.swap _ _ _) (by decide) (by decide)

/-- C24, counterexample: course V has a theoretical section on day 1 from 9:00 to 10:00
followed in the catalog by its practical section on day 1 from 9:30 to 10:30, which
`setupCourseUnits` joins into one unit. With V optional, `generateCombinations` is called
with that unit as the current partial schedule; with V mandatory, `generate` is. The two
sessions of that partial schedule overlap; no candidate holds it. -/
theorem search_holds_self_overlapping_unit :
    unitsOf (setupCourseUnits [overlapTheory, overlapPractical]) "V"
      = some [combinedUnit overlapTheory overlapPractical] ∧
    courseOptions (setupCourseUnits [overlapTheory, overlapPractical]) (overlapSettings [])
      = some [⟨"V", [combinedUnit overlapTheory overlapPractical], false⟩] ∧
    searchCalls (overlapSettings [])
        [⟨"V", [combinedUnit overlapTheory overlapPractical], false⟩]
      = [[], [combinedUnit overlapTheory overlapPractical]] ∧
    courseOptions (setupCourseUnits [overlapTheory, overlapPractical]) (overlapSettings ["V"])
      = some [⟨"V", [combinedUnit overlapTheory overlapPractical], true⟩] ∧
    searchCalls (overlapSettings ["V"])
        [⟨"V", [combinedUnit overlapTheory overlapPractical], true⟩]
      = [[], [combinedUnit overlapTheory overlapPractical]] ∧
    allSessions [combinedUnit overlapTheory overlapPractical]
      = [⟨1, ⟨9, 0⟩, ⟨10, 0⟩, "R1"⟩, ⟨1, ⟨9, 30⟩, ⟨10, 30⟩, "Lab"⟩] ∧
    sessionsOverlap ⟨1, ⟨9, 0⟩, ⟨10, 0⟩, "R1"⟩ ⟨1, ⟨9, 30⟩, ⟨10, 30⟩, "Lab"⟩ = true ∧
    noPairConflict (allSessions [combinedUnit overlapTheory overlapPractical]) = false ∧
    generateAllSchedulesComprehensive (setupCourseUnits [overlapTheory, overlapPractical])
        (overlapSettings []) = some [⟨[], 0, 100⟩] := by
  refine ⟨by decide, by decide, by decide, by decide, by decide, by decide, by decide,
    by decide, by decide⟩

/-- C24, amended: at every call of `generate` and of `generateCombinations`, no two different
units of the current partial schedule have overlapping sessions, and every unit of it is a
unit of a course option; hence when no unit of the course options has two overlapping
sessions of its own, the sessions of the current partial schedule are pairwise
non-overlapping. -/
theorem partial_schedules_conflict_free (cfg : Settings) (options : List CourseOption)
    (currentSchedule : List CourseUnit) (hcall : currentSchedule ∈ searchCalls cfg options) :
    currentSchedule.Pairwise
        (fun a b => hasTimeConflict (unitSessions a) (unitSessions b) = false) ∧
    (∀ u ∈ currentSchedule, ∃ o ∈ options, u ∈ o.units) ∧
    ((∀ o ∈ options, ∀ u ∈ o.units, noPairConflict (unitSessions u) = true) →
      (allSessions currentSchedule).Pairwise (fun s t => sessionsOverlap s t = false)) := by
  have h := searchCalls_forall cfg (fun u => ∃ o ∈ options, u ∈ o.units) options
    (fun o ho u hu => ⟨o, ho, hu⟩) currentSchedule hcall
  refine ⟨h.1, h.2, fun hself => ?_⟩
  rw [← noPairConflict_iff]
  apply noPairConflict_of_units currentSchedule h.1
  intro u hu
  obtain ⟨o, ho, huo⟩ := h.2 u hu
  exact hself o ho u huo

/-- Witness for C24: in the scenario the search calls `generateCombinations` with the partial
schedule `[A2, B]`, whose two sessions (11:00-12:00 and 9:30-10:30) do not overlap. -/
theorem partial_schedules_conflict_free_witness :
    [theoryUnit scenarioA2, theoryUnit scenarioB]
        ∈ searchCalls (scenarioSettings false) scenarioOptions ∧
      (allSessions [theoryUnit scenarioA2, theoryUnit scenarioB]).Pairwise
        (fun s t => sessionsOverlap s t = false) :=
  ⟨by decide,
   (partial_schedules_conflict_free (scenarioSettings false) scenarioOptions
     [theoryUnit scenarioA2, theoryUnit scenarioB] (by decide)).2.2 (by decide)⟩

/-- C26, counterexample: in the scenario with `allowPartialSchedules` on, the result holds
nine candidates; the sequence `[A1]` is returned twice, `[A2]` twice and the empty sequence
three times. The catalog has no repeated record. -/
theorem partial_schedules_repeat_candidates :
    (generateAllSchedulesComprehensive (setupCourseUnits scenarioCatalog)
        (scenarioSettings true)).map (fun result => result.map (fun c => c.units))
      = some [[theoryUnit scenarioA1], [theoryUnit scenarioA1], [theoryUnit scenarioB],
          [theoryUnit scenarioA2, theoryUnit scenarioB], [], [], [],
          [theoryUnit scenarioA2], [theoryUnit scenarioA2]] ∧
    ¬ [[theoryUnit scenarioA1], [theoryUnit scenarioA1], [theoryUnit scenarioB],
          [theoryUnit scenarioA2, theoryUnit scenarioB], [], [], [],
          [theoryUnit scenarioA2], [theoryUnit scenarioA2]].Nodup ∧
    scenarioCatalog.Nodup := by
  refine ⟨by decide, by decide, by decide⟩

/-- C26, amended: when `allowPartialSchedules` is off and the catalog holds no two identical
section records, no two candidates returned by `generateAllSchedulesComprehensive` consist
of the same sequence of units. -/
theorem no_duplicate_candidates (catalog : List Section) (cfg : Settings)
    (result : List Schedule) (hcatalog : catalog.Nodup)
    (hpart : cfg.allowPartialSchedules = false)
    (hres : generateAllSchedulesComprehensive (setupCourseUnits catalog) cfg = some result) :
    (result.map (fun c => c.units)).Nodup := by
  unfold generateAllSchedulesComprehensive at hres
  rcases Option.map_eq_some'.1 hres with ⟨options, hopt, rfl⟩
  have hn := searchSchedules_nodup cfg hpart options
    (option_units_nodup catalog hcatalog cfg options hopt)
  have hperm : (sortByScore (searchSchedules cfg options)).Perm (searchSchedules cfg options) :=
    List.perm_insertionSort _ _
  exact ((hperm.map (fun c : Schedule => c.units)).nodup_iff).2 hn

/-- Witness for C26: the four candidates of the scenario with `allowPartialSchedules` off
are four different sequences of units. -/
theorem no_duplicate_candidates_witness :
    generateAllSchedulesComprehensive (setupCourseUnits scenarioCatalog)
        (scenarioSettings false) = some scenarioResult ∧
      (scenarioResult.map (fun c => c.units)).Nodup :=
  ⟨by decide,
   no_duplicate_candidates scenarioCatalog (scenarioSettings false) scenarioResult
     (by decide) rfl (by decide)⟩

/-- C28, counterexample: courses P (2^53 credit hours) and Q (1 credit hour) are both
mandatory. The only candidate holds both units; its `totalCredits` is 9007199254740992, the
double nearest to the sum, while the sum of the `totalCredits` of its units is
9007199254740993. -/
theorem totalCredits_is_rounded :
    generateAllSchedulesComprehensiveNum (setupCourseUnits [hugeP, smallQ]) hugeSettings
      = some [⟨[theoryUnit hugeP, theoryUnit smallQ], JsNum.finite 9007199254740992, 140⟩] ∧
    ([theoryUnit hugeP, theoryUnit smallQ].map (fun unit => unit.totalCredits)).sum
      = 9007199254740993 ∧
    (9007199254740992 : Int) ≠ 9007199254740993 := by
  refine ⟨by decide, by decide, by decide⟩

/-- C28, amended: for every returned candidate, `totalCredits` is the sum of the
`totalCredits` of its units as JavaScript adds them, unit by unit from 0 with every partial
sum rounded to a double, and `score` is `calculateScheduleScore` applied to its units; when
the absolute values of the `totalCredits` of its units add up to less than 2^53,
`totalCredits` is the exact sum. -/
theorem candidate_fields (catalog : List Section) (cfg : Settings)
    (result : List NumSchedule)
    (hres : generateAllSchedulesComprehensiveNum (setupCourseUnits catalog) cfg = some result)
    (c : NumSchedule) (hc : c ∈ result) :
    c.totalCredits = jsSum c.units ∧
      c.score = calculateScheduleScore cfg.registeredSections c.units ∧
      ((c.units.map (fun unit => unit.totalCredits.natAbs)).sum < 2 ^ 53 →
        c.totalCredits = JsNum.finite (c.units.map (fun unit => unit.totalCredits)).sum) := by
  unfold generateAllSchedulesComprehensiveNum at hres
  rcases Option.map_eq_some'.1 hres with ⟨options, _, rfl⟩
  have hmem : c ∈ searchSchedulesNum cfg options :=
    (List.perm_insertionSort _ _).mem_iff.1 hc
  obtain ⟨h1, h2⟩ := searchSchedulesNum_fields cfg options c hmem
  refine ⟨h1, h2, fun hsafe => ?_⟩
  rw [h1]
  exact jsSum_exact c.units hsafe

/-- Witness for C28: the scenario candidate made of A2 and B has 3 + 3 = 6 credits and the
score 112 computed by `calculateScheduleScore`. -/
theorem candidate_fields_witness :
    generateAllSchedulesComprehensiveNum (setupCourseUnits scenarioCatalog)
        (scenarioSettings false) = some (scenarioResult.map toNumSchedule) ∧
      JsNum.finite 6 = JsNum.finite ([theoryUnit scenarioA2, theoryUnit scenarioB].map
        (fun unit => unit.totalCredits)).sum ∧
      (112 : Int) = calculateScheduleScore (scenarioSettings false).registeredSections
        [theoryUnit scenarioA2, theoryUnit scenarioB] :=
  ⟨by decide,
   (candidate_fields scenarioCatalog (scenarioSettings false)
      (scenarioResult.map toNumSchedule) (by decide)
      ⟨[theoryUnit scenarioA2, theoryUnit scenarioB], JsNum.finite 6, 112⟩
      (by decide)).2.2 (by decide),
   (candidate_fields scenarioCatalog (scenarioSettings false)
      (scenarioResult.map toNumSchedule) (by decide)
      ⟨[theoryUnit scenarioA2, theoryUnit scenarioB], JsNum.finite 6, 112⟩
      (by decide)).2.1⟩

/-- C10: the catalog holds a Theoretical section with the course code `constructor`
immediately followed by a Practical section with the same code. The loop iteration at
position 0 is the one that pushes their combined unit, but `courseUnits["constructor"]` is
the inherited function, so no key is created and the push throws a `TypeError`:
`setupCourseUnits` ends by throwing and the mapping holds no unit at all. -/
theorem pairing_throws_on_inherited_code :
    inheritedTheory.type = THEORETICAL ∧ inheritedPractical.type = PRACTICAL ∧
    inheritedPractical.code = inheritedTheory.code ∧
    scanCourses 0 none [inheritedTheory, inheritedPractical]
      = [⟨0, "constructor", some (combinedUnit inheritedTheory inheritedPractical)⟩] ∧
    setupCourseUnitsThrows [inheritedTheory, inheritedPractical] = true ∧
    setupCourseUnits [inheritedTheory, inheritedPractical] = [] ∧
    unitsOf (setupCourseUnits [inheritedTheory, inheritedPractical]) "constructor" = none := by
  refine ⟨by decide, by decide, by decide, by decide, by decide, by decide, by decide⟩

/-- C11: in the catalog `[Theory(CS101), Theory(constructor), Theory(CS102)]`, whose sections
are all Theoretical, the loop throws a `TypeError` at position 1; the mapping then holds the
unit of the first section only, so the sections at positions 1 and 2 are in no unit. -/
theorem sections_dropped_after_inherited_code :
    (∀ s ∈ [cs101Theory, inheritedTheory, cs102Theory],
      s.type = THEORETICAL ∨ s.type = PRACTICAL) ∧
    setupCourseUnitsThrows [cs101Theory, inheritedTheory, cs102Theory] = true ∧
    setupCourseUnits [cs101Theory, inheritedTheory, cs102Theory]
      = [("CS101", [theoryUnit cs101Theory])] ∧
    ((setupCourseUnits [cs101Theory, inheritedTheory, cs102Theory]).flatMap Prod.snd).flatMap
        unitSections = [cs101Theory] ∧
    inheritedTheory ∉ ((setupCourseUnits [cs101Theory, inheritedTheory, cs102Theory]).flatMap
        Prod.snd).flatMap unitSections ∧
    cs102Theory ∉ ((setupCourseUnits [cs101Theory, inheritedTheory, cs102Theory]).flatMap
        Prod.snd).flatMap unitSections := by
  refine ⟨by decide, by decide, by decide, by decide, by decide, by decide⟩

end ScheduleBuilder
